import Mathlib

/-!
Surfingkeys configuration compiler (`src/index.js`)

A shallow embedding of `registerKey` and `registerKeys` together with the part of the
JavaScript runtime they rely on: template literals over possibly-`undefined` values,
`String.prototype.replace` with a string pattern, ordinary objects with their own-property
order, and a fragment of the ECMAScript regular-expression language (pattern syntax of
Annex B without flags, and the backtracking matcher behind `RegExp.prototype.test`).

Strings are Lean strings; one Lean character stands for one UTF-16 code unit, so the model
speaks about text of the Basic Multilingual Plane.
-/

namespace Surfingkeys

/-! ## Errors and completions -/

/-- What a JavaScript evaluation can throw in this model; `raised` is an error raised by the
host engine, given by its text. `outsideModel` is not a JavaScript
error: it marks a regular-expression pattern that uses a construct the model does not cover
(braces, alphanumeric escapes, look-around and named groups), about which nothing is stated. -/
inductive JSError
  | syntaxError
  | typeError
  | outsideModel
  | raised (text : String)
  deriving DecidableEq, Repr

/-- Completion record of a statement: it returns normally or throws. -/
inductive Completion
  | normal
  | throw (e : JSError)
  deriving DecidableEq, Repr

/-- Equality of results is decidable. -/
instance instDecidableEqExcept {ε α : Type} [DecidableEq ε] [DecidableEq α] :
    DecidableEq (Except ε α)
  | .ok a, .ok b =>
    if h : a = b then isTrue (by rw [h]) else isFalse (fun h1 => h (Except.ok.inj h1))
  | .error a, .error b =>
    if h : a = b then isTrue (by rw [h]) else isFalse (fun h1 => h (Except.error.inj h1))
  | .ok _, .error _ => isFalse (fun h => Except.noConfusion h)
  | .error _, .ok _ => isFalse (fun h => Except.noConfusion h)

/-- Conversion of a value that is a string or `undefined` inside a template literal. -/
def tpl : Option String → String
  | some s => s
  | none => "undefined"

/-- The call `s.replace(pat, rep)` with a string pattern: only the first occurrence is replaced
(the replacement text is taken literally, it holds no `$` pattern here). -/
def replaceFirst (pat rep : List Char) : List Char → List Char
  | [] => if pat = [] then rep else []
  | c :: cs =>
    if pat.isPrefixOf (c :: cs) then rep ++ (c :: cs).drop pat.length
    else c :: replaceFirst pat rep cs

/-! ## Regular expressions: syntax -/

namespace RegExp

/-- Lexical items of a pattern. A group opener is the same item for `(` and `(?:`: the
matcher only decides whether a match exists, captures play no part. -/
inductive Token
  | lit (c : Char)
  | dot
  | caret
  | dollar
  | star
  | plus
  | quest
  | bar
  | lparen
  | rparen
  | cls (neg : Bool) (ranges : List (Char × Char))
  deriving DecidableEq, Repr

/-- Reading state of ClassRanges: no atom pending, an atom pending, or an atom and an
unescaped `-` pending. -/
inductive ClassSt
  | start
  | atom (a : Char)
  | dash (a : Char)

/-- ClassRanges: the members of a class, read left to right. An atom followed by an
unescaped `-` and a further atom is a range, which must be in order; the flag of an atom
tells whether it was written with a backslash. -/
def classRanges : ClassSt → List (Char × Bool) → Except JSError (List (Char × Char))
  | .start, [] => .ok []
  | .atom a, [] => .ok [(a, a)]
  | .dash a, [] => .ok [(a, a), ('-', '-')]
  | .start, x :: xs => classRanges (.atom x.1) xs
  | .atom a, x :: xs =>
    if x.1 = '-' ∧ x.2 = false then classRanges (.dash a) xs
    else (classRanges (.atom x.1) xs).map ((a, a) :: ·)
  | .dash a, x :: xs =>
    if a.toNat ≤ x.1.toNat then (classRanges .start xs).map ((a, x.1) :: ·)
    else .error .syntaxError

/-- The token of a finished class: a leading unescaped `^` negates it. -/
def classToken (atoms : List (Char × Bool)) : Except JSError Token :=
  match atoms with
  | [] => .ok (.cls false [])
  | x :: rest =>
    if x.1 = '^' ∧ x.2 = false then (classRanges .start rest).map (.cls true ·)
    else (classRanges .start (x :: rest)).map (.cls false ·)

/-- Where the lexer stands: in the pattern proper, after a backslash, after `(`, after
`(?`, inside `[...]` with the class atoms read so far (most recent first), or after a
backslash inside a class. -/
inductive LexMode
  | normal
  | escape
  | paren
  | parenQ
  | cls (atoms : List (Char × Bool))
  | clsEscape (atoms : List (Char × Bool))
  deriving DecidableEq, Repr

/-- The token of a pattern character that is neither `\`, `[` nor `(`. Braces are not
covered; `]` is an ordinary character (Annex B). -/
def charToken (c : Char) : Except JSError Token :=
  if c = '.' then .ok .dot
  else if c = '^' then .ok .caret
  else if c = '$' then .ok .dollar
  else if c = '*' then .ok .star
  else if c = '+' then .ok .plus
  else if c = '?' then .ok .quest
  else if c = '|' then .ok .bar
  else if c = ')' then .ok .rparen
  else if c = '{' ∨ c = '}' then .error .outsideModel
  else .ok (.lit c)

/-- A character read in the pattern proper: the tokens it completes and the next mode. -/
def normalStep (c : Char) : Except JSError (List Token × LexMode) :=
  if c = '\\' then .ok ([], .escape)
  else if c = '[' then .ok ([], .cls [])
  else if c = '(' then .ok ([], .paren)
  else (charToken c).map fun t => ([t], .normal)

/-- One character of the pattern. A backslash before a character that is not an ASCII
letter or digit is an identity escape, before a letter or digit it is outside the model.
After `(`, a `?` must be followed by `:` (other group specifiers are outside the model). -/
def lexStep : LexMode → Char → Except JSError (List Token × LexMode)
  | .normal, c => normalStep c
  | .escape, c => if c.isAlphanum then .error .outsideModel else .ok ([.lit c], .normal)
  | .paren, c =>
    if c = '?' then .ok ([], .parenQ)
    else (normalStep c).map fun r => (.lparen :: r.1, r.2)
  | .parenQ, c => if c = ':' then .ok ([.lparen], .normal) else .error .outsideModel
  | .cls atoms, c =>
    if c = ']' then (classToken atoms.reverse).map fun t => ([t], .normal)
    else if c = '\\' then .ok ([], .clsEscape atoms)
    else .ok ([], .cls ((c, false) :: atoms))
  | .clsEscape atoms, c =>
    if c.isAlphanum then .error .outsideModel else .ok ([], .cls ((c, true) :: atoms))

/-- End of the pattern: a pending backslash, group specifier or class is a syntax error. -/
def lexEnd : LexMode → Except JSError (List Token)
  | .normal => .ok []
  | .paren => .ok [.lparen]
  | _ => .error .syntaxError

/-- Lexer: pattern text to tokens. -/
def lex : LexMode → List Char → Except JSError (List Token)
  | m, [] => lexEnd m
  | m, c :: cs =>
    match lexStep m c with
    | .error e => .error e
    | .ok r => (lex r.2 cs).map (r.1 ++ ·)

end RegExp

/-- Abstract syntax of the patterns of the fragment. The flag of a quantifier tells whether
it is greedy. -/
inductive Regex
  | eps
  | char (c : Char)
  | any
  | cls (neg : Bool) (ranges : List (Char × Char))
  | bol
  | eol
  | seq (a b : Regex)
  | alt (a b : Regex)
  | group (r : Regex)
  | star (greedy : Bool) (r : Regex)
  | plus (greedy : Bool) (r : Regex)
  | opt (greedy : Bool) (r : Regex)
  deriving DecidableEq, Repr

namespace RegExp

/-- An Alternative from its terms, given most recent first. -/
def mkSeq (terms : List Regex) : Regex :=
  terms.foldl (fun acc t => Regex.seq t acc) Regex.eps

/-- A Disjunction from its alternatives, given most recent first. -/
def mkAlt : List Regex → Regex
  | [] => Regex.eps
  | [a] => a
  | a :: b :: rest => Regex.alt (mkAlt (b :: rest)) a

/-- A Disjunction under construction: its finished alternatives and the terms of the
current alternative, both most recent first. -/
structure Frame where
  alts : List Regex
  terms : List Regex
  deriving DecidableEq, Repr

/-- The Disjunction a frame stands for once it is complete. -/
def Frame.close (f : Frame) : Regex :=
  mkAlt (mkSeq f.terms :: f.alts)

/-- What the last term of the current alternative admits: nothing (start of an
alternative, an assertion, a lazy quantifier), a quantifier (it is an atom), or only the
`?` that makes a quantifier lazy. -/
inductive Prev
  | none
  | atom
  | quant
  deriving DecidableEq, Repr

/-- Parser state: the enclosing groups, the innermost open Disjunction, and the kind of its
last term. -/
structure PState where
  stack : List Frame
  cur : Frame
  prev : Prev
  deriving DecidableEq, Repr

/-- Adds a term to the current alternative. -/
def PState.push (st : PState) (t : Regex) (k : Prev) : PState :=
  { st with cur := { st.cur with terms := t :: st.cur.terms }, prev := k }

/-- Turns the quantifier at the top of a term into its lazy form. -/
def makeLazy : Regex → Regex
  | .star _ r => .star false r
  | .plus _ r => .plus false r
  | .opt _ r => .opt false r
  | r => r

/-- Applies a quantifier to the last term; there must be an atom to repeat. -/
def PState.quantify (st : PState) (q : Regex → Regex) : Except JSError PState :=
  match st.prev, st.cur.terms with
  | .atom, t :: ts => .ok { st with cur := { st.cur with terms := q t :: ts }, prev := .quant }
  | _, _ => .error .syntaxError

/-- One token of the pattern. -/
def parseStep (st : PState) : Token → Except JSError PState
  | .lit c => .ok (st.push (.char c) .atom)
  | .dot => .ok (st.push .any .atom)
  | .cls neg rs => .ok (st.push (.cls neg rs) .atom)
  | .caret => .ok (st.push .bol .none)
  | .dollar => .ok (st.push .eol .none)
  | .bar =>
    .ok { st with cur := { alts := mkSeq st.cur.terms :: st.cur.alts, terms := [] }, prev := .none }
  | .lparen => .ok { stack := st.cur :: st.stack, cur := { alts := [], terms := [] }, prev := .none }
  | .rparen =>
    match st.stack with
    | [] => .error .syntaxError
    | f :: fs =>
      .ok { stack := fs, cur := { f with terms := .group st.cur.close :: f.terms }, prev := .atom }
  | .star => st.quantify (.star true)
  | .plus => st.quantify (.plus true)
  | .quest =>
    match st.prev, st.cur.terms with
    | .quant, t :: ts =>
      .ok { st with cur := { st.cur with terms := makeLazy t :: ts }, prev := .none }
    | _, _ => st.quantify (.opt true)

/-- Runs the parser over the tokens. -/
def parseTokens : PState → List Token → Except JSError PState
  | st, [] => .ok st
  | st, t :: ts =>
    match parseStep st t with
    | .error e => .error e
    | .ok st1 => parseTokens st1 ts

/-- Pattern text to abstract syntax; a group left open is a syntax error. -/
def parse (pattern : List Char) : Except JSError Regex :=
  match lex .normal pattern with
  | .error e => .error e
  | .ok ts =>
    match parseTokens { stack := [], cur := { alts := [], terms := [] }, prev := .none } ts with
    | .error e => .error e
    | .ok st => if st.stack = [] then .ok st.cur.close else .error .syntaxError

end RegExp

/-! ## Regular expressions: matching -/

/-- Whether a character belongs to a class. -/
def classMatches (neg : Bool) (ranges : List (Char × Char)) (c : Char) : Bool :=
  (ranges.any fun r => decide (r.1.toNat ≤ c.toNat) && decide (c.toNat ≤ r.2.toNat)) != neg

/-- LineTerminator code units, which `.` does not match. -/
def isLineTerminator (c : Char) : Bool :=
  c.toNat = 10 || c.toNat = 13 || c.toNat = 0x2028 || c.toNat = 0x2029

/-- RepeatMatcher with no lower bound left: each further iteration must consume input (an
iteration that ends where it began is a failure), and a greedy quantifier tries a further
iteration before it tries to stop. The results are the inputs left over, in backtracking
order. -/
def repeatLoop (greedy : Bool) (body : List Char → List (List Char)) :
    Nat → List Char → List (List Char)
  | 0, s => [s]
  | fuel + 1, s =>
    let more := ((body s).filter fun t => decide (t.length < s.length)).flatMap
      (repeatLoop greedy body fuel)
    if greedy then more ++ [s] else s :: more

/-- Backtracking matcher: all the ways the pattern matches at the head of the input `s`,
each given by the input left over, in the order a backtracking engine tries them. `n` is
the length of the whole subject string, so `s` is at its start when `s.length = n`. -/
def Regex.run (n : Nat) : Regex → List Char → List (List Char)
  | .eps, s => [s]
  | .char c, s =>
    match s with
    | [] => []
    | x :: xs => if x = c then [xs] else []
  | .any, s =>
    match s with
    | [] => []
    | x :: xs => if isLineTerminator x then [] else [xs]
  | .cls neg rs, s =>
    match s with
    | [] => []
    | x :: xs => if classMatches neg rs x then [xs] else []
  | .bol, s => if s.length = n then [s] else []
  | .eol, s => if s.isEmpty then [s] else []
  | .seq a b, s => (Regex.run n a s).flatMap (Regex.run n b)
  | .alt a b, s => Regex.run n a s ++ Regex.run n b s
  | .group r, s => Regex.run n r s
  | .star g r, s => repeatLoop g (Regex.run n r) s.length s
  | .plus g r, s => (Regex.run n r s).flatMap fun t => repeatLoop g (Regex.run n r) t.length t
  | .opt g r, s =>
    let once := (Regex.run n r s).filter fun t => decide (t.length < s.length)
    if g then once ++ [s] else s :: once

/-- The search of `RegExp.prototype.test`: a match is tried at each position from the
current one to the end of the subject. -/
def Regex.searchFrom (r : Regex) (n : Nat) : List Char → Bool
  | [] => !(r.run n []).isEmpty
  | c :: cs => !(r.run n (c :: cs)).isEmpty || Regex.searchFrom r n cs

/-- Whether the pattern matches somewhere in the subject. -/
def Regex.test (r : Regex) (s : List Char) : Bool :=
  r.searchFrom s.length s

/-- A RegExp object without flags, identified by its source text. -/
structure RegExp where
  source : String
  deriving DecidableEq, Repr

/-- The constructor call `new RegExp(pattern)`: it throws a SyntaxError on an ill-formed
pattern. -/
def RegExp.new (pattern : String) : Except JSError RegExp :=
  match RegExp.parse pattern.data with
  | .error e => .error e
  | .ok _ => .ok { source := pattern }

/-- The method `re.test(s)`. -/
def RegExp.test (re : RegExp) (s : String) : Bool :=
  match RegExp.parse re.source.data with
  | .error _ => false
  | .ok r => r.test s.data

/-! ## Ordinary objects -/

/-- An ordinary object with string keys: its own enumerable properties in creation order.
The keys are distinct. Property lookup is lookup among the own properties: keys that name a
member of `Object.prototype` (such as `"constructor"`) are not covered. -/
abbrev JSObject (α : Type) := List (String × α)

/-- The property read `o[k]`; `none` is `undefined`. -/
def JSObject.get {α : Type} : JSObject α → String → Option α
  | [], _ => none
  | p :: rest, k => if p.1 = k then some p.2 else JSObject.get rest k

/-- The property write `o[k] = v`: an existing property keeps its place, a new one is
created last. -/
def JSObject.set {α : Type} : JSObject α → String → α → JSObject α
  | [], k, v => [(k, v)]
  | p :: rest, k, v => if p.1 = k then (p.1, v) :: rest else p :: JSObject.set rest k v

/-- Value of a string of decimal digits. -/
def digitsValue (cs : List Char) : Nat :=
  cs.foldl (fun n c => 10 * n + (c.toNat - 48)) 0

/-- The array index a property key denotes, if any: a canonical numeric string below
`2^32 - 1`. -/
def arrayIndex? (k : String) : Option Nat :=
  match k.data with
  | [] => none
  | c :: cs =>
    if (c :: cs).all Char.isDigit ∧ (c ≠ '0' ∨ cs = []) ∧ digitsValue (c :: cs) < 2 ^ 32 - 1 then
      some (digitsValue (c :: cs))
    else none

/-- Insertion into a list of indexed properties kept in ascending index order. -/
def insertIndexed {α : Type} (e : Nat × (String × α)) :
    List (Nat × (String × α)) → List (Nat × (String × α))
  | [] => [e]
  | x :: xs => if e.1 ≤ x.1 then e :: x :: xs else x :: insertIndexed e xs

/-- The call `Object.entries(o)`: array-index keys in ascending numeric order, then the
other keys in creation order. -/
def Object.entries {α : Type} (o : JSObject α) : List (String × α) :=
  ((o.filterMap fun p => (arrayIndex? p.1).map fun i => (i, p)).foldr insertIndexed []).map
      (fun e => e.2)
    ++ o.filter fun p => (arrayIndex? p.1).isNone

/-- The call `Object.assign(target, ...sources)`: the properties of each source are written
to the target, source after source, each in its own-property order. -/
def Object.assign {α : Type} (target : JSObject α) (sources : List (JSObject α)) : JSObject α :=
  sources.foldl (fun t src => (Object.entries src).foldl (fun t1 p => t1.set p.1 p.2) t) target

/-! ## The host engine -/

/-- A function value given to the host: a function of the configuration, which the compiler
only passes on, or one of the two closures `registerSearchEngines` builds around the alias
of a search engine, `() => Front.openOmnibar({type: "SearchEngine", extra: s.alias})` and
`() => Clipboard.read((c) => Front.openOmnibar({type: "SearchEngine", pref: c.data,
extra: s.alias}))`. -/
inductive Callback
  | user (id : Nat)
  | searchPrompt (extra : Option String)
  | searchPromptClipboard (extra : Option String)
  deriving DecidableEq, Repr

/-- What a closure of `registerSearchEngines` does with the front end when it is invoked. -/
inductive FrontEffect
  | clipboardRead
  | openOmnibar (type : String) (extra : Option String) (pref : Option String)
  deriving DecidableEq, Repr

/-- The effects of invoking a callback while the clipboard holds the given text; the
functions of the configuration are not looked into. -/
def Callback.invoke (clipboard : String) : Callback → Option (List FrontEffect)
  | .user _ => none
  | .searchPrompt extra => some [.openOmnibar "SearchEngine" extra none]
  | .searchPromptClipboard extra =>
    some [.clipboardRead, .openOmnibar "SearchEngine" extra (some clipboard)]

/-- The options object given to `mapkey` and `vmapkey`. -/
structure Opts where
  domain : Option RegExp
  deriving DecidableEq, Repr

/-- The options object given to `addSearchAlias`. -/
structure SearchOptions where
  favicon_url : Option String
  skipMaps : Bool
  deriving DecidableEq, Repr

/-- A call of a host primitive with the arguments passed to it; `none` for an argument is
`undefined`, and for the options of `mapkey` it is a call with three arguments.
`assignSettings` stands for `Object.assign(settings, ...)` on the settings of the host. -/
inductive HostCall
  | map (newKeystroke : Option String) (oldKeystroke : String)
  | vmap (newKeystroke : Option String) (oldKeystroke : String)
  | mapkey (keys : String) (description : String) (jscode : Option Callback) (options : Option Opts)
  | vmapkey (keys : String) (description : String) (jscode : Option Callback)
      (options : Option Opts)
  | unmap (keystroke : String)
  | vunmap (keystroke : String)
  | removeSearchAlias (alias_ : String) (searchLeaderKey : String)
  | addSearchAlias (alias_ : Option String) (prompt : Option String) (searchUrl : Option String)
      (searchLeaderKey : String) (suggestionUrl : Option String)
      (callbackToParseSuggestion : Option Callback) (onlyThisSiteKey : Option String)
      (options : SearchOptions)
  | assignSettings (source : Nat)
  deriving DecidableEq, Repr

/-- The domain restriction a call carries: the `domain` of its options, if it has options. -/
def HostCall.restriction : HostCall → Option RegExp
  | .mapkey _ _ _ (some o) => o.domain
  | .vmapkey _ _ _ (some o) => o.domain
  | _ => none

/-- The host engine, an external collaborator: it has some state of its own, and a call
gives a new state and either returns (`none`) or raises an error (its text). -/
structure Host (σ : Type) where
  call : σ → HostCall → σ × Option String

/-- A host that accepts every call. -/
def Host.quiet : Host Unit where
  call := fun _ _ => ((), none)

/-- What the compiler acts on: the host, the calls submitted to it so far (oldest first),
and the lines written with `console.error`. -/
structure World (σ : Type) where
  host : σ
  calls : List HostCall
  console : List String
  deriving DecidableEq, Repr

/-- The category table of `help.js`, of which the compiler reads the tag `misc`. -/
structure Categories where
  misc : String

/-! ## `registerKey` and `registerKeys` -/

/-- A keybinding declaration (`Mapping` in `keys.js`); `none` is an absent or `undefined`
property. The property `alias` is written `alias_` here. A category is given by the text of
its tag. -/
structure Mapping where
  alias_ : Option String := none
  map : Option String := none
  callback : Option Callback := none
  leader : Option String := none
  category : Option String := none
  description : Option String := none
  path : Option String := none
  deriving DecidableEq, Repr

/-- The statement `try { f(args) } catch (e) { console.error(...) }` of `registerKey`
around one host call. -/
def tryBind {σ : Type} (H : Host σ) (alias_ : Option String) (mode : String) (c : HostCall)
    (w : World σ) : World σ :=
  match H.call w.host c with
  | (h, none) => { w with host := h, calls := w.calls ++ [c] }
  | (h, some e) =>
    { host := h, calls := w.calls ++ [c],
      console := w.console ++ ["Error registering key " ++ tpl alias_ ++ ": " ++ e ++ ". Mode: " ++ mode] }

/-- The leader of a declaration: its own, else none under `"global"`, else the site
leader. -/
def resolveLeader (domain : String) (mapObj : Mapping) (siteleader : Option String) :
    Option String :=
  match mapObj.leader with
  | some l => some l
  | none => if domain = "global" then some "" else siteleader

/-- The source text of the domain regular expression. -/
def domainPattern (domain : String) (mapObj : Mapping) : String :=
  "^http(s)?://(([a-zA-Z0-9-_]+\\.)*)("
    ++ String.mk (replaceFirst ".".data "\\.".data domain.data) ++ ")"
    ++ mapObj.path.getD "(/.*)?"

/-- The options object `opts` built by `registerKey`; building it throws when the pattern
is ill-formed. -/
def buildOpts (domain : String) (mapObj : Mapping) : Except JSError Opts :=
  if domain ≠ "global" then
    match RegExp.new (domainPattern domain mapObj) with
    | .error e => .error e
    | .ok re => .ok { domain := some re }
  else .ok { domain := none }

/-- The function `registerKey(domain, mapObj, siteleader, mode)`. -/
def registerKey {σ : Type} (H : Host σ) (categories : Categories) (domain : String)
    (mapObj : Mapping) (siteleader : Option String) (mode : String) (w : World σ) :
    Completion × World σ :=
  let alias_ := mapObj.alias_
  let callback := mapObj.callback
  let leader := resolveLeader domain mapObj siteleader
  let category := mapObj.category.getD categories.misc
  let description := mapObj.description.getD ""
  let key := tpl leader ++ tpl alias_
  match buildOpts domain mapObj with
  | .error e => (.throw e, w)
  | .ok opts =>
    let fullDescription := "#" ++ category ++ " " ++ description
    if mode = "v" then
      match mapObj.map with
      | some target => (.normal, tryBind H alias_ mode (.vmap alias_ target) w)
      | none => (.normal, tryBind H alias_ mode (.vmapkey key fullDescription callback (some opts)) w)
    else
      match mapObj.map with
      | some target => (.normal, tryBind H alias_ mode (.map alias_ target) w)
      | none => (.normal, tryBind H alias_ mode (.mapkey key fullDescription callback (some opts)) w)

/-- The host call `registerKey` makes once the options are built, as a function of its
arguments (see `registerKey_of_ok`). -/
def bindCall (categories : Categories) (domain : String) (mapObj : Mapping)
    (siteleader : Option String) (mode : String) (opts : Opts) : HostCall :=
  if mode = "v" then
    match mapObj.map with
    | some target => .vmap mapObj.alias_ target
    | none =>
      .vmapkey (tpl (resolveLeader domain mapObj siteleader) ++ tpl mapObj.alias_)
        ("#" ++ mapObj.category.getD categories.misc ++ " " ++ mapObj.description.getD "")
        mapObj.callback (some opts)
  else
    match mapObj.map with
    | some target => .map mapObj.alias_ target
    | none =>
      .mapkey (tpl (resolveLeader domain mapObj siteleader) ++ tpl mapObj.alias_)
        ("#" ++ mapObj.category.getD categories.misc ++ " " ++ mapObj.description.getD "")
        mapObj.callback (some opts)

/-- The method `forEach` with a body that may throw: the first throw ends the loop. -/
def forEach {σ α : Type} (body : α → World σ → Completion × World σ) :
    List α → World σ → Completion × World σ
  | [], w => (.normal, w)
  | x :: xs, w =>
    match body x w with
    | (.normal, w1) => forEach body xs w1
    | (.throw e, w1) => (.throw e, w1)

/-- The array `hydratedAliases`: one single-property object per alias domain, holding the
base domain's list (or `undefined`). -/
def hydratedAliases (maps : JSObject (List Mapping)) (aliases : JSObject (List String)) :
    List (JSObject (Option (List Mapping))) :=
  (Object.entries aliases).flatMap fun g => g.2.map fun a => [(a, maps.get g.1)]

/-- The object `mapsAndAliases`: the domain map, then the alias objects written over it. -/
def mapsAndAliases (maps : JSObject (List Mapping)) (aliases : JSObject (List String)) :
    JSObject (Option (List Mapping)) :=
  Object.assign [] ((maps.map fun p => (p.1, some p.2)) :: hydratedAliases maps aliases)

/-- The function `registerKeys(maps, aliases, siteleader, mode)`. Calling `forEach` on an
`undefined` list throws a TypeError. -/
def registerKeys {σ : Type} (H : Host σ) (categories : Categories)
    (maps : JSObject (List Mapping)) (aliases : JSObject (List String))
    (siteleader : Option String) (mode : String) (w : World σ) : Completion × World σ :=
  forEach
    (fun (e : String × Option (List Mapping)) w1 =>
      match e.2 with
      | none => (.throw .typeError, w1)
      | some domainMaps =>
        forEach (fun mapObj w2 => registerKey H categories e.1 mapObj siteleader mode w2)
          domainMaps w1)
    (Object.entries (mapsAndAliases maps aliases)) w

/-! ## `registerSearchEngines` and `main` -/

/-- A host call outside any `try`: an error the host raises is thrown on. -/
def callHost {σ : Type} (H : Host σ) (c : HostCall) (w : World σ) : Completion × World σ :=
  match H.call w.host c with
  | (h, none) => (.normal, { w with host := h, calls := w.calls ++ [c] })
  | (h, some e) => (.throw (.raised e), { w with host := h, calls := w.calls ++ [c] })

/-- Sequencing of two statements: the second runs when the first returns normally. -/
def andThen {σ : Type} (r : Completion × World σ) (k : World σ → Completion × World σ) :
    Completion × World σ :=
  match r with
  | (.normal, w) => k w
  | (.throw e, w) => (.throw e, w)

/-- A search engine declaration; `none` is an absent or `undefined` property. The compiler
only passes the values on: a `search` or `callback` function is given by a name. -/
structure SearchEngine where
  alias_ : Option String := none
  name : Option String := none
  search : Option String := none
  compl : Option String := none
  callback : Option Callback := none
  favicon : Option String := none
  deriving DecidableEq, Repr

/-- The call `Object.values(o)`. -/
def Object.values {α : Type} (o : JSObject α) : List α :=
  (Object.entries o).map fun e => e.2

/-- The function `registerSearchEngines(searchEngines, searchleader)`. -/
def registerSearchEngines {σ : Type} (H : Host σ) (searchEngines : JSObject SearchEngine)
    (searchleader : Option String) (w : World σ) : Completion × World σ :=
  forEach
    (fun (s : SearchEngine) w1 =>
      let options : SearchOptions := { favicon_url := s.favicon, skipMaps := true }
      andThen
        (callHost H (.addSearchAlias s.alias_ s.name s.search "" s.compl s.callback none options)
          w1)
        fun w2 =>
      andThen
        (callHost H
          (.mapkey (tpl searchleader ++ tpl s.alias_) ("#8Search " ++ tpl s.name)
            (some (.searchPrompt s.alias_)) none)
          w2)
        fun w3 =>
      callHost H
        (.mapkey ("c" ++ tpl searchleader ++ tpl s.alias_)
          ("#8Search " ++ tpl s.name ++ " with clipboard contents")
          (some (.searchPromptClipboard s.alias_)) none)
        w3)
    (Object.values searchEngines) w

/-- The object `unmaps` of the configuration. -/
structure Unmaps where
  mappings : Option (List String) := none
  vmappings : Option (List String) := none
  searchAliases : Option (JSObject (List String)) := none
  deriving DecidableEq, Repr

/-- The object `keys` of the configuration (the default export of `keys.js`). -/
structure Keys where
  unmaps : Option Unmaps := none
  maps : Option (JSObject (List Mapping)) := none
  vmaps : Option (JSObject (List Mapping)) := none
  aliases : Option (JSObject (List String)) := none
  deriving DecidableEq, Repr

/-- The configuration `conf` that `main` reads (the module `conf.js`). The settings are
given by a name for the object that `conf.settings`, or the call `conf.settings()`,
yields. -/
structure Conf where
  settings : Option Nat := none
  keys : Option Keys := none
  searchEngines : Option (JSObject SearchEngine) := none
  searchleader : Option String := none
  siteleader : Option String := none
  deriving DecidableEq, Repr

/-- The statement `if (conf.settings) { Object.assign(settings, ...) }` of `main`. -/
def mainSettings {σ : Type} (H : Host σ) (conf : Conf) (w : World σ) : Completion × World σ :=
  match conf.settings with
  | some s => callHost H (.assignSettings s) w
  | none => (.normal, w)

/-- The statement `if (conf.keys && conf.keys.unmaps) { ... }` of `main`. -/
def mainUnmaps {σ : Type} (H : Host σ) (conf : Conf) (w : World σ) : Completion × World σ :=
  match conf.keys.bind fun keys => keys.unmaps with
  | some unmaps =>
    andThen
      (match unmaps.mappings with
        | some mappings => forEach (fun m w1 => callHost H (.unmap m) w1) mappings w
        | none => (.normal, w))
      fun w2 =>
    andThen
      (match unmaps.vmappings with
        | some vmappings => forEach (fun m w1 => callHost H (.vunmap m) w1) vmappings w2
        | none => (.normal, w2))
      fun w3 =>
    match unmaps.searchAliases with
    | some searchAliases =>
      forEach
        (fun (e : String × List String) w4 =>
          forEach (fun v w5 => callHost H (.removeSearchAlias v e.1) w5) e.2 w4)
        (Object.entries searchAliases) w3
    | none => (.normal, w3)
  | none => (.normal, w)

/-- The statement `if (conf.searchEngines) { ... }` of `main`. -/
def mainSearchEngines {σ : Type} (H : Host σ) (conf : Conf) (w : World σ) :
    Completion × World σ :=
  match conf.searchEngines with
  | some searchEngines =>
    registerSearchEngines H searchEngines (some (conf.searchleader.getD "o")) w
  | none => (.normal, w)

/-- The statement `if (conf.keys && conf.keys.maps) { ... }` of `main`; the mode is the
default `"n"`. -/
def mainMaps {σ : Type} (H : Host σ) (categories : Categories) (conf : Conf) (w : World σ) :
    Completion × World σ :=
  match conf.keys with
  | some keys =>
    match keys.maps with
    | some maps => registerKeys H categories maps (keys.aliases.getD []) conf.siteleader "n" w
    | none => (.normal, w)
  | none => (.normal, w)

/-- The statement `if (conf.keys && conf.keys.vmaps) { ... }` of `main`. -/
def mainVmaps {σ : Type} (H : Host σ) (categories : Categories) (conf : Conf) (w : World σ) :
    Completion × World σ :=
  match conf.keys with
  | some keys =>
    match keys.vmaps with
    | some vmaps => registerKeys H categories vmaps (keys.aliases.getD []) conf.siteleader "v" w
    | none => (.normal, w)
  | none => (.normal, w)

/-- The function `main()`: its statements in order (the assignment to `window.surfingKeys`
makes no call). A throw is the rejection of the promise it returns. -/
def main {σ : Type} (H : Host σ) (categories : Categories) (conf : Conf) (w : World σ) :
    Completion × World σ :=
  andThen (mainSettings H conf w) fun w1 =>
  andThen (mainUnmaps H conf w1) fun w2 =>
  andThen (mainSearchEngines H conf w2) fun w3 =>
  andThen (mainMaps H categories conf w3) fun w4 =>
  mainVmaps H categories conf w4

/-! ## Definitions used in the proofs about the domain predicate -/

/-- The lexer run over a piece of a pattern: the tokens completed and the mode reached. -/
def RegExp.lexRun : RegExp.LexMode → List Char → Except JSError (List RegExp.Token × RegExp.LexMode)
  | m, [] => .ok ([], m)
  | m, c :: cs =>
    match RegExp.lexStep m c with
    | .error e => .error e
    | .ok r =>
      match RegExp.lexRun r.2 cs with
      | .error e => .error e
      | .ok q => .ok (r.1 ++ q.1, q.2)

/-- The characters of the class `[a-zA-Z0-9-_]` of the domain pattern. -/
def isLabelChar (c : Char) : Bool :=
  classMatches false [('a', 'z'), ('A', 'Z'), ('0', '9'), ('-', '-'), ('_', '_')] c

/-- The pattern that matches the given text, followed by `k`. -/
def lits (cs : List Char) (k : Regex) : Regex :=
  (cs.map Regex.char).foldr Regex.seq k

/-- Abstract syntax of `^http(s)?://(([a-zA-Z0-9-_]+\.)*)(dom)(/.*)?`. -/
def domainRegex (dom : Regex) : Regex :=
  .seq .bol <| lits "http".data <| .seq (.opt true (.group (lits "s".data .eps))) <|
    lits "://".data <|
    .seq (.group (.seq (.star true (.group (.seq
      (.plus true (.cls false [('a', 'z'), ('A', 'Z'), ('0', '9'), ('-', '-'), ('_', '_')]))
      (.seq (.char '.') .eps)))) .eps)) <|
    .seq (.group dom) <|
    .seq (.opt true (.group (.seq (.char '/') (.seq (.star true .any) .eps)))) .eps

/-- Tokens of `^http(s)?://(([a-zA-Z0-9-_]+\\.)*)`, the part of the domain pattern before
the group of the domain. -/
def prefixTokens : List RegExp.Token :=
  [.caret, .lit 'h', .lit 't', .lit 't', .lit 'p', .lparen, .lit 's', .rparen, .quest,
   .lit ':', .lit '/', .lit '/', .lparen, .lparen,
   .cls false [('a', 'z'), ('A', 'Z'), ('0', '9'), ('-', '-'), ('_', '_')], .plus, .lit '.',
   .rparen, .star, .rparen]

/-- Tokens of `)(/.*)?`, the end of the domain pattern with the default path. -/
def suffixTokens : List RegExp.Token :=
  [.rparen, .lparen, .lit '/', .dot, .star, .rparen, .quest]

/-- The inputs a repetition can reach from `s`: `s` itself, and what is reachable after one
iteration that consumes input. -/
inductive Reach (body : List Char → List (List Char)) : List Char → List Char → Prop
  | refl (s : List Char) : Reach body s s
  | step {s mid t : List Char} (h : mid ∈ body s) (hlt : mid.length < s.length)
      (hr : Reach body mid t) : Reach body s t

/-! ## Example inputs -/

namespace Example

/-- Modelled from the spec: the category table of `help.js`, which is not among the
sources; the tag of `misc` is written `misc`, as in the description `"#misc "` of the spec. -/
def categories : Categories := { misc := "misc" }

/-- A world in which nothing has happened yet, over the host that accepts every call. -/
def w0 : World Unit := { host := (), calls := [], console := [] }

/-- A host that raises on every call. -/
def rejecting : Host Unit where
  call := fun _ _ => ((), some "Error: rejected")

/-- The declaration `{alias: "a", map: "b"}`. -/
def remapAB : Mapping := { alias_ := some "a", map := some "b" }

/-- The declaration `{alias: "a", callback: f}`. -/
def callbackA : Mapping := { alias_ := some "a", callback := some (.user 0) }

/-- A declaration whose path fragment `(` leaves a group open. -/
def badPath : Mapping := { alias_ := some "a", path := some "(", callback := some (.user 1) }

/-- A domain map with a list of three declarations, the second of which has the ill-formed
path, and a second domain. -/
def mapsBadPath : JSObject (List Mapping) :=
  [("github.com",
      [{ alias_ := some "x", callback := some (.user 2) }, badPath,
       { alias_ := some "b", callback := some (.user 3) }]),
   ("gitlab.com", [{ alias_ := some "c", callback := some (.user 4) }])]

/-- The first declaration of `maps["home.nest.com"]` in `keys.js`. -/
def nestIncrement : Mapping :=
  { path := some "/thermostat/DEVICE_.*", leader := some "", alias_ := some "=",
    description := some "Increment temperature", callback := some (.user 5) }

/-- A domain map in which an alias domain also has a list of its own. -/
def mapsExplicitAlias : JSObject (List Mapping) :=
  [("wikipedia.org", [{ alias_ := some "s", callback := some (.user 6) }]),
   ("wiktionary.org", [{ alias_ := some "t", callback := some (.user 7) }])]

/-- One alias group: `wiktionary.org` is an alias of `wikipedia.org`. -/
def aliasesWiki : JSObject (List String) := [("wikipedia.org", ["wiktionary.org"])]

/-- A domain map with a list for `"global"` only. -/
def mapsGlobal : JSObject (List Mapping) := [("global", [callbackA])]

/-- One alias group: `example.com` is an alias of `"global"`. -/
def aliasesOfGlobal : JSObject (List String) := [("global", ["example.com"])]

/-- A domain map with a list of two declarations for `wikipedia.org`. -/
def mapsWiki : JSObject (List Mapping) := [("wikipedia.org", [callbackA, remapAB])]

/-- A list in which the first and the third declaration resolve to the same key. -/
def specsOverride : List Mapping :=
  [{ alias_ := some "a", description := some "first", callback := some (.user 10) },
   { alias_ := some "b", description := some "second", callback := some (.user 11) },
   { alias_ := some "a", description := some "third", callback := some (.user 12) }]

/-- The search engines `{google: {alias: "g", name: "Google", ...}}`. -/
def searchEnginesGoogle : JSObject SearchEngine :=
  [("google",
    { alias_ := some "g", name := some "Google",
      search := some "https://www.google.com/search?q=",
      compl := some "https://www.google.com/complete/search?client=chrome-omni&q=",
      callback := some (.user 13), favicon := some "https://www.google.com/favicon.ico" })]

/-- A configuration with every section: two normal-mode unmaps, a visual-mode unmap, a
search alias to remove, a search engine, and a declaration in each domain map. -/
def confFull : Conf :=
  { keys := some
      { unmaps := some
          { mappings := some ["L", ":"], vmappings := some ["h"],
            searchAliases := some [("s", ["g"])] },
        maps := some [("github.com", [callbackA])],
        vmaps := some [("global", [{ alias_ := some "<ArrowRight>", map := some "l" }])],
        aliases := none },
    searchEngines := some searchEnginesGoogle,
    searchleader := none,
    siteleader := some "r" }

/-- A configuration with the normal-mode domain map only, in which a declaration has the
ill-formed path `(`. -/
def confBadPath : Conf :=
  { keys := some { maps := some [("github.com", [badPath])] } }

/-- A configuration with the visual-mode domain map and an alias group only. -/
def confVmapsAliases : Conf :=
  { keys := some
      { vmaps := some [("global", [{ alias_ := some "<ArrowRight>", map := some "l" }])],
        aliases := some [("wikipedia.org", ["wiktionary.org"])] } }

/-- A configuration with search engines only: the object `keys` is absent. -/
def confSearchOnly : Conf := { searchEngines := some searchEnginesGoogle }

/-- A domain map with two domains, of two declarations and of one. -/
def mapsTwoDomains : JSObject (List Mapping) :=
  [("github.com", [callbackA, remapAB]),
   ("global", [{ alias_ := some "x", callback := some (.user 14) }])]

/-- The declaration `{alias: "a", map: "b", callback: f}`, with both a remap target and a
callback. -/
def remapAndCallback : Mapping :=
  { alias_ := some "a", map := some "b", callback := some (.user 8) }

/-- The declaration `{alias: "a", category: "tabs", description: "Close tab", callback: f}`. -/
def described : Mapping :=
  { alias_ := some "a", category := some "tabs", description := some "Close tab",
    callback := some (.user 9) }

/-- The list `vmaps.global` of `keys.js`: four remaps of the arrow keys. The tag
`categories.visualMode` comes from `help.js`, which is not among the sources, and is a
parameter. -/
def vmapsGlobal (visualMode : Option String) : List Mapping :=
  [{ alias_ := some "<ArrowRight>", map := some "l", category := visualMode,
     description := some "forward character" },
   { alias_ := some "<ArrowLeft>", map := some "h", category := visualMode,
     description := some "backward character" },
   { alias_ := some "<ArrowDown>", map := some "j", category := visualMode,
     description := some "forward line" },
   { alias_ := some "<ArrowUp>", map := some "k", category := visualMode,
     description := some "backward line" }]

/-- The object `vmaps` of `keys.js`: its only key is `"global"`. -/
def vmapsShipped (visualMode : Option String) : JSObject (List Mapping) :=
  [("global", vmapsGlobal visualMode)]

/-- The object `aliases` of `keys.js`. -/
def aliasesShipped : JSObject (List String) :=
  [("wikipedia.org",
      ["wiktionary.org", "wikiquote.org", "wikisource.org", "wikimedia.org", "mediawiki.org",
       "wikivoyage.org", "wikibooks.org", "wikinews.org", "wikiversity.org", "wikidata.org",
       "wiki.archlinux.org"]),
   ("stackoverflow.com",
      ["stackexchange.com", "serverfault.com", "superuser.com", "askubuntu.com",
       "stackapps.com", "mathoverflow.net"])]

/-- The four calls of the visual-mode remaps of `vmaps.global`. -/
def vmapsGlobalCalls : List HostCall :=
  [.vmap (some "<ArrowRight>") "l", .vmap (some "<ArrowLeft>") "h",
   .vmap (some "<ArrowDown>") "j", .vmap (some "<ArrowUp>") "k"]

/-- A domain map with a list for `stackoverflow.com` only. -/
def mapsStack : JSObject (List Mapping) := [("stackoverflow.com", [callbackA])]

/-- Two alias groups that list the same alias domain; the base domain of the first has no
list in `mapsStack`, that of the second has one. -/
def aliasesRelisted : JSObject (List String) :=
  [("wikipedia.org", ["wiktionary.org"]), ("stackoverflow.com", ["wiktionary.org"])]

/-- The constant `rescriptMeta.docsPat` of `keys.js`. -/
def docsPat : String := "/docs(/.*)?"

/-- The first declaration of `maps["rescript-lang.org"]` in `keys.js`. -/
def rescriptFocusSearch : Mapping :=
  { leader := some "", alias_ := some "i", description := some "Focus search field",
    path := some ("(" ++ docsPat ++ ") ? $"), callback := some (.user 15) }

/-- A callback declaration without the property `alias`. -/
def noAlias : Mapping := { callback := some (.user 16) }

/-- A callback declaration without the property `alias` and with the ill-formed path `(`. -/
def noAliasBadPath : Mapping := { path := some "(", callback := some (.user 17) }

/-- The predicate `registerKey` builds for `rescriptFocusSearch` on `rescript-lang.org`. -/
def rescriptPredicate : RegExp :=
  ⟨"^http(s)?://(([a-zA-Z0-9-_]+\\.)*)(rescript-lang\\.org)(/docs(/.*)?) ? $"⟩

/-- A domain map with a list of two declarations: one without alias, one with the
ill-formed path `(`. -/
def mapsNoAliasBadPath : JSObject (List Mapping) := [("github.com", [noAlias, badPath])]

end Example

/-! ## Kinds of host calls -/

/-- The calls into the normal-mode registry of bindings: `map` and `mapkey`. -/
def HostCall.isNormalBind : HostCall → Bool
  | .map _ _ => true
  | .mapkey _ _ _ _ => true
  | _ => false

/-- The calls into the visual-mode registry of bindings: `vmap` and `vmapkey`. -/
def HostCall.isVisualBind : HostCall → Bool
  | .vmap _ _ => true
  | .vmapkey _ _ _ _ => true
  | _ => false

/-- The remap variant of a bind call: `map` and `vmap`. -/
def HostCall.isRemap : HostCall → Bool
  | .map _ _ => true
  | .vmap _ _ => true
  | _ => false

/-- The callback variant of a bind call: `mapkey` and `vmapkey`. -/
def HostCall.isCallbackBind : HostCall → Bool
  | .mapkey _ _ _ _ => true
  | .vmapkey _ _ _ _ => true
  | _ => false

/-- The callback a call submits, if any. -/
def HostCall.jscode? : HostCall → Option Callback
  | .mapkey _ _ f _ => f
  | .vmapkey _ _ f _ => f
  | _ => none

/-- The description a bind call of the callback variant submits. -/
def HostCall.description? : HostCall → Option String
  | .mapkey _ d _ _ => some d
  | .vmapkey _ d _ _ => some d
  | _ => none

/-- The calls that remove a default of the host: `unmap`, `vunmap`, `removeSearchAlias`. -/
def HostCall.isUnbind : HostCall → Bool
  | .unmap _ => true
  | .vunmap _ => true
  | .removeSearchAlias _ _ => true
  | _ => false

/-- The calls that register something with the host: the four bind calls and
`addSearchAlias`. -/
def HostCall.isRegistration : HostCall → Bool
  | .map _ _ => true
  | .vmap _ _ => true
  | .mapkey _ _ _ _ => true
  | .vmapkey _ _ _ _ => true
  | .addSearchAlias _ _ _ _ _ _ _ _ => true
  | _ => false

/-- A call with the domain restriction taken out of its options. -/
def HostCall.eraseRestriction : HostCall → HostCall
  | .mapkey k d f (some _) => .mapkey k d f (some { domain := none })
  | .vmapkey k d f (some _) => .vmapkey k d f (some { domain := none })
  | c => c

/-! ## A host registry -/

/-- A registry of the bindings that hold on one page: to a mode (`true` for visual) and a
key it gives the description and the callback bound to them. -/
abbrev Registry := Bool × String → Option (String × Option Callback)

/-- The registry without bindings. -/
def Registry.empty : Registry := fun _ => none

/-- Binding a mode and key replaces the previous binding of them. -/
def Registry.bind (r : Registry) (visual : Bool) (keys : String) (description : String)
    (jscode : Option Callback) : Registry :=
  fun q => if q = (visual, keys) then some (description, jscode) else r q

/-- A host that keeps such a registry: `mapkey` binds in normal mode, `vmapkey` in visual
mode; it never raises, and the other calls leave the registry as it is. -/
def Host.registry : Host Registry where
  call := fun r c =>
    match c with
    | .mapkey k d f _ => (r.bind false k d f, none)
    | .vmapkey k d f _ => (r.bind true k d f, none)
    | _ => (r, none)

/-! ## The calls a statement is expected to make -/

/-- A statement run from the world `w` makes the expected calls: the calls it submits are
the start of the expected ones, and all of them when it returns normally. -/
def Emits {σ : Type} (r : Completion × World σ) (w : World σ) (expected : List HostCall) :
    Prop :=
  ∃ new, r.2.calls = w.calls ++ new ∧ new <+: expected ∧ (r.1 = .normal → new = expected)

/-- The three calls `registerSearchEngines` makes for one search engine. -/
def searchEngineCalls (searchleader : Option String) (s : SearchEngine) : List HostCall :=
  [.addSearchAlias s.alias_ s.name s.search "" s.compl s.callback none
      { favicon_url := s.favicon, skipMaps := true },
   .mapkey (tpl searchleader ++ tpl s.alias_) ("#8Search " ++ tpl s.name)
      (some (.searchPrompt s.alias_)) none,
   .mapkey ("c" ++ tpl searchleader ++ tpl s.alias_)
      ("#8Search " ++ tpl s.name ++ " with clipboard contents")
      (some (.searchPromptClipboard s.alias_)) none]

/-- The call `main` makes for the settings: none when the section is absent. -/
def settingsCalls (conf : Conf) : List HostCall :=
  match conf.settings with
  | some s => [.assignSettings s]
  | none => []

/-- The unbind calls of `main` in order: the normal-mode unmaps, the visual-mode unmaps,
then the removals of search aliases, each group in declared order; none when `keys` or
`unmaps` is absent, and none for an absent group. -/
def unbindCalls (conf : Conf) : List HostCall :=
  match conf.keys.bind fun keys => keys.unmaps with
  | some unmaps =>
    (unmaps.mappings.getD []).map HostCall.unmap
      ++ ((unmaps.vmappings.getD []).map HostCall.vunmap
      ++ (match unmaps.searchAliases with
          | some searchAliases =>
            (Object.entries searchAliases).flatMap fun e =>
              e.2.map fun v => HostCall.removeSearchAlias v e.1
          | none => []))
  | none => []

/-- The calls of `main` for the search engines: none when the section is absent. -/
def searchCalls (conf : Conf) : List HostCall :=
  match conf.searchEngines with
  | some searchEngines =>
    (Object.values searchEngines).flatMap
      (searchEngineCalls (some (conf.searchleader.getD "o")))
  | none => []

/-- The calls of `main` for the normal-mode domain map, which are those `registerKeys` makes
over the host that accepts every call: none when `keys` or `maps` is absent. -/
def mapsCalls (categories : Categories) (conf : Conf) : List HostCall :=
  (mainMaps Host.quiet categories conf { host := (), calls := [], console := [] }).2.calls

/-- The calls of `main` for the visual-mode domain map: none when `keys` or `vmaps` is
absent. -/
def vmapsCalls (categories : Categories) (conf : Conf) : List HostCall :=
  (mainVmaps Host.quiet categories conf { host := (), calls := [], console := [] }).2.calls

/-! ## The body of the loop over the domains -/

/-- The body of the outer loop of `registerKeys`, applied to one entry of the hydrated
map. -/
def registerDomain {σ : Type} (H : Host σ) (categories : Categories)
    (siteleader : Option String) (mode : String) (e : String × Option (List Mapping))
    (w : World σ) : Completion × World σ :=
  match e.2 with
  | none => (.throw .typeError, w)
  | some domainMaps =>
    forEach (fun mapObj w2 => registerKey H categories e.1 mapObj siteleader mode w2)
      domainMaps w

/-! ## The pattern of a hostname -/

/-- The tokens of a hostname in the domain pattern; `seen` tells whether a dot came before.
The first dot is escaped by `replace` and is a literal, a later one is the wildcard. -/
def hostTokens : Bool → List Char → List RegExp.Token
  | _, [] => []
  | seen, c :: cs =>
    if c = '.' then (if seen then RegExp.Token.dot else RegExp.Token.lit '.') :: hostTokens true cs
    else RegExp.Token.lit c :: hostTokens seen cs

/-- The atoms of a hostname in the domain pattern, as abstract syntax. -/
def hostAtoms : Bool → List Char → List Regex
  | _, [] => []
  | seen, c :: cs =>
    if c = '.' then (if seen then Regex.any else Regex.char '.') :: hostAtoms true cs
    else Regex.char c :: hostAtoms seen cs

/-- The text of a hostname in the domain pattern: escaped unless a dot came before. -/
def hostText (seen : Bool) (cs : List Char) : List Char :=
  if seen then cs else replaceFirst ['.'] ['\\', '.'] cs

/-- A character of a hostname: a character of a label, or a dot. -/
def isHostChar (c : Char) : Bool :=
  isLabelChar c || c = '.'

/-! ## The end of a pattern -/

/-- What is left of a pattern after its first `k` terms. -/
def Regex.afterSeq : Nat → Regex → Regex
  | 0, r => r
  | k + 1, .seq _ b => Regex.afterSeq k b
  | _ + 1, r => r

/-! ## The calls expected of a declaration -/

/-- The calls `registerKey` is to submit for a declaration: the one call `bindCall` when the
options can be built, none when building them throws. -/
def specCalls (categories : Categories) (domain : String) (siteleader : Option String)
    (mode : String) (mapObj : Mapping) : List HostCall :=
  match buildOpts domain mapObj with
  | .ok opts => [bindCall categories domain mapObj siteleader mode opts]
  | .error _ => []

/-! # Theorems -/

/-! ## The calls of `registerKey` -/

theorem tryBind_calls {σ : Type} (H : Host σ) (a : Option String) (mode : String) (c : HostCall)
    (w : World σ) : (tryBind H a mode c w).calls = w.calls ++ [c] := by
  unfold tryBind
  split <;> rfl

theorem tryBind_console_of_raise {σ : Type} (H : Host σ) (a : Option String) (mode : String)
    (c : HostCall) (w : World σ) (e : String) (h : (H.call w.host c).2 = some e) :
    (tryBind H a mode c w).console
      = w.console ++ ["Error registering key " ++ tpl a ++ ": " ++ e ++ ". Mode: " ++ mode] := by
  unfold tryBind
  split
  · next h1 => rw [h1] at h; cases h
  · next h1 => rw [h1] at h; cases h; rfl

theorem registerKey_of_error {σ : Type} (H : Host σ) (categories : Categories) (domain : String)
    (mapObj : Mapping) (siteleader : Option String) (mode : String) (w : World σ) (e : JSError)
    (h : buildOpts domain mapObj = .error e) :
    registerKey H categories domain mapObj siteleader mode w = (.throw e, w) := by
  simp only [registerKey, h]

theorem registerKey_of_ok {σ : Type} (H : Host σ) (categories : Categories) (domain : String)
    (mapObj : Mapping) (siteleader : Option String) (mode : String) (w : World σ) (opts : Opts)
    (h : buildOpts domain mapObj = .ok opts) :
    registerKey H categories domain mapObj siteleader mode w
      = (.normal, tryBind H mapObj.alias_ mode
          (bindCall categories domain mapObj siteleader mode opts) w) := by
  simp only [registerKey, h, bindCall]
  split <;> split <;> rfl

theorem buildOpts_global (mapObj : Mapping) : buildOpts "global" mapObj = .ok { domain := none } := by
  simp [buildOpts]

theorem buildOpts_of_new {domain : String} {mapObj : Mapping} {re : RegExp}
    (hd : domain ≠ "global") (h : RegExp.new (domainPattern domain mapObj) = .ok re) :
    buildOpts domain mapObj = .ok { domain := some re } := by
  simp [buildOpts, hd, h]

theorem buildOpts_ok_cases {domain : String} {mapObj : Mapping} {opts : Opts}
    (h : buildOpts domain mapObj = .ok opts) :
    (domain = "global" ∧ opts.domain = none) ∨
      (domain ≠ "global" ∧ ∃ re, opts.domain = some re ∧
        RegExp.new (domainPattern domain mapObj) = .ok re) := by
  unfold buildOpts at h
  split at h
  · next hd =>
    right
    refine ⟨hd, ?_⟩
    split at h
    · cases h
    · next re hre =>
      cases h
      exact ⟨re, rfl, hre⟩
  · next hd =>
    left
    cases h
    exact ⟨not_not.mp hd, rfl⟩

/-- When the options can be built, `registerKey` returns normally having made one call. -/
theorem buildOpts_ok_of {domain : String} {mapObj : Mapping}
    (h : domain = "global" ∨ ∃ re, RegExp.new (domainPattern domain mapObj) = .ok re) :
    ∃ opts, buildOpts domain mapObj = .ok opts := by
  by_cases hd : domain = "global"
  · subst hd
    exact ⟨_, buildOpts_global mapObj⟩
  · rcases h with h | ⟨re, hre⟩
    · exact absurd h hd
    · exact ⟨_, buildOpts_of_new hd hre⟩

/-- The calls `registerKey` adds: none when building the options throws, else `bindCall`. -/
theorem registerKey_calls {σ : Type} (H : Host σ) (categories : Categories) (domain : String)
    (mapObj : Mapping) (siteleader : Option String) (mode : String) (w : World σ) :
    (∃ e, buildOpts domain mapObj = .error e ∧
        registerKey H categories domain mapObj siteleader mode w = (.throw e, w)) ∨
    (∃ opts, buildOpts domain mapObj = .ok opts ∧
        (registerKey H categories domain mapObj siteleader mode w).1 = .normal ∧
        (registerKey H categories domain mapObj siteleader mode w).2.calls
          = w.calls ++ [bindCall categories domain mapObj siteleader mode opts]) := by
  rcases hb : buildOpts domain mapObj with e | opts
  · exact Or.inl ⟨e, rfl, registerKey_of_error H categories domain mapObj siteleader mode w e hb⟩
  · right
    refine ⟨opts, rfl, ?_, ?_⟩
    · rw [registerKey_of_ok H categories domain mapObj siteleader mode w opts hb]
    · rw [registerKey_of_ok H categories domain mapObj siteleader mode w opts hb]
      exact tryBind_calls _ _ _ _ _

/-! ## Independence of the host -/

theorem registerKey_sim {σ τ : Type} (H : Host σ) (K : Host τ) (categories : Categories)
    (domain : String) (mapObj : Mapping) (siteleader : Option String) (mode : String)
    (w : World σ) (v : World τ) (h : w.calls = v.calls) :
    (registerKey H categories domain mapObj siteleader mode w).1
        = (registerKey K categories domain mapObj siteleader mode v).1 ∧
      (registerKey H categories domain mapObj siteleader mode w).2.calls
        = (registerKey K categories domain mapObj siteleader mode v).2.calls := by
  rcases hb : buildOpts domain mapObj with e | opts
  · rw [registerKey_of_error H _ _ _ _ _ _ e hb, registerKey_of_error K _ _ _ _ _ _ e hb]
    exact ⟨rfl, h⟩
  · rw [registerKey_of_ok H _ _ _ _ _ _ opts hb, registerKey_of_ok K _ _ _ _ _ _ opts hb]
    refine ⟨rfl, ?_⟩
    simp only [tryBind_calls, h]

theorem forEach_sim {σ τ α : Type} (R : World σ → World τ → Prop)
    (f : α → World σ → Completion × World σ) (g : α → World τ → Completion × World τ)
    (h : ∀ x w v, R w v → (f x w).1 = (g x v).1 ∧ R (f x w).2 (g x v).2) :
    ∀ (xs : List α) (w : World σ) (v : World τ), R w v →
      (forEach f xs w).1 = (forEach g xs v).1 ∧ R (forEach f xs w).2 (forEach g xs v).2 := by
  intro xs
  induction xs with
  | nil => intro w v hR; exact ⟨rfl, hR⟩
  | cons x xs ih =>
    intro w v hR
    have hx := h x w v hR
    rcases hf : f x w with ⟨c, w1⟩
    rcases hg : g x v with ⟨d, v1⟩
    rw [hf, hg] at hx
    obtain ⟨hcd, hR1⟩ := hx
    simp only at hcd hR1
    subst hcd
    cases c with
    | normal =>
      simp only [forEach, hf, hg]
      exact ih w1 v1 hR1
    | throw e =>
      simp only [forEach, hf, hg]
      exact ⟨trivial, hR1⟩

theorem registerKeys_sim {σ τ : Type} (H : Host σ) (K : Host τ) (categories : Categories)
    (maps : JSObject (List Mapping)) (aliases : JSObject (List String))
    (siteleader : Option String) (mode : String) (w : World σ) (v : World τ)
    (h : w.calls = v.calls) :
    (registerKeys H categories maps aliases siteleader mode w).1
        = (registerKeys K categories maps aliases siteleader mode v).1 ∧
      (registerKeys H categories maps aliases siteleader mode w).2.calls
        = (registerKeys K categories maps aliases siteleader mode v).2.calls := by
  unfold registerKeys
  apply forEach_sim (fun w v => w.calls = v.calls)
  · intro e w1 v1 h1
    cases e.2 with
    | none => exact ⟨rfl, h1⟩
    | some l =>
      apply forEach_sim (fun w v => w.calls = v.calls)
      · intro m w2 v2 h2
        exact registerKey_sim H K categories e.1 m siteleader mode w2 v2 h2
      · exact h1
  · exact h

/-! ## Remaps: key and scope -/

theorem bindCall_remap (categories : Categories) (domain : String) (mapObj : Mapping)
    (siteleader : Option String) (mode : String) (opts : Opts) (target : String)
    (h : mapObj.map = some target) :
    bindCall categories domain mapObj siteleader mode opts
      = if mode = "v" then .vmap mapObj.alias_ target else .map mapObj.alias_ target := by
  simp only [bindCall, h]

theorem bindCall_callback (categories : Categories) (domain : String) (mapObj : Mapping)
    (siteleader : Option String) (mode : String) (opts : Opts) (h : mapObj.map = none) :
    bindCall categories domain mapObj siteleader mode opts
      = if mode = "v" then
          .vmapkey (tpl (resolveLeader domain mapObj siteleader) ++ tpl mapObj.alias_)
            ("#" ++ mapObj.category.getD categories.misc ++ " " ++ mapObj.description.getD "")
            mapObj.callback (some opts)
        else
          .mapkey (tpl (resolveLeader domain mapObj siteleader) ++ tpl mapObj.alias_)
            ("#" ++ mapObj.category.getD categories.misc ++ " " ++ mapObj.description.getD "")
            mapObj.callback (some opts) := by
  simp only [bindCall, h]

/-- The calls `registerKey` adds form a list of at most one call, which is `bindCall`;
there is one when the domain is `"global"` or the pattern is well-formed. -/
theorem registerKey_new_calls {σ : Type} (H : Host σ) (categories : Categories)
    (domain : String) (mapObj : Mapping) (siteleader : Option String) (mode : String)
    (w : World σ) :
    ∃ new, (registerKey H categories domain mapObj siteleader mode w).2.calls = w.calls ++ new ∧
      (∀ c ∈ new, ∃ opts, buildOpts domain mapObj = .ok opts ∧
        c = bindCall categories domain mapObj siteleader mode opts) ∧
      ((domain = "global" ∨ ∃ re, RegExp.new (domainPattern domain mapObj) = .ok re) →
        ∃ opts, buildOpts domain mapObj = .ok opts ∧
          new = [bindCall categories domain mapObj siteleader mode opts]) := by
  rcases registerKey_calls H categories domain mapObj siteleader mode w with
    ⟨e, hb, hr⟩ | ⟨opts, hb, _, hc⟩
  · refine ⟨[], by rw [hr]; simp, by simp, ?_⟩
    intro h
    obtain ⟨opts, ho⟩ := buildOpts_ok_of h
    rw [hb] at ho
    cases ho
  · refine ⟨[bindCall categories domain mapObj siteleader mode opts], hc, ?_, ?_⟩
    · intro c hcm
      exact ⟨opts, hb, by simpa using hcm⟩
    · intro _
      exact ⟨opts, hb, rfl⟩

/-- C4 (as amended): for a declaration with `map`, on any domain and in either mode, every
call `registerKey` submits is a remap whose key is the alias alone, without leader; when the
domain is `"global"` or the pattern is well-formed there is exactly one such call, `vmap` in
mode `"v"` and `map` otherwise. -/
theorem registerKey_remap_key_is_alias {σ : Type} (H : Host σ) (categories : Categories)
    (domain : String) (mapObj : Mapping) (siteleader : Option String) (mode : String)
    (w : World σ) (target : String) (hmap : mapObj.map = some target) :
    ∃ new, (registerKey H categories domain mapObj siteleader mode w).2.calls = w.calls ++ new ∧
      (∀ c ∈ new, c = .map mapObj.alias_ target ∨ c = .vmap mapObj.alias_ target) ∧
      ((domain = "global" ∨ ∃ re, RegExp.new (domainPattern domain mapObj) = .ok re) →
        new = [if mode = "v" then .vmap mapObj.alias_ target else .map mapObj.alias_ target]) := by
  obtain ⟨new, hc, hall, hone⟩ :=
    registerKey_new_calls H categories domain mapObj siteleader mode w
  refine ⟨new, hc, ?_, ?_⟩
  · intro c hcm
    obtain ⟨opts, _, rfl⟩ := hall c hcm
    rw [bindCall_remap categories domain mapObj siteleader mode opts target hmap]
    split
    · exact Or.inr rfl
    · exact Or.inl rfl
  · intro h
    obtain ⟨opts, _, rfl⟩ := hone h
    rw [bindCall_remap categories domain mapObj siteleader mode opts target hmap]

/-- Witness of C4: `{alias: "a", map: "b"}` on `github.com` with site leader `"r"`. -/
theorem registerKey_remap_key_is_alias_witness :
    Example.remapAB.map = some "b" ∧
    ∃ new, (registerKey Host.quiet Example.categories "github.com" Example.remapAB (some "r") "n"
        Example.w0).2.calls = Example.w0.calls ++ new ∧
      (∀ c ∈ new, c = .map Example.remapAB.alias_ "b" ∨ c = .vmap Example.remapAB.alias_ "b") ∧
      (("github.com" = "global" ∨
          ∃ re, RegExp.new (domainPattern "github.com" Example.remapAB) = .ok re) →
        new = [if "n" = "v" then .vmap Example.remapAB.alias_ "b"
          else .map Example.remapAB.alias_ "b"]) :=
  ⟨rfl, registerKey_remap_key_is_alias Host.quiet Example.categories "github.com"
    Example.remapAB (some "r") "n" Example.w0 "b" rfl⟩

/-- C4, counterexample: on `github.com` with site leader `"r"`, `{alias: "a", map: "b"}` is
submitted as the remap of `"a"`, not of `"ra"`. -/
theorem registerKey_remap_key_counterexample :
    (registerKey Host.quiet Example.categories "github.com" Example.remapAB (some "r") "n"
        Example.w0).2.calls = [.map (some "a") "b"] ∧
    (registerKey Host.quiet Example.categories "github.com" Example.remapAB (some "r") "n"
        Example.w0).2.calls ≠ [.map (some "ra") "b"] ∧
    (registerKey Host.quiet Example.categories "github.com" Example.remapAB (some "r") "v"
        Example.w0).2.calls = [.vmap (some "a") "b"] ∧
    (registerKey Host.quiet Example.categories "github.com" Example.callbackA (some "r") "n"
        Example.w0).2.calls.map (fun c => match c with
          | .mapkey k _ _ _ => some k
          | _ => none) = [some "ra"] := by
  decide

/-- C5 (as amended): for a declaration with `map`, on any domain and in either mode, no call
`registerKey` submits carries a domain restriction; when the domain is `"global"` or the
pattern is well-formed, one call is submitted. -/
theorem registerKey_remap_unrestricted {σ : Type} (H : Host σ) (categories : Categories)
    (domain : String) (mapObj : Mapping) (siteleader : Option String) (mode : String)
    (w : World σ) (target : String) (hmap : mapObj.map = some target) :
    ∃ new, (registerKey H categories domain mapObj siteleader mode w).2.calls = w.calls ++ new ∧
      (∀ c ∈ new, c.restriction = none) ∧
      ((domain = "global" ∨ ∃ re, RegExp.new (domainPattern domain mapObj) = .ok re) →
        new.length = 1) := by
  obtain ⟨new, hc, hall, hone⟩ :=
    registerKey_new_calls H categories domain mapObj siteleader mode w
  refine ⟨new, hc, ?_, ?_⟩
  · intro c hcm
    obtain ⟨opts, _, rfl⟩ := hall c hcm
    rw [bindCall_remap categories domain mapObj siteleader mode opts target hmap]
    split <;> rfl
  · intro h
    obtain ⟨opts, _, rfl⟩ := hone h
    rfl

/-- Witness of C5: `{alias: "a", map: "b"}` on `github.com`, in visual mode. -/
theorem registerKey_remap_unrestricted_witness :
    Example.remapAB.map = some "b" ∧
    ∃ new, (registerKey Host.quiet Example.categories "github.com" Example.remapAB (some "r") "v"
        Example.w0).2.calls = Example.w0.calls ++ new ∧
      (∀ c ∈ new, c.restriction = none) ∧
      (("github.com" = "global" ∨
          ∃ re, RegExp.new (domainPattern "github.com" Example.remapAB) = .ok re) →
        new.length = 1) :=
  ⟨rfl, registerKey_remap_unrestricted Host.quiet Example.categories "github.com"
    Example.remapAB (some "r") "v" Example.w0 "b" rfl⟩

/-- C5, counterexample: on `github.com` the callback declaration `{alias: "a", callback: f}`
is submitted with the domain predicate of `github.com`, the remap `{alias: "a", map: "b"}`
with no restriction at all. -/
theorem registerKey_remap_scope_counterexample :
    (registerKey Host.quiet Example.categories "github.com" Example.callbackA (some "r") "n"
        Example.w0).2.calls.map HostCall.restriction
      = [some { source := "^http(s)?://(([a-zA-Z0-9-_]+\\.)*)(github\\.com)(/.*)?" }] ∧
    (registerKey Host.quiet Example.categories "github.com" Example.remapAB (some "r") "n"
        Example.w0).2.calls.map HostCall.restriction = [none] ∧
    (registerKey Host.quiet Example.categories "github.com" Example.remapAB (some "r") "v"
        Example.w0).2.calls.map HostCall.restriction = [none] := by
  decide

/-! ## Callback declarations: key and scope -/

/-- C9: for a declaration without `map`, every call `registerKey` submits is `mapkey` (or
`vmapkey` in mode `"v"`) with the key leader + alias, where the leader is the declaration's
own when it has one, else the empty string under `"global"`, else the site leader; one call
is submitted when the domain is `"global"` or the pattern is well-formed. -/
theorem registerKey_callback_key {σ : Type} (H : Host σ) (categories : Categories)
    (domain : String) (mapObj : Mapping) (siteleader : Option String) (mode : String)
    (w : World σ) (hcb : mapObj.map = none) :
    ∃ new, (registerKey H categories domain mapObj siteleader mode w).2.calls = w.calls ++ new ∧
      (∀ c ∈ new, ∃ d f o,
        (mode ≠ "v" ∧ c = .mapkey
          ((match mapObj.leader with
            | some l => l
            | none => if domain = "global" then "" else tpl siteleader) ++ tpl mapObj.alias_)
          d f o) ∨
        (mode = "v" ∧ c = .vmapkey
          ((match mapObj.leader with
            | some l => l
            | none => if domain = "global" then "" else tpl siteleader) ++ tpl mapObj.alias_)
          d f o)) ∧
      ((domain = "global" ∨ ∃ re, RegExp.new (domainPattern domain mapObj) = .ok re) →
        new.length = 1) := by
  obtain ⟨new, hc, hall, hone⟩ :=
    registerKey_new_calls H categories domain mapObj siteleader mode w
  have hl : tpl (resolveLeader domain mapObj siteleader)
      = (match mapObj.leader with
          | some l => l
          | none => if domain = "global" then "" else tpl siteleader) := by
    unfold resolveLeader
    cases mapObj.leader with
    | some l => rfl
    | none =>
      by_cases hd : domain = "global"
      · simp [hd, tpl]
      · simp [hd]
  refine ⟨new, hc, ?_, ?_⟩
  · intro c hcm
    obtain ⟨opts, _, rfl⟩ := hall c hcm
    rw [bindCall_callback categories domain mapObj siteleader mode opts hcb, hl]
    by_cases hm : mode = "v"
    · rw [if_pos hm]
      exact ⟨_, _, _, Or.inr ⟨hm, rfl⟩⟩
    · rw [if_neg hm]
      exact ⟨_, _, _, Or.inl ⟨hm, rfl⟩⟩
  · intro h
    obtain ⟨opts, _, rfl⟩ := hone h
    rfl

/-- Witness of C9: `{alias: "a", callback: f}` on `github.com` with site leader `"r"`. -/
theorem registerKey_callback_key_witness :
    Example.callbackA.map = none ∧
    ∃ new, (registerKey Host.quiet Example.categories "github.com" Example.callbackA (some "r")
        "n" Example.w0).2.calls = Example.w0.calls ++ new ∧
      (∀ c ∈ new, ∃ d f o,
        ("n" ≠ "v" ∧ c = .mapkey
          ((match Example.callbackA.leader with
            | some l => l
            | none => if "github.com" = "global" then "" else tpl (some "r"))
              ++ tpl Example.callbackA.alias_)
          d f o) ∨
        ("n" = "v" ∧ c = .vmapkey
          ((match Example.callbackA.leader with
            | some l => l
            | none => if "github.com" = "global" then "" else tpl (some "r"))
              ++ tpl Example.callbackA.alias_)
          d f o)) ∧
      (("github.com" = "global" ∨
          ∃ re, RegExp.new (domainPattern "github.com" Example.callbackA) = .ok re) →
        new.length = 1) :=
  ⟨rfl, registerKey_callback_key Host.quiet Example.categories "github.com" Example.callbackA
    (some "r") "n" Example.w0 rfl⟩

/-- C10: for a declaration without `map`, a call `registerKey` submits carries a domain
restriction exactly when the domain is not `"global"`; under `"global"` one call is
submitted, with no restriction, whatever the path; under another domain with a well-formed
pattern one call is submitted, restricted by that regular expression. -/
theorem registerKey_restriction_iff_not_global {σ : Type} (H : Host σ)
    (categories : Categories) (domain : String) (mapObj : Mapping)
    (siteleader : Option String) (mode : String) (w : World σ) (hcb : mapObj.map = none) :
    ∃ new, (registerKey H categories domain mapObj siteleader mode w).2.calls = w.calls ++ new ∧
      (∀ c ∈ new, (c.restriction.isSome = true ↔ domain ≠ "global")) ∧
      (domain = "global" → ∃ c, new = [c] ∧ c.restriction = none) ∧
      (∀ re, domain ≠ "global" → RegExp.new (domainPattern domain mapObj) = .ok re →
        ∃ c, new = [c] ∧ c.restriction = some re) := by
  obtain ⟨new, hc, hall, hone⟩ :=
    registerKey_new_calls H categories domain mapObj siteleader mode w
  have hr : ∀ opts, (bindCall categories domain mapObj siteleader mode opts).restriction
      = opts.domain := by
    intro opts
    rw [bindCall_callback categories domain mapObj siteleader mode opts hcb]
    split <;> rfl
  refine ⟨new, hc, ?_, ?_, ?_⟩
  · intro c hcm
    obtain ⟨opts, hb, rfl⟩ := hall c hcm
    rw [hr]
    rcases buildOpts_ok_cases hb with ⟨hd, ho⟩ | ⟨hd, re, ho, _⟩
    · simp [hd, ho]
    · simp [hd, ho]
  · intro hd
    obtain ⟨opts, hb, rfl⟩ := hone (Or.inl hd)
    refine ⟨_, rfl, ?_⟩
    rw [hr]
    rcases buildOpts_ok_cases hb with ⟨_, ho⟩ | ⟨hd1, _⟩
    · exact ho
    · exact absurd hd hd1
  · intro re hd hre
    obtain ⟨opts, hb, rfl⟩ := hone (Or.inr ⟨re, hre⟩)
    refine ⟨_, rfl, ?_⟩
    rw [hr]
    rw [buildOpts_of_new hd hre] at hb
    cases hb
    rfl

/-- Witness of C10: the declaration with the ill-formed path `(`, under `"global"`. -/
theorem registerKey_restriction_iff_not_global_witness :
    Example.badPath.map = none ∧
    ∃ new, (registerKey Host.quiet Example.categories "global" Example.badPath (some "r") "n"
        Example.w0).2.calls = Example.w0.calls ++ new ∧
      (∀ c ∈ new, (c.restriction.isSome = true ↔ "global" ≠ "global")) ∧
      ("global" = "global" → ∃ c, new = [c] ∧ c.restriction = none) ∧
      (∀ re, "global" ≠ "global" →
        RegExp.new (domainPattern "global" Example.badPath) = .ok re →
        ∃ c, new = [c] ∧ c.restriction = some re) :=
  ⟨rfl, registerKey_restriction_iff_not_global Host.quiet Example.categories "global"
    Example.badPath (some "r") "n" Example.w0 rfl⟩

/-! ## Objects: reading after writing -/

theorem JSObject.get_set {α : Type} (o : JSObject α) (k j : String) (v : α) :
    (o.set k v).get j = if k = j then some v else o.get j := by
  induction o with
  | nil =>
    simp only [JSObject.set, JSObject.get]
  | cons p rest ih =>
    simp only [JSObject.set]
    by_cases h : p.1 = k
    · rw [if_pos h]
      simp only [JSObject.get]
      by_cases hj : k = j
      · simp [h, hj]
      · have : ¬ p.1 = j := by rw [h]; exact hj
        simp [hj, this]
    · rw [if_neg h]
      simp only [JSObject.get, ih]
      by_cases hp : p.1 = j
      · have : ¬ k = j := by rw [← hp]; exact fun e => h e.symm
        simp [hp, this]
      · simp [hp]

theorem JSObject.keys_set {α : Type} (o : JSObject α) (k : String) (v : α) :
    (o.set k v).map Prod.fst
      = if k ∈ o.map Prod.fst then o.map Prod.fst else o.map Prod.fst ++ [k] := by
  induction o with
  | nil => simp [JSObject.set]
  | cons p rest ih =>
    simp only [JSObject.set]
    by_cases h : p.1 = k
    · simp [h]
    · rw [if_neg h]
      have hk : ¬ k = p.1 := fun e => h e.symm
      by_cases hm : k ∈ rest.map Prod.fst
      · simp only [List.map_cons, ih, if_pos hm, List.mem_cons, hm, or_true, if_true]
      · simp only [List.map_cons, ih, if_neg hm, List.mem_cons, hm, hk, or_self, if_false,
          List.cons_append]

theorem JSObject.nodup_set {α : Type} (o : JSObject α) (k : String) (v : α)
    (h : (o.map Prod.fst).Nodup) : ((o.set k v).map Prod.fst).Nodup := by
  rw [JSObject.keys_set]
  split
  · exact h
  · next hk =>
    rw [List.nodup_append]
    refine ⟨h, List.nodup_singleton k, ?_⟩
    intro a ha hb
    rw [List.mem_singleton] at hb
    subst hb
    exact hk ha

theorem JSObject.nodup_foldl_set {α : Type} (l : List (String × α)) (o : JSObject α)
    (h : (o.map Prod.fst).Nodup) :
    ((l.foldl (fun t p => t.set p.1 p.2) o).map Prod.fst).Nodup := by
  induction l generalizing o with
  | nil => exact h
  | cons p l ih => exact ih _ (JSObject.nodup_set o p.1 p.2 h)

theorem Object.nodup_assign {α : Type} (sources : List (JSObject α)) (o : JSObject α)
    (h : (o.map Prod.fst).Nodup) : ((Object.assign o sources).map Prod.fst).Nodup := by
  unfold Object.assign
  induction sources generalizing o with
  | nil => exact h
  | cons s ss ih => exact ih _ (JSObject.nodup_foldl_set _ o h)

theorem JSObject.mem_of_get {α : Type} (o : JSObject α) (k : String) (v : α)
    (h : o.get k = some v) : (k, v) ∈ o := by
  induction o with
  | nil => simp [JSObject.get] at h
  | cons p rest ih =>
    simp only [JSObject.get] at h
    by_cases hp : p.1 = k
    · rw [if_pos hp] at h
      cases h
      subst hp
      exact List.mem_cons_self _ _
    · rw [if_neg hp] at h
      exact List.mem_cons_of_mem _ (ih h)

theorem JSObject.get_of_mem {α : Type} (o : JSObject α) (k : String) (v : α)
    (hn : (o.map Prod.fst).Nodup) (h : (k, v) ∈ o) : o.get k = some v := by
  induction o with
  | nil => cases h
  | cons p rest ih =>
    rw [List.map_cons, List.nodup_cons] at hn
    simp only [JSObject.get]
    rcases List.mem_cons.mp h with h1 | h1
    · subst h1
      simp
    · have hk : k ∈ rest.map Prod.fst := List.mem_map.mpr ⟨(k, v), h1, rfl⟩
      have hp : ¬ p.1 = k := by
        intro e
        rw [e] at hn
        exact hn.1 hk
      rw [if_neg hp]
      exact ih hn.2 h1

/-! ## Objects: own-property order -/

theorem mem_insertIndexed {α : Type} (e x : Nat × (String × α))
    (l : List (Nat × (String × α))) : x ∈ insertIndexed e l ↔ x = e ∨ x ∈ l := by
  induction l with
  | nil => simp [insertIndexed]
  | cons y ys ih =>
    simp only [insertIndexed]
    split
    · simp
    · simp only [List.mem_cons, ih]
      tauto

theorem mem_foldr_insertIndexed {α : Type} (x : Nat × (String × α))
    (l : List (Nat × (String × α))) : x ∈ l.foldr insertIndexed [] ↔ x ∈ l := by
  induction l with
  | nil => simp
  | cons y ys ih => simp only [List.foldr_cons, mem_insertIndexed, ih, List.mem_cons]

theorem Object.mem_entries {α : Type} (o : JSObject α) (p : String × α) :
    p ∈ Object.entries o ↔ p ∈ o := by
  unfold Object.entries
  simp only [List.mem_append, List.mem_map, mem_foldr_insertIndexed, List.mem_filterMap,
    List.mem_filter, Option.map_eq_some']
  constructor
  · rintro (⟨e, ⟨q, hq, i, _, rfl⟩, rfl⟩ | ⟨h, _⟩)
    · exact hq
    · exact h
  · intro h
    cases hi : arrayIndex? p.1 with
    | none => exact Or.inr ⟨h, by simp⟩
    | some i => exact Or.inl ⟨(i, p), ⟨p, h, i, hi, rfl⟩, rfl⟩

theorem Object.entries_singleton {α : Type} (k : String) (v : α) :
    Object.entries [(k, v)] = [(k, v)] := by
  unfold Object.entries
  cases h : arrayIndex? k with
  | none => simp [h]
  | some i => simp [h, insertIndexed]

/-! ## Alias hydration -/

theorem JSObject.get_foldl_set_eq {α : Type} (l : List (String × α)) (t : JSObject α)
    (k : String) (v : α) (hval : ∀ p ∈ l, p.1 = k → p.2 = v)
    (hex : (∃ p ∈ l, p.1 = k) ∨ t.get k = some v) :
    (l.foldl (fun t1 p => t1.set p.1 p.2) t).get k = some v := by
  induction l generalizing t with
  | nil =>
    rcases hex with ⟨p, hp, _⟩ | h
    · cases hp
    · exact h
  | cons p l ih =>
    rw [List.foldl_cons]
    apply ih
    · intro q hq
      exact hval q (List.mem_cons_of_mem _ hq)
    · by_cases hp : p.1 = k
      · right
        rw [JSObject.get_set, if_pos hp, hval p (List.mem_cons_self _ _) hp]
      · rcases hex with ⟨q, hq, hqk⟩ | h
        · rcases List.mem_cons.mp hq with rfl | hq1
          · exact absurd hqk hp
          · exact Or.inl ⟨q, hq1, hqk⟩
        · right
          rw [JSObject.get_set, if_neg hp]
          exact h

theorem Object.get_assign_eq {α : Type} (sources : List (JSObject α)) (t : JSObject α)
    (k : String) (v : α)
    (hval : ∀ s ∈ sources, ∀ p ∈ Object.entries s, p.1 = k → p.2 = v)
    (hex : (∃ s ∈ sources, ∃ p ∈ Object.entries s, p.1 = k) ∨ t.get k = some v) :
    (Object.assign t sources).get k = some v := by
  unfold Object.assign
  induction sources generalizing t with
  | nil =>
    rcases hex with ⟨s, hs, _⟩ | h
    · cases hs
    · exact h
  | cons s ss ih =>
    rw [List.foldl_cons]
    apply ih
    · intro s1 hs1
      exact hval s1 (List.mem_cons_of_mem _ hs1)
    · by_cases hs : ∃ p ∈ Object.entries s, p.1 = k
      · right
        exact JSObject.get_foldl_set_eq _ t k v (hval s (List.mem_cons_self _ _)) (Or.inl hs)
      · rcases hex with ⟨s1, hs1, hp⟩ | h
        · rcases List.mem_cons.mp hs1 with rfl | hs2
          · exact absurd hp hs
          · exact Or.inl ⟨s1, hs2, hp⟩
        · right
          exact JSObject.get_foldl_set_eq _ t k v (hval s (List.mem_cons_self _ _)) (Or.inr h)

theorem Object.assign_cons {α : Type} (t s : JSObject α) (ss : List (JSObject α)) :
    Object.assign t (s :: ss) = Object.assign (Object.assign t [s]) ss := by
  simp [Object.assign]

theorem Object.assign_append {α : Type} (t : JSObject α) (xs ys : List (JSObject α)) :
    Object.assign t (xs ++ ys) = Object.assign (Object.assign t xs) ys := by
  simp [Object.assign]

/-- C1 (as amended): if `Ai` is an alias domain of the base domain `B`, and no alias group
after that of `B` lists `Ai`, then the hydrated map has one entry for `Ai` and its list is
the base domain's `maps[B]`, whether or not `Ai` is an explicit key of the domain map. -/
theorem mapsAndAliases_alias_overrides (maps : JSObject (List Mapping))
    (aliases : JSObject (List String)) (pre post : List (String × List String))
    (B Ai : String) (g : List String)
    (hent : Object.entries aliases = pre ++ (B, g) :: post) (hmem : Ai ∈ g)
    (hlast : ∀ q ∈ post, Ai ∉ q.2) :
    (mapsAndAliases maps aliases).get Ai = some (maps.get B) ∧
    (Ai, maps.get B) ∈ Object.entries (mapsAndAliases maps aliases) ∧
    ∀ e ∈ Object.entries (mapsAndAliases maps aliases), e.1 = Ai → e.2 = maps.get B := by
  have hget : (mapsAndAliases maps aliases).get Ai = some (maps.get B) := by
    unfold mapsAndAliases hydratedAliases
    rw [hent, Object.assign_cons, List.flatMap_append, List.flatMap_cons, Object.assign_append]
    apply Object.get_assign_eq
    · intro s hs p hp hk
      rcases List.mem_append.mp hs with hs1 | hs1
      · obtain ⟨a, _, rfl⟩ := List.mem_map.mp hs1
        rw [Object.entries_singleton, List.mem_singleton] at hp
        subst hp
        rfl
      · obtain ⟨q, hq, hs2⟩ := List.mem_flatMap.mp hs1
        obtain ⟨a, ha, rfl⟩ := List.mem_map.mp hs2
        rw [Object.entries_singleton, List.mem_singleton] at hp
        subst hp
        simp only at hk
        subst hk
        exact absurd ha (hlast q hq)
    · left
      refine ⟨[(Ai, maps.get B)], ?_, (Ai, maps.get B), ?_, rfl⟩
      · exact List.mem_append_left _ (List.mem_map.mpr ⟨Ai, hmem, rfl⟩)
      · rw [Object.entries_singleton]
        exact List.mem_singleton_self _
  have hnd : ((mapsAndAliases maps aliases).map Prod.fst).Nodup :=
    Object.nodup_assign _ [] List.nodup_nil
  refine ⟨hget, ?_, ?_⟩
  · exact (Object.mem_entries _ _).mpr (JSObject.mem_of_get _ _ _ hget)
  · intro e he hk
    have h1 : (mapsAndAliases maps aliases).get e.1 = some e.2 :=
      JSObject.get_of_mem _ e.1 e.2 hnd ((Object.mem_entries _ _).mp he)
    rw [hk, hget] at h1
    exact (Option.some.inj h1).symm

/-- Witness of C1: `wiktionary.org`, an alias of `wikipedia.org`, that has a list of its
own. -/
theorem mapsAndAliases_alias_overrides_witness :
    (mapsAndAliases Example.mapsExplicitAlias Example.aliasesWiki).get "wiktionary.org"
      = some (Example.mapsExplicitAlias.get "wikipedia.org") ∧
    ("wiktionary.org", Example.mapsExplicitAlias.get "wikipedia.org")
      ∈ Object.entries (mapsAndAliases Example.mapsExplicitAlias Example.aliasesWiki) ∧
    ∀ e ∈ Object.entries (mapsAndAliases Example.mapsExplicitAlias Example.aliasesWiki),
      e.1 = "wiktionary.org" → e.2 = Example.mapsExplicitAlias.get "wikipedia.org" :=
  mapsAndAliases_alias_overrides Example.mapsExplicitAlias Example.aliasesWiki [] []
    "wikipedia.org" "wiktionary.org" ["wiktionary.org"] (by decide) (by decide)
    (fun _ h => nomatch h)

/-- C1, counterexample: `wiktionary.org` is an explicit key of the domain map and an alias
of `wikipedia.org`; the list processed for it is that of `wikipedia.org`, not its own, and
its own declaration (key `"rt"`) is never submitted. -/
theorem mapsAndAliases_explicit_counterexample :
    Example.mapsExplicitAlias.get "wiktionary.org"
      = some [{ alias_ := some "t", callback := some (.user 7) }] ∧
    (mapsAndAliases Example.mapsExplicitAlias Example.aliasesWiki).get "wiktionary.org"
      = some (some [{ alias_ := some "s", callback := some (.user 6) }]) ∧
    (registerKeys Host.quiet Example.categories Example.mapsExplicitAlias Example.aliasesWiki
        (some "r") "n" Example.w0).2.calls
      = [.mapkey "rs" "#misc " (some (.user 6))
          (some ⟨some ⟨"^http(s)?://(([a-zA-Z0-9-_]+\\.)*)(wikipedia\\.org)(/.*)?"⟩⟩),
         .mapkey "rs" "#misc " (some (.user 6))
          (some ⟨some ⟨"^http(s)?://(([a-zA-Z0-9-_]+\\.)*)(wiktionary\\.org)(/.*)?"⟩⟩)] := by
  decide

/-! ## Failures while the options are built -/

/-- C2: in the list of `github.com` the second declaration has the path `(`: building its
regular expression throws a SyntaxError, which leaves `registerKey` and `registerKeys`; the
declaration before it has been submitted, the one after it and the declaration of
`gitlab.com` never are, and nothing is written to the console. -/
theorem registerKeys_bad_path_aborts :
    RegExp.new (domainPattern "github.com" Example.badPath) = .error .syntaxError ∧
    registerKey Host.quiet Example.categories "github.com" Example.badPath (some "r") "n"
        Example.w0 = (.throw .syntaxError, Example.w0) ∧
    registerKeys Host.quiet Example.categories Example.mapsBadPath [] (some "r") "n" Example.w0
      = (.throw .syntaxError,
          { host := (),
            calls := [.mapkey "rx" "#misc " (some (.user 2))
              (some ⟨some ⟨"^http(s)?://(([a-zA-Z0-9-_]+\\.)*)(github\\.com)(/.*)?"⟩⟩)],
            console := [] }) := by
  decide

/-! ## The domain predicate on examples -/

/-- C6: for `home.nest.com` only the first dot of the domain is escaped in the pattern, and
the predicate matches a URL in which another character stands for the second dot. -/
theorem nest_predicate_second_dot_unescaped :
    buildOpts "home.nest.com" Example.nestIncrement
      = .ok ⟨some ⟨"^http(s)?://(([a-zA-Z0-9-_]+\\.)*)(home\\.nest.com)/thermostat/DEVICE_.*"⟩⟩ ∧
    RegExp.test ⟨"^http(s)?://(([a-zA-Z0-9-_]+\\.)*)(home\\.nest.com)/thermostat/DEVICE_.*"⟩
      "https://home.nestXcom/thermostat/DEVICE_1" = true := by
  decide

/-- C8: for `home.nest.com` and the path `/thermostat/DEVICE_.*` the predicate matches the
thermostat page and not the settings page, which the predicate with the default path
matches. -/
theorem nest_predicate_path :
    buildOpts "home.nest.com" Example.nestIncrement
      = .ok ⟨some ⟨"^http(s)?://(([a-zA-Z0-9-_]+\\.)*)(home\\.nest.com)/thermostat/DEVICE_.*"⟩⟩ ∧
    RegExp.test ⟨"^http(s)?://(([a-zA-Z0-9-_]+\\.)*)(home\\.nest.com)/thermostat/DEVICE_.*"⟩
      "https://home.nest.com/thermostat/DEVICE_123" = true ∧
    RegExp.test ⟨"^http(s)?://(([a-zA-Z0-9-_]+\\.)*)(home\\.nest.com)/thermostat/DEVICE_.*"⟩
      "https://home.nest.com/settings" = false ∧
    buildOpts "home.nest.com" Example.callbackA
      = .ok ⟨some ⟨"^http(s)?://(([a-zA-Z0-9-_]+\\.)*)(home\\.nest.com)(/.*)?"⟩⟩ ∧
    RegExp.test ⟨"^http(s)?://(([a-zA-Z0-9-_]+\\.)*)(home\\.nest.com)(/.*)?"⟩
      "https://home.nest.com/settings" = true := by
  decide

/-! ## The lexer and the parser on a pattern given in pieces -/

theorem Except.map_map_append {ε α : Type} (x : Except ε (List α)) (a b : List α) :
    (x.map (b ++ ·)).map (a ++ ·) = x.map ((a ++ b) ++ ·) := by
  cases x <;> simp [Except.map]

theorem Except.map_nil_append {ε α : Type} (x : Except ε (List α)) :
    x.map (([] : List α) ++ ·) = x := by
  cases x <;> simp [Except.map]

theorem RegExp.lex_append (A X : List Char) (m m1 : RegExp.LexMode) (T : List RegExp.Token)
    (h : RegExp.lexRun m A = .ok (T, m1)) :
    RegExp.lex m (A ++ X) = (RegExp.lex m1 X).map (T ++ ·) := by
  induction A generalizing m T with
  | nil =>
    simp only [RegExp.lexRun] at h
    cases h
    rw [List.nil_append, Except.map_nil_append]
  | cons c cs ih =>
    simp only [RegExp.lexRun] at h
    rw [List.cons_append]
    simp only [RegExp.lex]
    cases hs : RegExp.lexStep m c with
    | error e => rw [hs] at h; cases h
    | ok r =>
      rw [hs] at h
      simp only at h ⊢
      cases hq : RegExp.lexRun r.2 cs with
      | error e => rw [hq] at h; cases h
      | ok q =>
        rw [hq] at h
        cases h
        rw [ih r.2 q.1 hq, Except.map_map_append]

theorem RegExp.lexRun_append (A B : List Char) (m m1 m2 : RegExp.LexMode)
    (T U : List RegExp.Token) (h : RegExp.lexRun m A = .ok (T, m1))
    (h2 : RegExp.lexRun m1 B = .ok (U, m2)) :
    RegExp.lexRun m (A ++ B) = .ok (T ++ U, m2) := by
  induction A generalizing m T with
  | nil =>
    simp only [RegExp.lexRun] at h
    cases h
    simpa using h2
  | cons c cs ih =>
    simp only [RegExp.lexRun] at h
    rw [List.cons_append]
    simp only [RegExp.lexRun]
    cases hs : RegExp.lexStep m c with
    | error e => rw [hs] at h; cases h
    | ok r =>
      rw [hs] at h
      simp only at h ⊢
      cases hq : RegExp.lexRun r.2 cs with
      | error e => rw [hq] at h; cases h
      | ok q =>
        rw [hq] at h
        cases h
        rw [ih r.2 q.1 hq]
        simp

theorem isLabelChar_ne {c d : Char} (h : isLabelChar c = true) (hd : isLabelChar d = false) :
    c ≠ d := by
  rintro rfl
  rw [h] at hd
  cases hd

theorem RegExp.normalStep_label {c : Char} (h : isLabelChar c = true) :
    RegExp.normalStep c = .ok ([.lit c], .normal) := by
  have h1 : c ≠ '\\' := isLabelChar_ne h (by decide)
  have h2 : c ≠ '[' := isLabelChar_ne h (by decide)
  have h3 : c ≠ '(' := isLabelChar_ne h (by decide)
  have h4 : c ≠ '.' := isLabelChar_ne h (by decide)
  have h5 : c ≠ '^' := isLabelChar_ne h (by decide)
  have h6 : c ≠ '$' := isLabelChar_ne h (by decide)
  have h7 : c ≠ '*' := isLabelChar_ne h (by decide)
  have h8 : c ≠ '+' := isLabelChar_ne h (by decide)
  have h9 : c ≠ '?' := isLabelChar_ne h (by decide)
  have h10 : c ≠ '|' := isLabelChar_ne h (by decide)
  have h11 : c ≠ ')' := isLabelChar_ne h (by decide)
  have h12 : c ≠ '{' := isLabelChar_ne h (by decide)
  have h13 : c ≠ '}' := isLabelChar_ne h (by decide)
  simp [RegExp.normalStep, RegExp.charToken, h1, h2, h3, h4, h5, h6, h7, h8, h9, h10, h11, h12,
    h13, Except.map]

theorem RegExp.lexRun_labels (l : List Char) (h : ∀ c ∈ l, isLabelChar c = true) :
    RegExp.lexRun .normal l = .ok (l.map .lit, .normal) := by
  induction l with
  | nil => rfl
  | cons c cs ih =>
    have hc := RegExp.normalStep_label (h c (List.mem_cons_self _ _))
    have hcs := ih (fun d hd => h d (List.mem_cons_of_mem _ hd))
    simp only [RegExp.lexRun, RegExp.lexStep, hc, hcs]
    rfl

theorem RegExp.lex_paren (X : List Char) (h : X.head? ≠ some '?') :
    RegExp.lex .paren X = (RegExp.lex .normal X).map (.lparen :: ·) := by
  cases X with
  | nil => rfl
  | cons c cs =>
    have hc : c ≠ '?' := by
      intro e
      apply h
      rw [e]
      rfl
    simp only [RegExp.lex, RegExp.lexStep, if_neg hc]
    cases RegExp.normalStep c with
    | error e => rfl
    | ok r =>
      simp only [Except.map]
      cases RegExp.lex r.2 cs <;> rfl

theorem RegExp.parseTokens_append (A X : List RegExp.Token) (st st1 : RegExp.PState)
    (h : RegExp.parseTokens st A = .ok st1) :
    RegExp.parseTokens st (A ++ X) = RegExp.parseTokens st1 X := by
  induction A generalizing st with
  | nil =>
    simp only [RegExp.parseTokens] at h
    cases h
    rfl
  | cons t ts ih =>
    simp only [RegExp.parseTokens] at h
    rw [List.cons_append]
    simp only [RegExp.parseTokens]
    cases hs : RegExp.parseStep st t with
    | error e => rw [hs] at h; cases h
    | ok s1 =>
      rw [hs] at h
      exact ih s1 h

/-- The parser over a run of literal characters. -/
theorem RegExp.parseTokens_lits (l : List Char) (st : RegExp.PState) :
    RegExp.parseTokens st (l.map .lit)
      = .ok { stack := st.stack,
              cur := { alts := st.cur.alts, terms := (l.map Regex.char).reverse ++ st.cur.terms },
              prev := if l = [] then st.prev else .atom } := by
  induction l generalizing st with
  | nil => rfl
  | cons c cs ih =>
    simp only [List.map_cons, RegExp.parseTokens, RegExp.parseStep, ih, RegExp.PState.push]
    simp

theorem RegExp.mkSeq_reverse (ts : List Regex) :
    RegExp.mkSeq ts.reverse = ts.foldr Regex.seq Regex.eps := by
  unfold RegExp.mkSeq
  rw [List.foldl_reverse]

theorem replaceFirst_dot (l1 l2 : List Char) (h : ∀ c ∈ l1, c ≠ '.') :
    replaceFirst ['.'] ['\\', '.'] (l1 ++ '.' :: l2) = l1 ++ '\\' :: '.' :: l2 := by
  induction l1 with
  | nil => simp [replaceFirst, List.isPrefixOf]
  | cons c cs ih =>
    have hc : c ≠ '.' := h c (List.mem_cons_self _ _)
    have hc1 : ¬ '.' = c := fun e => hc e.symm
    rw [List.cons_append]
    simp only [replaceFirst, List.isPrefixOf, List.cons_append]
    simp [hc1, ih (fun d hd => h d (List.mem_cons_of_mem _ hd))]

theorem lexRun_prefix :
    RegExp.lexRun .normal "^http(s)?://(([a-zA-Z0-9-_]+\\.)*)(".data = .ok (prefixTokens, .paren) := by
  decide

theorem lexRun_escaped_dot :
    RegExp.lexRun .normal ['\\', '.'] = .ok ([.lit '.'], .normal) := by
  decide

theorem lex_suffix : RegExp.lex .normal ")(/.*)?".data = .ok suffixTokens := by
  decide

/-- The tokens of the domain pattern of a domain `l1.l2` with the default path. -/
theorem lex_domainPattern (l1 l2 : List Char) (h1 : ∀ c ∈ l1, isLabelChar c = true)
    (h2 : ∀ c ∈ l2, isLabelChar c = true) (mapObj : Mapping) (hp : mapObj.path = none) :
    RegExp.lex .normal (domainPattern (String.mk (l1 ++ '.' :: l2)) mapObj).data
      = .ok (prefixTokens ++ [.lparen] ++ (l1 ++ '.' :: l2).map .lit ++ suffixTokens) := by
  have hdot : ∀ c ∈ l1, c ≠ '.' := fun c hc => isLabelChar_ne (h1 c hc) (by decide)
  have hdata : (domainPattern (String.mk (l1 ++ '.' :: l2)) mapObj).data
      = "^http(s)?://(([a-zA-Z0-9-_]+\\.)*)(".data
        ++ ((l1 ++ (['\\', '.'] ++ l2)) ++ ")(/.*)?".data) := by
    unfold domainPattern
    rw [hp]
    simp only [String.data_append, Option.getD_none]
    have : replaceFirst ".".data "\\.".data (l1 ++ '.' :: l2) = l1 ++ '\\' :: '.' :: l2 :=
      replaceFirst_dot l1 l2 hdot
    rw [this]
    simp
  have hhead : ((l1 ++ (['\\', '.'] ++ l2)) ++ ")(/.*)?".data).head? ≠ some '?' := by
    cases l1 with
    | nil => simp
    | cons c cs =>
      have : c ≠ '?' := isLabelChar_ne (h1 c (List.mem_cons_self _ _)) (by decide)
      simpa using this
  have hmid : RegExp.lexRun .normal (l1 ++ (['\\', '.'] ++ l2))
      = .ok (l1.map .lit ++ ([.lit '.'] ++ l2.map .lit), .normal) :=
    RegExp.lexRun_append _ _ _ _ _ _ _ (RegExp.lexRun_labels l1 h1)
      (RegExp.lexRun_append _ _ _ _ _ _ _ lexRun_escaped_dot (RegExp.lexRun_labels l2 h2))
  rw [hdata, RegExp.lex_append _ _ _ _ _ lexRun_prefix, RegExp.lex_paren _ hhead,
    RegExp.lex_append _ _ _ _ _ hmid, lex_suffix]
  simp [Except.map]

theorem parseTokens_prefix :
    RegExp.parseTokens { stack := [], cur := { alts := [], terms := [] }, prev := .none }
        (prefixTokens ++ [.lparen])
      = .ok { stack := [{ alts := [], terms :=
                [.group (.seq (.star true (.group (.seq
                    (.plus true
                      (.cls false [('a', 'z'), ('A', 'Z'), ('0', '9'), ('-', '-'), ('_', '_')]))
                    (.seq (.char '.') .eps)))) .eps),
                 .char '/', .char '/', .char ':', .opt true (.group (.seq (.char 's') .eps)),
                 .char 'p', .char 't', .char 't', .char 'h', .bol] }],
              cur := { alts := [], terms := [] }, prev := .none } := by
  decide

/-- The abstract syntax of the domain pattern of a domain `l1.l2` with the default path. -/
theorem parse_domainPattern (l1 l2 : List Char) (h1 : ∀ c ∈ l1, isLabelChar c = true)
    (h2 : ∀ c ∈ l2, isLabelChar c = true) (mapObj : Mapping) (hp : mapObj.path = none) :
    RegExp.parse (domainPattern (String.mk (l1 ++ '.' :: l2)) mapObj).data
      = .ok (domainRegex (lits (l1 ++ '.' :: l2) .eps)) := by
  unfold RegExp.parse
  rw [lex_domainPattern l1 l2 h1 h2 mapObj hp]
  simp only
  rw [List.append_assoc, RegExp.parseTokens_append _ _ _ _ parseTokens_prefix,
    RegExp.parseTokens_append _ _ _ _ (RegExp.parseTokens_lits _ _)]
  have hne : ¬ (l1 ++ '.' :: l2 = []) := by simp
  simp only [suffixTokens, RegExp.parseTokens, RegExp.parseStep, RegExp.PState.push,
    RegExp.PState.quantify, if_neg hne, RegExp.Frame.close, RegExp.mkAlt, List.append_nil,
    RegExp.mkSeq_reverse]
  rfl

/-! ## The matcher, construct by construct -/

theorem mem_run_eps (n : Nat) (s t : List Char) : t ∈ Regex.eps.run n s ↔ t = s := by
  simp [Regex.run]

theorem mem_run_char (n : Nat) (c : Char) (s t : List Char) :
    t ∈ (Regex.char c).run n s ↔ s = c :: t := by
  cases s with
  | nil => simp [Regex.run]
  | cons x xs =>
    simp only [Regex.run]
    by_cases h : x = c
    · simp [h, eq_comm]
    · simp [h]

theorem mem_run_cls (n : Nat) (neg : Bool) (rs : List (Char × Char)) (s t : List Char) :
    t ∈ (Regex.cls neg rs).run n s ↔ ∃ x, classMatches neg rs x = true ∧ s = x :: t := by
  cases s with
  | nil => simp [Regex.run]
  | cons x xs =>
    simp only [Regex.run]
    by_cases h : classMatches neg rs x = true
    · simp only [h, if_true, List.mem_singleton, List.cons.injEq]
      constructor
      · rintro rfl
        exact ⟨x, h, rfl, rfl⟩
      · rintro ⟨y, _, _, e⟩
        exact e.symm
    · simp only [h, Bool.false_eq_true, if_false, List.not_mem_nil, List.cons.injEq, false_iff]
      rintro ⟨y, hy, rfl, _⟩
      exact h hy

theorem mem_run_bol (n : Nat) (s t : List Char) :
    t ∈ Regex.bol.run n s ↔ t = s ∧ s.length = n := by
  simp only [Regex.run]
  by_cases h : s.length = n
  · simp [h]
  · simp [h]

theorem mem_run_seq (n : Nat) (a b : Regex) (s t : List Char) :
    t ∈ (Regex.seq a b).run n s ↔ ∃ mid, mid ∈ a.run n s ∧ t ∈ b.run n mid := by
  simp [Regex.run, List.mem_flatMap]

theorem mem_run_group (n : Nat) (r : Regex) (s t : List Char) :
    t ∈ (Regex.group r).run n s ↔ t ∈ r.run n s := by
  simp [Regex.run]

theorem mem_run_opt (n : Nat) (g : Bool) (r : Regex) (s t : List Char) :
    t ∈ (Regex.opt g r).run n s ↔ t = s ∨ (t ∈ r.run n s ∧ t.length < s.length) := by
  simp only [Regex.run]
  cases g
  · simp only [Bool.false_eq_true, if_false, List.mem_cons, List.mem_filter, decide_eq_true_eq]
  · simp only [if_true, List.mem_append, List.mem_filter, decide_eq_true_eq,
      List.mem_singleton]
    tauto

theorem mem_run_lits (n : Nat) (cs : List Char) (k : Regex) (s t : List Char) :
    t ∈ (lits cs k).run n s ↔ ∃ s1, s = cs ++ s1 ∧ t ∈ k.run n s1 := by
  induction cs generalizing s with
  | nil => simp [lits]
  | cons c cs ih =>
    have hl : lits (c :: cs) k = Regex.seq (Regex.char c) (lits cs k) := rfl
    rw [hl, mem_run_seq]
    constructor
    · rintro ⟨mid, hm, ht⟩
      rw [mem_run_char] at hm
      obtain ⟨s1, rfl, h1⟩ := (ih mid).mp ht
      exact ⟨s1, by rw [hm]; rfl, h1⟩
    · rintro ⟨s1, rfl, h1⟩
      exact ⟨cs ++ s1, (mem_run_char _ _ _ _).mpr rfl, (ih _).mpr ⟨s1, rfl, h1⟩⟩

theorem mem_repeatLoop (g : Bool) (body : List Char → List (List Char)) (f : Nat)
    (s t : List Char) (hf : s.length ≤ f) :
    t ∈ repeatLoop g body f s ↔ Reach body s t := by
  constructor
  · intro h
    induction f generalizing s with
    | zero =>
      simp only [repeatLoop, List.mem_singleton] at h
      rw [h]
      exact Reach.refl s
    | succ f ih =>
      have key : t = s ∨ ∃ mid, (mid ∈ body s ∧ mid.length < s.length) ∧
          t ∈ repeatLoop g body f mid := by
        simp only [repeatLoop] at h
        cases g
        · simpa [List.mem_flatMap, List.mem_filter] using h
        · have := h
          simp only [if_true, List.mem_append, List.mem_flatMap, List.mem_filter,
            decide_eq_true_eq, List.mem_singleton] at this
          tauto
      rcases key with rfl | ⟨mid, ⟨hm, hlt⟩, ht⟩
      · exact Reach.refl _
      · exact Reach.step hm hlt (ih mid (by omega) ht)
  · intro h
    induction h generalizing f with
    | refl s =>
      cases f with
      | zero => simp [repeatLoop]
      | succ f => cases g <;> simp [repeatLoop]
    | @step s0 mid t0 hm hlt _ ih =>
      cases f with
      | zero => omega
      | succ f =>
        have h1 := ih f (by omega)
        have : ∃ m, (m ∈ body s0 ∧ m.length < s0.length) ∧ t0 ∈ repeatLoop g body f m :=
          ⟨mid, ⟨hm, hlt⟩, h1⟩
        simp only [repeatLoop]
        cases g
        · simp only [Bool.false_eq_true, if_false, List.mem_cons, List.mem_flatMap,
            List.mem_filter, decide_eq_true_eq]
          exact Or.inr this
        · simp only [if_true, List.mem_append, List.mem_flatMap, List.mem_filter,
            decide_eq_true_eq, List.mem_singleton]
          exact Or.inl this

theorem mem_run_star (n : Nat) (g : Bool) (r : Regex) (s t : List Char) :
    t ∈ (Regex.star g r).run n s ↔ Reach (r.run n) s t := by
  simp only [Regex.run]
  exact mem_repeatLoop g _ _ s t (Nat.le_refl _)

theorem mem_run_plus (n : Nat) (g : Bool) (r : Regex) (s t : List Char) :
    t ∈ (Regex.plus g r).run n s ↔ ∃ mid, mid ∈ r.run n s ∧ Reach (r.run n) mid t := by
  simp only [Regex.run, List.mem_flatMap]
  constructor
  · rintro ⟨mid, hm, ht⟩
    exact ⟨mid, hm, (mem_repeatLoop g _ _ mid t (Nat.le_refl _)).mp ht⟩
  · rintro ⟨mid, hm, ht⟩
    exact ⟨mid, hm, (mem_repeatLoop g _ _ mid t (Nat.le_refl _)).mpr ht⟩

/-! ## The subdomain labels of the domain pattern -/

theorem reach_labelClass (n : Nat) (s t : List Char) :
    Reach ((Regex.cls false
        [('a', 'z'), ('A', 'Z'), ('0', '9'), ('-', '-'), ('_', '_')]).run n) s t
      ↔ ∃ b, (∀ c ∈ b, isLabelChar c = true) ∧ s = b ++ t := by
  constructor
  · intro h
    induction h with
    | refl s => exact ⟨[], by simp, rfl⟩
    | @step s0 mid t0 hm _ _ ih =>
      obtain ⟨b, hb, rfl⟩ := ih
      obtain ⟨x, hx, rfl⟩ := (mem_run_cls _ _ _ _ _).mp hm
      refine ⟨x :: b, ?_, rfl⟩
      intro c hc
      rcases List.mem_cons.mp hc with rfl | hc1
      · exact hx
      · exact hb c hc1
  · rintro ⟨b, hb, rfl⟩
    induction b with
    | nil => exact Reach.refl _
    | cons x b ih =>
      refine @Reach.step _ _ (b ++ t) _ ?_ ?_ (ih (fun c hc => hb c (List.mem_cons_of_mem _ hc)))
      · exact (mem_run_cls _ _ _ _ _).mpr ⟨x, hb x (List.mem_cons_self _ _), rfl⟩
      · simp

theorem mem_run_block (n : Nat) (s t : List Char) :
    t ∈ (Regex.group (.seq
        (.plus true (.cls false [('a', 'z'), ('A', 'Z'), ('0', '9'), ('-', '-'), ('_', '_')]))
        (.seq (.char '.') .eps))).run n s
      ↔ ∃ b, b ≠ [] ∧ (∀ c ∈ b, isLabelChar c = true) ∧ s = b ++ '.' :: t := by
  simp only [mem_run_group, mem_run_seq, mem_run_plus, mem_run_cls, reach_labelClass,
    mem_run_char, mem_run_eps]
  constructor
  · rintro ⟨mid, ⟨m1, ⟨x, hx, rfl⟩, b, hb, rfl⟩, m2, rfl, rfl⟩
    refine ⟨x :: b, by simp, ?_, by simp⟩
    intro c hc
    rcases List.mem_cons.mp hc with rfl | hc1
    · exact hx
    · exact hb c hc1
  · rintro ⟨b, hne, hb, rfl⟩
    cases b with
    | nil => exact absurd rfl hne
    | cons x b =>
      exact ⟨'.' :: t, ⟨b ++ '.' :: t, ⟨x, hb x (List.mem_cons_self _ _), rfl⟩, b,
        fun c hc => hb c (List.mem_cons_of_mem _ hc), rfl⟩, t, rfl, rfl⟩

theorem reach_block (n : Nat) (s t : List Char) :
    Reach ((Regex.group (.seq
        (.plus true (.cls false [('a', 'z'), ('A', 'Z'), ('0', '9'), ('-', '-'), ('_', '_')]))
        (.seq (.char '.') .eps))).run n) s t
      ↔ ∃ blocks : List (List Char),
          (∀ b ∈ blocks, b ≠ [] ∧ ∀ c ∈ b, isLabelChar c = true) ∧
          s = blocks.flatMap (fun b => b ++ ['.']) ++ t := by
  constructor
  · intro h
    induction h with
    | refl s => exact ⟨[], by simp, by simp⟩
    | @step s0 mid t0 hm _ _ ih =>
      obtain ⟨blocks, hbl, rfl⟩ := ih
      obtain ⟨b, hne, hb, rfl⟩ := (mem_run_block _ _ _).mp hm
      refine ⟨b :: blocks, ?_, by simp⟩
      intro b1 hb1
      rcases List.mem_cons.mp hb1 with rfl | h1
      · exact ⟨hne, hb⟩
      · exact hbl b1 h1
  · rintro ⟨blocks, hbl, rfl⟩
    induction blocks with
    | nil => simpa using Reach.refl t
    | cons b bs ih =>
      have hb := hbl b (List.mem_cons_self _ _)
      refine @Reach.step _ _ (bs.flatMap (fun b => b ++ ['.']) ++ t) _ ?_ ?_
        (ih (fun b1 h1 => hbl b1 (List.mem_cons_of_mem _ h1)))
      · exact (mem_run_block _ _ _).mpr ⟨b, hb.1, hb.2, by simp⟩
      · rw [List.flatMap_cons]
        simp only [List.length_append, List.length_cons, List.length_nil]
        omega

/-! ## The domain predicate with the default path -/

/-- A text that begins with `http://` or `https://`, labels each followed by a dot, and the
text of the domain is matched at its start, up to the end of the domain. -/
theorem domainRegex_run_of_prefix (dom : List Char) (secure : Bool)
    (blocks : List (List Char)) (rest : List Char)
    (hbl : ∀ b ∈ blocks, b ≠ [] ∧ ∀ c ∈ b, isLabelChar c = true) (n : Nat)
    (hn : n = ((if secure then "https".data else "http".data) ++ "://".data
        ++ blocks.flatMap (fun b => b ++ ['.']) ++ dom ++ rest).length) :
    rest ∈ (domainRegex (lits dom .eps)).run n
      ((if secure then "https".data else "http".data) ++ "://".data
        ++ blocks.flatMap (fun b => b ++ ['.']) ++ dom ++ rest) := by
  simp only [domainRegex, mem_run_seq, mem_run_bol, mem_run_lits, mem_run_opt, mem_run_group,
    mem_run_star, mem_run_eps, reach_block, mem_run_char]
  refine ⟨_, ⟨rfl, hn.symm⟩, ?_⟩
  cases secure with
  | false =>
    refine ⟨"://".data ++ blocks.flatMap (fun b => b ++ ['.']) ++ dom ++ rest, by simp, ?_⟩
    refine ⟨_, Or.inl rfl, blocks.flatMap (fun b => b ++ ['.']) ++ dom ++ rest, by simp, ?_⟩
    refine ⟨_, ⟨dom ++ rest, ⟨blocks, hbl, by simp⟩, rfl⟩, ?_⟩
    exact ⟨rest, ⟨rest, rfl, rfl⟩, rest, Or.inl rfl, rfl⟩
  | true =>
    refine ⟨"s://".data ++ blocks.flatMap (fun b => b ++ ['.']) ++ dom ++ rest, by simp, ?_⟩
    refine ⟨"://".data ++ blocks.flatMap (fun b => b ++ ['.']) ++ dom ++ rest,
      Or.inr ⟨⟨_, by simp, rfl⟩, by simp⟩, blocks.flatMap (fun b => b ++ ['.']) ++ dom ++ rest,
      by simp, ?_⟩
    refine ⟨_, ⟨dom ++ rest, ⟨blocks, hbl, by simp⟩, rfl⟩, ?_⟩
    exact ⟨rest, ⟨rest, rfl, rfl⟩, rest, Or.inl rfl, rfl⟩

/-- What the domain pattern matches at the start of a text begins with `http://` or
`https://`, labels each followed by a dot, and the text of the domain. -/
theorem prefix_of_domainRegex_run (dom : List Char) (n : Nat) (s t : List Char)
    (h : t ∈ (domainRegex (lits dom .eps)).run n s) :
    s.length = n ∧ ∃ (secure : Bool) (blocks : List (List Char)) (rest : List Char),
      (∀ b ∈ blocks, b ≠ [] ∧ ∀ c ∈ b, isLabelChar c = true) ∧
      s = (if secure then "https".data else "http".data) ++ "://".data
        ++ blocks.flatMap (fun b => b ++ ['.']) ++ dom ++ rest := by
  simp only [domainRegex, mem_run_seq, mem_run_bol, mem_run_lits, mem_run_opt, mem_run_group,
    mem_run_star, mem_run_eps, reach_block, mem_run_char] at h
  obtain ⟨_, ⟨rfl, hn⟩, s1, rfl, s2, hs2, s3, rfl, s4, ⟨_, ⟨blocks, hbl, rfl⟩, rfl⟩, s5,
    ⟨rest, rfl, rfl⟩, _⟩ := h
  refine ⟨hn, ?_⟩
  rcases hs2 with rfl | ⟨⟨x, rfl, rfl⟩, _⟩
  · exact ⟨false, blocks, s5, hbl, by simp⟩
  · exact ⟨true, blocks, s5, hbl, by simp⟩

theorem searchFrom_true_iff (r : Regex) (n : Nat) (s : List Char) :
    r.searchFrom n s = true ↔ ∃ s1 t, s1 <:+ s ∧ t ∈ r.run n s1 := by
  induction s with
  | nil =>
    simp only [Regex.searchFrom, Bool.not_eq_true', List.isEmpty_eq_false, List.suffix_nil]
    constructor
    · intro h
      obtain ⟨t, ht⟩ := List.exists_mem_of_ne_nil _ h
      exact ⟨[], t, rfl, ht⟩
    · rintro ⟨s1, t, rfl, ht⟩
      exact List.ne_nil_of_mem ht
  | cons c cs ih =>
    simp only [Regex.searchFrom, Bool.or_eq_true, Bool.not_eq_true', List.isEmpty_eq_false, ih]
    constructor
    · rintro (h | ⟨s1, t, hs, ht⟩)
      · obtain ⟨t, ht⟩ := List.exists_mem_of_ne_nil _ h
        exact ⟨c :: cs, t, List.suffix_refl _, ht⟩
      · exact ⟨s1, t, hs.trans (List.suffix_cons c cs), ht⟩
    · rintro ⟨s1, t, hs, ht⟩
      rcases List.suffix_cons_iff.mp hs with rfl | h1
      · exact Or.inl (List.ne_nil_of_mem ht)
      · exact Or.inr ⟨s1, t, h1, ht⟩

/-- The predicate of a domain with the default path holds of a text exactly when the text
begins with `http://` or `https://`, labels each followed by a dot, and the domain. -/
theorem test_domainRegex_iff (dom s : List Char) :
    (domainRegex (lits dom .eps)).test s = true
      ↔ ∃ (secure : Bool) (blocks : List (List Char)) (rest : List Char),
          (∀ b ∈ blocks, b ≠ [] ∧ ∀ c ∈ b, isLabelChar c = true) ∧
          s = (if secure then "https".data else "http".data) ++ "://".data
            ++ blocks.flatMap (fun b => b ++ ['.']) ++ dom ++ rest := by
  unfold Regex.test
  rw [searchFrom_true_iff]
  constructor
  · rintro ⟨s1, t, hs, ht⟩
    obtain ⟨hlen, secure, blocks, rest, hbl, he⟩ := prefix_of_domainRegex_run dom _ s1 t ht
    have : s1 = s := List.IsSuffix.eq_of_length hs hlen
    rw [this] at he
    exact ⟨secure, blocks, rest, hbl, he⟩
  · rintro ⟨secure, blocks, rest, hbl, rfl⟩
    exact ⟨_, rest, List.suffix_refl _,
      domainRegex_run_of_prefix dom secure blocks rest hbl _ rfl⟩

/-! ## Label runs -/

theorem label_run_unique (a b p q : List Char) (x y : Char)
    (ha : ∀ c ∈ a, isLabelChar c = true) (hb : ∀ c ∈ b, isLabelChar c = true)
    (hx : isLabelChar x = false) (hy : isLabelChar y = false)
    (h : a ++ x :: p = b ++ y :: q) : a = b ∧ x = y ∧ p = q := by
  induction a generalizing b with
  | nil =>
    cases b with
    | nil =>
      simp only [List.nil_append, List.cons.injEq] at h
      exact ⟨rfl, h.1, h.2⟩
    | cons d b =>
      simp only [List.nil_append, List.cons_append, List.cons.injEq] at h
      have := hb d (List.mem_cons_self _ _)
      rw [← h.1, hx] at this
      cases this
  | cons c a ih =>
    cases b with
    | nil =>
      simp only [List.nil_append, List.cons_append, List.cons.injEq] at h
      have := ha c (List.mem_cons_self _ _)
      rw [h.1, hy] at this
      cases this
    | cons d b =>
      simp only [List.cons_append, List.cons.injEq] at h
      obtain ⟨h1, h2, h3⟩ := ih b (fun e he => ha e (List.mem_cons_of_mem _ he))
        (fun e he => hb e (List.mem_cons_of_mem _ he)) h.2
      exact ⟨by rw [h.1, h1], h2, h3⟩

theorem label_run_no_break (a b q : List Char) (y : Char)
    (ha : ∀ c ∈ a, isLabelChar c = true) (hy : isLabelChar y = false) :
    a ≠ b ++ y :: q := by
  intro h
  have : y ∈ a := by rw [h]; simp
  rw [ha y this] at hy
  cases hy

/-- A text whose host is a label run put directly before the domain `l1.l2`, and that ends
there or goes on with a path, does not begin with labels each followed by a dot and then the
domain. -/
theorem glued_host_not_prefix (l1 l2 w tail rest : List Char) (blocks : List (List Char))
    (h1 : ∀ c ∈ l1, isLabelChar c = true) (h2 : ∀ c ∈ l2, isLabelChar c = true)
    (hw : w ≠ [] ∧ ∀ c ∈ w, isLabelChar c = true)
    (htail : tail = [] ∨ ∃ q, tail = '/' :: q)
    (hbl : ∀ b ∈ blocks, b ≠ [] ∧ ∀ c ∈ b, isLabelChar c = true) :
    w ++ (l1 ++ '.' :: l2) ++ tail
      ≠ blocks.flatMap (fun b => b ++ ['.']) ++ (l1 ++ '.' :: l2) ++ rest := by
  intro h
  have hdot : isLabelChar '.' = false := by decide
  have hslash : isLabelChar '/' = false := by decide
  have hwl : ∀ c ∈ w ++ l1, isLabelChar c = true := by
    intro c hc
    rcases List.mem_append.mp hc with h3 | h3
    · exact hw.2 c h3
    · exact h1 c h3
  -- the text after the first dot of the left-hand side
  have hrest : ∀ (a q : List Char), (∀ c ∈ a, isLabelChar c = true) →
      l2 ++ tail ≠ a ++ '.' :: q := by
    intro a q ha
    rcases htail with rfl | ⟨t, rfl⟩
    · rw [List.append_nil]
      exact label_run_no_break l2 a q '.' h2 hdot
    · intro e
      have := (label_run_unique l2 a t q '/' '.' h2 ha hslash hdot e).2.1
      cases this
  cases blocks with
  | nil =>
    have e : (w ++ l1) ++ '.' :: (l2 ++ tail) = l1 ++ '.' :: (l2 ++ rest) := by
      simpa using h
    have := (label_run_unique _ _ _ _ _ _ hwl h1 hdot hdot e).1
    have hl := congrArg List.length this
    rw [List.length_append] at hl
    have : w.length = 0 := by omega
    exact hw.1 (List.length_eq_zero.mp this)
  | cons b bs =>
    have hb := hbl b (List.mem_cons_self _ _)
    have e : (w ++ l1) ++ '.' :: (l2 ++ tail)
        = b ++ '.' :: (bs.flatMap (fun b => b ++ ['.']) ++ (l1 ++ '.' :: l2) ++ rest) := by
      simpa using h
    have e2 := (label_run_unique _ _ _ _ _ _ hwl hb.2 hdot hdot e).2.2
    cases bs with
    | nil =>
      apply hrest l1 (l2 ++ rest) h1
      simpa using e2
    | cons b2 bs2 =>
      have hb2 := hbl b2 (List.mem_cons_of_mem _ (List.mem_cons_self _ _))
      apply hrest b2 (bs2.flatMap (fun b => b ++ ['.']) ++ (l1 ++ '.' :: l2) ++ rest) hb2.2
      simpa using e2

theorem dotted_ne_global (l1 l2 : List Char) : String.mk (l1 ++ '.' :: l2) ≠ "global" := by
  intro h
  have h1 : l1 ++ '.' :: l2 = "global".data := congrArg String.data h
  have h2 : '.' ∈ "global".data := by
    rw [← h1]
    simp
  revert h2
  decide

/-- The options `registerKey` builds for a domain `l1.l2` and a declaration without path,
and what their predicate tests. -/
theorem buildOpts_dotted (l1 l2 : List Char) (h1 : ∀ c ∈ l1, isLabelChar c = true)
    (h2 : ∀ c ∈ l2, isLabelChar c = true) (mapObj : Mapping) (hp : mapObj.path = none) :
    buildOpts (String.mk (l1 ++ '.' :: l2)) mapObj
        = .ok ⟨some ⟨domainPattern (String.mk (l1 ++ '.' :: l2)) mapObj⟩⟩ ∧
      ∀ u : List Char,
        RegExp.test ⟨domainPattern (String.mk (l1 ++ '.' :: l2)) mapObj⟩ (String.mk u)
          = (domainRegex (lits (l1 ++ '.' :: l2) .eps)).test u := by
  have hparse := parse_domainPattern l1 l2 h1 h2 mapObj hp
  constructor
  · simp only [buildOpts, RegExp.new, hparse, if_pos (dotted_ne_global l1 l2)]
  · intro u
    simp only [RegExp.test, hparse]

/-- C7 (as amended): the predicate built for `github.com` and a declaration without path
matches `https://github.com/foo/bar` and `http://www.github.com` and does not match
`https://nogithub.com`. More generally, for a domain `l1.l2` of two labels and the default
path, the predicate holds of a text exactly when the text begins with `http://` or
`https://`, labels each followed by a dot, and the domain; so it matches every URL
http(s)://(label.)*D followed by nothing or by a path that starts with `/`, and it matches no
URL whose host is a run of label characters put directly before D, as in `nogithub.com`. -/
theorem domain_predicate_default_path (l1 l2 : List Char) (blocks : List (List Char))
    (w tail : List Char) (secure : Bool) (mapObj : Mapping)
    (h1 : ∀ c ∈ l1, isLabelChar c = true) (h2 : ∀ c ∈ l2, isLabelChar c = true)
    (hbl : ∀ b ∈ blocks, b ≠ [] ∧ ∀ c ∈ b, isLabelChar c = true)
    (hw : w ≠ [] ∧ ∀ c ∈ w, isLabelChar c = true)
    (htail : tail = [] ∨ ∃ q, tail = '/' :: q) (hp : mapObj.path = none) :
    (buildOpts "github.com" Example.callbackA
        = .ok ⟨some ⟨"^http(s)?://(([a-zA-Z0-9-_]+\\.)*)(github\\.com)(/.*)?"⟩⟩ ∧
      RegExp.test ⟨"^http(s)?://(([a-zA-Z0-9-_]+\\.)*)(github\\.com)(/.*)?"⟩
        "https://github.com/foo/bar" = true ∧
      RegExp.test ⟨"^http(s)?://(([a-zA-Z0-9-_]+\\.)*)(github\\.com)(/.*)?"⟩
        "http://www.github.com" = true ∧
      RegExp.test ⟨"^http(s)?://(([a-zA-Z0-9-_]+\\.)*)(github\\.com)(/.*)?"⟩
        "https://nogithub.com" = false) ∧
    ∃ re, buildOpts (String.mk (l1 ++ '.' :: l2)) mapObj = .ok ⟨some re⟩ ∧
      (∀ u : List Char, re.test (String.mk u) = true ↔
        ∃ (sec : Bool) (bs : List (List Char)) (rest : List Char),
          (∀ b ∈ bs, b ≠ [] ∧ ∀ c ∈ b, isLabelChar c = true) ∧
          u = (if sec then "https".data else "http".data) ++ "://".data
            ++ bs.flatMap (fun b => b ++ ['.']) ++ (l1 ++ '.' :: l2) ++ rest) ∧
      re.test (String.mk ((if secure then "https".data else "http".data) ++ "://".data
        ++ blocks.flatMap (fun b => b ++ ['.']) ++ (l1 ++ '.' :: l2) ++ tail)) = true ∧
      re.test (String.mk ((if secure then "https".data else "http".data) ++ "://".data
        ++ w ++ (l1 ++ '.' :: l2) ++ tail)) = false := by
  refine ⟨by decide, ?_⟩
  obtain ⟨hb, ht⟩ := buildOpts_dotted l1 l2 h1 h2 mapObj hp
  refine ⟨_, hb, ?_, ?_, ?_⟩
  · intro u
    rw [ht, test_domainRegex_iff]
  · rw [ht, test_domainRegex_iff]
    exact ⟨secure, blocks, tail, hbl, rfl⟩
  · rw [ht]
    cases hm : (domainRegex (lits (l1 ++ '.' :: l2) .eps)).test
        ((if secure then "https".data else "http".data) ++ "://".data
          ++ w ++ (l1 ++ '.' :: l2) ++ tail) with
    | false => rfl
    | true =>
      exfalso
      obtain ⟨sec, bs, rest, hbs, he⟩ := (test_domainRegex_iff _ _).mp hm
      have e : w ++ (l1 ++ '.' :: l2) ++ tail
          = bs.flatMap (fun b => b ++ ['.']) ++ (l1 ++ '.' :: l2) ++ rest := by
        cases secure <;> cases sec
        · simpa using he
        · exfalso
          simp at he
        · exfalso
          simp at he
        · simpa using he
      exact glued_host_not_prefix l1 l2 w tail rest bs h1 h2 hw htail hbs e

/-- Witness of C7: the domain `github.com`, the subdomain label `www`, the glued label `no`
and the path `/foo/bar`. -/
theorem domain_predicate_default_path_witness :
    ∃ re, buildOpts (String.mk ("github".data ++ '.' :: "com".data)) Example.callbackA
        = .ok ⟨some re⟩ ∧
      (∀ u : List Char, re.test (String.mk u) = true ↔
        ∃ (sec : Bool) (bs : List (List Char)) (rest : List Char),
          (∀ b ∈ bs, b ≠ [] ∧ ∀ c ∈ b, isLabelChar c = true) ∧
          u = (if sec then "https".data else "http".data) ++ "://".data
            ++ bs.flatMap (fun b => b ++ ['.']) ++ ("github".data ++ '.' :: "com".data) ++ rest) ∧
      re.test (String.mk ((if true then "https".data else "http".data) ++ "://".data
        ++ ["www".data].flatMap (fun b => b ++ ['.']) ++ ("github".data ++ '.' :: "com".data)
        ++ "/foo/bar".data)) = true ∧
      re.test (String.mk ((if true then "https".data else "http".data) ++ "://".data
        ++ "no".data ++ ("github".data ++ '.' :: "com".data) ++ "/foo/bar".data)) = false :=
  (domain_predicate_default_path "github".data "com".data ["www".data] "no".data
    "/foo/bar".data true Example.callbackA (by decide) (by decide) (by decide) (by decide)
    (Or.inr ⟨"foo/bar".data, rfl⟩) rfl).2

/-! ## Mode, variant and description of the call of `registerKey` -/

theorem bindCall_mode (categories : Categories) (domain : String) (mapObj : Mapping)
    (siteleader : Option String) (mode : String) (opts : Opts) :
    (mode = "v" →
      (bindCall categories domain mapObj siteleader mode opts).isVisualBind = true ∧
      (bindCall categories domain mapObj siteleader mode opts).isNormalBind = false) ∧
    (mode ≠ "v" →
      (bindCall categories domain mapObj siteleader mode opts).isNormalBind = true ∧
      (bindCall categories domain mapObj siteleader mode opts).isVisualBind = false) := by
  constructor
  · intro hm
    unfold bindCall
    rw [if_pos hm]
    cases mapObj.map <;> exact ⟨rfl, rfl⟩
  · intro hm
    unfold bindCall
    rw [if_neg hm]
    cases mapObj.map <;> exact ⟨rfl, rfl⟩

/-- C13 (as amended): `registerKey` makes at most one host call; a call it makes in mode
`"v"` is `vmap` or `vmapkey` and never `map` or `mapkey`, a call it makes in another mode,
such as `"n"`, is `map` or `mapkey` and never `vmap` or `vmapkey`; it makes exactly one call
when the domain is `"global"` or the domain pattern is well-formed. -/
theorem registerKey_mode_separation {σ : Type} (H : Host σ) (categories : Categories)
    (domain : String) (mapObj : Mapping) (siteleader : Option String) (mode : String)
    (w : World σ) :
    ∃ new, (registerKey H categories domain mapObj siteleader mode w).2.calls = w.calls ++ new ∧
      new.length ≤ 1 ∧
      (∀ c ∈ new,
        (mode = "v" → c.isVisualBind = true ∧ c.isNormalBind = false) ∧
        (mode ≠ "v" → c.isNormalBind = true ∧ c.isVisualBind = false)) ∧
      ((domain = "global" ∨ ∃ re, RegExp.new (domainPattern domain mapObj) = .ok re) →
        new.length = 1) := by
  rcases registerKey_calls H categories domain mapObj siteleader mode w with
    ⟨e, hb, hr⟩ | ⟨opts, hb, _, hc⟩
  · refine ⟨[], by rw [hr]; simp, by simp, by simp, ?_⟩
    intro h
    obtain ⟨opts, ho⟩ := buildOpts_ok_of h
    rw [hb] at ho
    cases ho
  · refine ⟨[bindCall categories domain mapObj siteleader mode opts], hc, by simp, ?_, ?_⟩
    · intro c hcm
      rw [List.mem_singleton] at hcm
      subst hcm
      exact bindCall_mode categories domain mapObj siteleader mode opts
    · intro _
      rfl

/-- C13, counterexample: on `github.com`, for the declaration with the ill-formed path `(`,
`registerKey` makes no host call at all, in mode `"n"` and in mode `"v"`. -/
theorem registerKey_one_call_counterexample :
    (registerKey Host.quiet Example.categories "github.com" Example.badPath (some "r") "n"
        Example.w0).2.calls = [] ∧
    (registerKey Host.quiet Example.categories "github.com" Example.badPath (some "r") "v"
        Example.w0).2.calls = [] := by
  decide

/-- C14: a call `registerKey` submits is of the remap variant exactly when the declaration
has `map`, and of the callback variant otherwise; for a declaration with both `map` and a
callback the call is the remap of the alias to `map`, which carries no callback. One call is
submitted when the domain is `"global"` or the domain pattern is well-formed. -/
theorem registerKey_variant {σ : Type} (H : Host σ) (categories : Categories)
    (domain : String) (mapObj : Mapping) (siteleader : Option String) (mode : String)
    (w : World σ) :
    ∃ new, (registerKey H categories domain mapObj siteleader mode w).2.calls = w.calls ++ new ∧
      (∀ c ∈ new,
        (c.isRemap = true ↔ mapObj.map.isSome = true) ∧
        (c.isCallbackBind = true ↔ mapObj.map = none) ∧
        (∀ target, mapObj.map = some target →
          (c = .map mapObj.alias_ target ∨ c = .vmap mapObj.alias_ target) ∧
          c.jscode? = none)) ∧
      ((domain = "global" ∨ ∃ re, RegExp.new (domainPattern domain mapObj) = .ok re) →
        new.length = 1) := by
  obtain ⟨new, hc, hall, hone⟩ :=
    registerKey_new_calls H categories domain mapObj siteleader mode w
  refine ⟨new, hc, ?_, ?_⟩
  · intro c hcm
    obtain ⟨opts, _, rfl⟩ := hall c hcm
    cases hm : mapObj.map with
    | none =>
      rw [bindCall_callback categories domain mapObj siteleader mode opts hm]
      refine ⟨?_, ?_, ?_⟩
      · split <;> simp [HostCall.isRemap]
      · split <;> simp [HostCall.isCallbackBind]
      · intro target ht
        cases ht
    | some t =>
      rw [bindCall_remap categories domain mapObj siteleader mode opts t hm]
      refine ⟨?_, ?_, ?_⟩
      · split <;> simp [HostCall.isRemap]
      · split <;> simp [HostCall.isCallbackBind]
      · intro target ht
        cases ht
        split
        · exact ⟨Or.inr rfl, rfl⟩
        · exact ⟨Or.inl rfl, rfl⟩
  · intro h
    obtain ⟨opts, _, rfl⟩ := hone h
    rfl

/-- Witness of C14: the declaration `{alias: "a", map: "b", callback: f}` on `github.com` is
submitted as the remap of `"a"` to `"b"`. -/
theorem registerKey_variant_witness :
    (∃ new, (registerKey Host.quiet Example.categories "github.com" Example.remapAndCallback
        (some "r") "n" Example.w0).2.calls = Example.w0.calls ++ new ∧
      (∀ c ∈ new,
        (c.isRemap = true ↔ Example.remapAndCallback.map.isSome = true) ∧
        (c.isCallbackBind = true ↔ Example.remapAndCallback.map = none) ∧
        (∀ target, Example.remapAndCallback.map = some target →
          (c = .map Example.remapAndCallback.alias_ target
            ∨ c = .vmap Example.remapAndCallback.alias_ target) ∧
          c.jscode? = none)) ∧
      (("github.com" = "global" ∨
          ∃ re, RegExp.new (domainPattern "github.com" Example.remapAndCallback) = .ok re) →
        new.length = 1)) ∧
    (registerKey Host.quiet Example.categories "github.com" Example.remapAndCallback (some "r")
        "n" Example.w0).2.calls = [.map (some "a") "b"] :=
  ⟨registerKey_variant Host.quiet Example.categories "github.com" Example.remapAndCallback
    (some "r") "n" Example.w0, by decide⟩

/-- C15: for a declaration without `map`, the description of every call `registerKey`
submits is `#`, the category tag, one space and the description of the declaration, where
the tag is `categories.misc` when the declaration has no category and the description is
empty when it has none; one call is submitted when the domain is `"global"` or the domain
pattern is well-formed. -/
theorem registerKey_description {σ : Type} (H : Host σ) (categories : Categories)
    (domain : String) (mapObj : Mapping) (siteleader : Option String) (mode : String)
    (w : World σ) (hcb : mapObj.map = none) :
    ∃ new, (registerKey H categories domain mapObj siteleader mode w).2.calls = w.calls ++ new ∧
      (∀ c ∈ new, c.description? = some
        ("#"
          ++ (match mapObj.category with
              | some tag => tag
              | none => categories.misc)
          ++ " "
          ++ (match mapObj.description with
              | some d => d
              | none => ""))) ∧
      ((domain = "global" ∨ ∃ re, RegExp.new (domainPattern domain mapObj) = .ok re) →
        new.length = 1) := by
  obtain ⟨new, hc, hall, hone⟩ :=
    registerKey_new_calls H categories domain mapObj siteleader mode w
  refine ⟨new, hc, ?_, ?_⟩
  · intro c hcm
    obtain ⟨opts, _, rfl⟩ := hall c hcm
    rw [bindCall_callback categories domain mapObj siteleader mode opts hcb]
    have h1 : mapObj.category.getD categories.misc
        = (match mapObj.category with
            | some tag => tag
            | none => categories.misc) := by
      cases mapObj.category <;> rfl
    have h2 : mapObj.description.getD ""
        = (match mapObj.description with
            | some d => d
            | none => "") := by
      cases mapObj.description <;> rfl
    rw [h1, h2]
    split <;> rfl
  · intro h
    obtain ⟨opts, _, rfl⟩ := hone h
    rfl

/-- Witness of C15: a declaration with category and description, and one with neither, on
`github.com`. -/
theorem registerKey_description_witness :
    (∃ new, (registerKey Host.quiet Example.categories "github.com" Example.described (some "r")
        "n" Example.w0).2.calls = Example.w0.calls ++ new ∧
      (∀ c ∈ new, c.description? = some
        ("#"
          ++ (match Example.described.category with
              | some tag => tag
              | none => Example.categories.misc)
          ++ " "
          ++ (match Example.described.description with
              | some d => d
              | none => ""))) ∧
      (("github.com" = "global" ∨
          ∃ re, RegExp.new (domainPattern "github.com" Example.described) = .ok re) →
        new.length = 1)) ∧
    (registerKey Host.quiet Example.categories "github.com" Example.described (some "r") "n"
        Example.w0).2.calls.map HostCall.description? = [some "#tabs Close tab"] ∧
    (registerKey Host.quiet Example.categories "github.com" Example.callbackA (some "r") "n"
        Example.w0).2.calls.map HostCall.description? = [some "#misc "] :=
  ⟨registerKey_description Host.quiet Example.categories "github.com" Example.described
    (some "r") "n" Example.w0 rfl, by decide, by decide⟩

/-! ## `registerKeys` on a domain map with one domain -/

theorem mapsAndAliases_single (domain : String) (specs : List Mapping) :
    Object.entries (mapsAndAliases [(domain, specs)] []) = [(domain, some specs)] := by
  have h0 : Object.entries ([] : JSObject (List String)) = [] := rfl
  have h : mapsAndAliases [(domain, specs)] [] = [(domain, some specs)] := by
    simp only [mapsAndAliases, hydratedAliases, Object.assign, h0, List.flatMap_nil,
      List.map_cons, List.map_nil, List.foldl_cons, List.foldl_nil, Object.entries_singleton,
      JSObject.set]
  rw [h, Object.entries_singleton]

theorem registerKeys_single {σ : Type} (H : Host σ) (categories : Categories) (domain : String)
    (specs : List Mapping) (siteleader : Option String) (mode : String) (w : World σ) :
    registerKeys H categories [(domain, specs)] [] siteleader mode w
      = forEach (fun mapObj w2 => registerKey H categories domain mapObj siteleader mode w2)
          specs w := by
  unfold registerKeys
  rw [mapsAndAliases_single]
  simp only [forEach]
  rcases forEach (fun mapObj w2 => registerKey H categories domain mapObj siteleader mode w2)
    specs w with ⟨c, w1⟩
  cases c <;> rfl

theorem buildOpts_congr_path (domain : String) (m1 m2 : Mapping) (h : m1.path = m2.path) :
    buildOpts domain m1 = buildOpts domain m2 := by
  simp only [buildOpts, domainPattern, h]

/-- C16: on the domain map `{"github.com": [{alias: "a", callback: f}]}` without alias
groups, with site leader `"r"` and mode `"n"`, `registerKeys` returns normally having made
one host call, `mapkey` with the key `"ra"`, the description `#`, the tag `misc` of the
category table and a space, the callback `f`, and a domain predicate that holds of every
text that begins with `http://` or `https://`, labels each followed by a dot, and
`github.com`; with the tag written `misc` the description is `"#misc "`. -/
theorem registerKeys_end_to_end (categories : Categories) (f : Callback)
    (blocks : List (List Char)) (rest : List Char) (secure : Bool)
    (hbl : ∀ b ∈ blocks, b ≠ [] ∧ ∀ c ∈ b, isLabelChar c = true) :
    registerKeys Host.quiet categories
        [("github.com", [{ alias_ := some "a", callback := some f }])] [] (some "r") "n"
        Example.w0
      = (.normal,
          { host := (),
            calls := [.mapkey "ra" ("#" ++ categories.misc ++ " ") (some f)
              (some ⟨some ⟨"^http(s)?://(([a-zA-Z0-9-_]+\\.)*)(github\\.com)(/.*)?"⟩⟩)],
            console := [] }) ∧
    "#" ++ Example.categories.misc ++ " " = "#misc " ∧
    RegExp.test ⟨"^http(s)?://(([a-zA-Z0-9-_]+\\.)*)(github\\.com)(/.*)?"⟩
      (String.mk ((if secure then "https".data else "http".data) ++ "://".data
        ++ blocks.flatMap (fun b => b ++ ['.']) ++ "github.com".data ++ rest)) = true := by
  refine ⟨?_, by decide, ?_⟩
  · have hb : buildOpts "github.com" { alias_ := some "a", callback := some f }
        = .ok ⟨some ⟨"^http(s)?://(([a-zA-Z0-9-_]+\\.)*)(github\\.com)(/.*)?"⟩⟩ :=
      (buildOpts_congr_path "github.com" { alias_ := some "a", callback := some f }
        Example.callbackA rfl).trans (by decide)
    rw [registerKeys_single]
    simp only [forEach, registerKey_of_ok Host.quiet _ _ _ _ _ _ _ hb]
    simp [tryBind, Host.quiet, bindCall, resolveLeader, tpl, Example.w0]
  · have h := (buildOpts_dotted "github".data "com".data (by decide) (by decide)
      Example.callbackA rfl).2
      ((if secure then "https".data else "http".data) ++ "://".data
        ++ blocks.flatMap (fun b => b ++ ['.']) ++ "github.com".data ++ rest)
    have hp : domainPattern (String.mk ("github".data ++ '.' :: "com".data)) Example.callbackA
        = "^http(s)?://(([a-zA-Z0-9-_]+\\.)*)(github\\.com)(/.*)?" := by decide
    rw [hp] at h
    rw [h, test_domainRegex_iff]
    exact ⟨secure, blocks, rest, hbl, rfl⟩

/-- Witness of C16: the subdomain `gist.github.com` and the path `/foo`. -/
theorem registerKeys_end_to_end_witness :
    registerKeys Host.quiet Example.categories
        [("github.com", [{ alias_ := some "a", callback := some (.user 0) }])] [] (some "r") "n"
        Example.w0
      = (.normal,
          { host := (),
            calls := [.mapkey "ra" ("#" ++ Example.categories.misc ++ " ") (some (.user 0))
              (some ⟨some ⟨"^http(s)?://(([a-zA-Z0-9-_]+\\.)*)(github\\.com)(/.*)?"⟩⟩)],
            console := [] }) ∧
    "#" ++ Example.categories.misc ++ " " = "#misc " ∧
    RegExp.test ⟨"^http(s)?://(([a-zA-Z0-9-_]+\\.)*)(github\\.com)(/.*)?"⟩
      (String.mk ((if true then "https".data else "http".data) ++ "://".data
        ++ ["gist".data].flatMap (fun b => b ++ ['.']) ++ "github.com".data ++ "/foo".data))
      = true :=
  registerKeys_end_to_end Example.categories (.user 0) ["gist".data] "/foo".data true
    (by decide)

/-! ## The list and the registrations of an alias domain -/

/-- The hydrated map gives an alias domain the value of its base domain in the domain map,
for the last alias group that lists it. -/
theorem mapsAndAliases_get_of_alias (maps : JSObject (List Mapping))
    (aliases : JSObject (List String)) (pre post : List (String × List String))
    (B Ai : String) (g : List String)
    (hent : Object.entries aliases = pre ++ (B, g) :: post) (hmem : Ai ∈ g)
    (hlast : ∀ q ∈ post, Ai ∉ q.2) :
    (mapsAndAliases maps aliases).get Ai = some (maps.get B) := by
  unfold mapsAndAliases hydratedAliases
  rw [hent, Object.assign_cons, List.flatMap_append, List.flatMap_cons, Object.assign_append]
  apply Object.get_assign_eq
  · intro s hs p hp hk
    rcases List.mem_append.mp hs with hs1 | hs1
    · obtain ⟨a, _, rfl⟩ := List.mem_map.mp hs1
      rw [Object.entries_singleton, List.mem_singleton] at hp
      subst hp
      rfl
    · obtain ⟨q, hq, hs2⟩ := List.mem_flatMap.mp hs1
      obtain ⟨a, ha, rfl⟩ := List.mem_map.mp hs2
      rw [Object.entries_singleton, List.mem_singleton] at hp
      subst hp
      simp only at hk
      subst hk
      exact absurd ha (hlast q hq)
  · left
    refine ⟨[(Ai, maps.get B)], ?_, (Ai, maps.get B), ?_, rfl⟩
    · exact List.mem_append_left _ (List.mem_map.mpr ⟨Ai, hmem, rfl⟩)
    · rw [Object.entries_singleton]
      exact List.mem_singleton_self _

theorem mapsAndAliases_entries_of_get (maps : JSObject (List Mapping))
    (aliases : JSObject (List String)) (k : String) (v : Option (List Mapping))
    (h : (mapsAndAliases maps aliases).get k = some v) :
    (k, v) ∈ Object.entries (mapsAndAliases maps aliases) ∧
    ∀ e ∈ Object.entries (mapsAndAliases maps aliases), e.1 = k → e.2 = v := by
  have hnd : ((mapsAndAliases maps aliases).map Prod.fst).Nodup :=
    Object.nodup_assign _ [] List.nodup_nil
  refine ⟨(Object.mem_entries _ _).mpr (JSObject.mem_of_get _ _ _ h), ?_⟩
  intro e he hk
  have h1 : (mapsAndAliases maps aliases).get e.1 = some e.2 :=
    JSObject.get_of_mem _ e.1 e.2 hnd ((Object.mem_entries _ _).mp he)
  rw [hk, h] at h1
  exact (Option.some.inj h1).symm

theorem resolveLeader_of_not_global (d1 d2 : String) (mapObj : Mapping)
    (siteleader : Option String) (h1 : d1 ≠ "global") (h2 : d2 ≠ "global") :
    resolveLeader d1 mapObj siteleader = resolveLeader d2 mapObj siteleader := by
  unfold resolveLeader
  cases mapObj.leader with
  | some l => rfl
  | none => simp [h1, h2]

theorem bindCall_eraseRestriction (categories : Categories) (d1 d2 : String) (mapObj : Mapping)
    (siteleader : Option String) (mode : String) (o1 o2 : Opts)
    (h1 : d1 ≠ "global") (h2 : d2 ≠ "global") :
    (bindCall categories d1 mapObj siteleader mode o1).eraseRestriction
      = (bindCall categories d2 mapObj siteleader mode o2).eraseRestriction := by
  unfold bindCall
  rw [resolveLeader_of_not_global d1 d2 mapObj siteleader h1 h2]
  split <;> cases mapObj.map <;> rfl

theorem bindCall_restriction (categories : Categories) (domain : String) (mapObj : Mapping)
    (siteleader : Option String) (mode : String) (opts : Opts) :
    (bindCall categories domain mapObj siteleader mode opts).restriction
      = if mapObj.map.isSome then none else opts.domain := by
  unfold bindCall
  split <;> cases mapObj.map <;> rfl

/-- The calls of `registerKey` over the host that accepts every call, from the world in
which nothing has happened, when the domain is not `"global"` and the pattern is
well-formed. -/
theorem registerKey_quiet_calls (categories : Categories) (domain : String) (mapObj : Mapping)
    (siteleader : Option String) (mode : String) (re : RegExp) (hd : domain ≠ "global")
    (hre : RegExp.new (domainPattern domain mapObj) = .ok re) :
    (registerKey Host.quiet categories domain mapObj siteleader mode
        { host := (), calls := [], console := [] }).2.calls
      = [bindCall categories domain mapObj siteleader mode { domain := some re }] := by
  rw [registerKey_of_ok Host.quiet _ _ _ _ _ _ _ (buildOpts_of_new hd hre), tryBind_calls]
  rfl

theorem RegExp.new_source (pattern : String) (re : RegExp) (h : RegExp.new pattern = .ok re) :
    re = { source := pattern } := by
  unfold RegExp.new at h
  split at h
  · cases h
  · cases h
    rfl

/-- C11 (as amended): if `Ai` is an alias domain of the base domain `B`, no alias group after
that of `B` lists `Ai`, and `B` has the list `specs` in the domain map, then the hydrated map
has one entry for `Ai` and its list is `specs`; and when neither `B` nor `Ai` is `"global"`
and the domain patterns are well-formed, the call `registerKey` submits for a declaration of
`specs` under `Ai` is the call it submits under `B`, except for the domain predicate, which
is built from `Ai` instead of `B` (a remap carries none). -/
theorem alias_registrations_equal_base (categories : Categories)
    (maps : JSObject (List Mapping)) (aliases : JSObject (List String))
    (pre post : List (String × List String)) (B Ai : String) (g : List String)
    (specs : List Mapping) (siteleader : Option String) (mode : String)
    (hent : Object.entries aliases = pre ++ (B, g) :: post) (hmem : Ai ∈ g)
    (hlast : ∀ q ∈ post, Ai ∉ q.2) (hB : maps.get B = some specs)
    (hBg : B ≠ "global") (hAg : Ai ≠ "global") :
    (Ai, some specs) ∈ Object.entries (mapsAndAliases maps aliases) ∧
    (∀ e ∈ Object.entries (mapsAndAliases maps aliases), e.1 = Ai → e.2 = some specs) ∧
    ∀ mapObj ∈ specs, ∀ reA reB,
      RegExp.new (domainPattern Ai mapObj) = .ok reA →
      RegExp.new (domainPattern B mapObj) = .ok reB →
      ∃ cA cB,
        (registerKey Host.quiet categories Ai mapObj siteleader mode
          { host := (), calls := [], console := [] }).2.calls = [cA] ∧
        (registerKey Host.quiet categories B mapObj siteleader mode
          { host := (), calls := [], console := [] }).2.calls = [cB] ∧
        cA.eraseRestriction = cB.eraseRestriction ∧
        cA.restriction
          = (if mapObj.map.isSome then none else some { source := domainPattern Ai mapObj }) ∧
        cB.restriction
          = (if mapObj.map.isSome then none else some { source := domainPattern B mapObj }) := by
  have hget := mapsAndAliases_get_of_alias maps aliases pre post B Ai g hent hmem hlast
  rw [hB] at hget
  obtain ⟨h1, h2⟩ := mapsAndAliases_entries_of_get maps aliases Ai (some specs) hget
  refine ⟨h1, h2, ?_⟩
  intro mapObj _ reA reB hA hBre
  refine ⟨_, _, registerKey_quiet_calls categories Ai mapObj siteleader mode reA hAg hA,
    registerKey_quiet_calls categories B mapObj siteleader mode reB hBg hBre,
    bindCall_eraseRestriction categories Ai B mapObj siteleader mode _ _ hAg hBg, ?_, ?_⟩
  · rw [bindCall_restriction, RegExp.new_source _ _ hA]
  · rw [bindCall_restriction, RegExp.new_source _ _ hBre]

/-- Witness of C11: `wiktionary.org` as an alias of `wikipedia.org`, whose list has a
callback declaration and a remap. -/
theorem alias_registrations_equal_base_witness :
    ("wiktionary.org", some [Example.callbackA, Example.remapAB])
      ∈ Object.entries (mapsAndAliases Example.mapsWiki Example.aliasesWiki) ∧
    (∀ e ∈ Object.entries (mapsAndAliases Example.mapsWiki Example.aliasesWiki),
      e.1 = "wiktionary.org" → e.2 = some [Example.callbackA, Example.remapAB]) ∧
    ∀ mapObj ∈ [Example.callbackA, Example.remapAB], ∀ reA reB,
      RegExp.new (domainPattern "wiktionary.org" mapObj) = .ok reA →
      RegExp.new (domainPattern "wikipedia.org" mapObj) = .ok reB →
      ∃ cA cB,
        (registerKey Host.quiet Example.categories "wiktionary.org" mapObj (some "r") "n"
          { host := (), calls := [], console := [] }).2.calls = [cA] ∧
        (registerKey Host.quiet Example.categories "wikipedia.org" mapObj (some "r") "n"
          { host := (), calls := [], console := [] }).2.calls = [cB] ∧
        cA.eraseRestriction = cB.eraseRestriction ∧
        cA.restriction
          = (if mapObj.map.isSome then none
              else some { source := domainPattern "wiktionary.org" mapObj }) ∧
        cB.restriction
          = (if mapObj.map.isSome then none
              else some { source := domainPattern "wikipedia.org" mapObj }) :=
  alias_registrations_equal_base Example.categories Example.mapsWiki Example.aliasesWiki [] []
    "wikipedia.org" "wiktionary.org" ["wiktionary.org"] [Example.callbackA, Example.remapAB]
    (some "r") "n" (by decide) (by decide) (fun _ h => nomatch h) (by decide) (by decide)
    (by decide)

/-- C11, counterexample: `example.com` is an alias of the base `"global"`, which has the
list `[{alias: "a", callback: f}]`; the registration for `"global"` has the key `"a"`, the
one for `example.com` the key `"ra"`: they differ in more than the domain predicate. -/
theorem alias_of_global_counterexample :
    Example.mapsGlobal.get "example.com" = none ∧
    (mapsAndAliases Example.mapsGlobal Example.aliasesOfGlobal).get "example.com"
      = some (Example.mapsGlobal.get "global") ∧
    (registerKeys Host.quiet Example.categories Example.mapsGlobal Example.aliasesOfGlobal
        (some "r") "n" Example.w0).2.calls
      = [.mapkey "a" "#misc " (some (.user 0)) (some ⟨none⟩),
         .mapkey "ra" "#misc " (some (.user 0))
          (some ⟨some ⟨"^http(s)?://(([a-zA-Z0-9-_]+\\.)*)(example\\.com)(/.*)?"⟩⟩)] ∧
    (HostCall.mapkey "ra" "#misc " (some (.user 0))
        (some ⟨some ⟨"^http(s)?://(([a-zA-Z0-9-_]+\\.)*)(example\\.com)(/.*)?"⟩⟩)).eraseRestriction
      ≠ (HostCall.mapkey "a" "#misc " (some (.user 0)) (some ⟨none⟩)).eraseRestriction := by
  decide

/-! ## Override by order -/

theorem tryBind_host {σ : Type} (H : Host σ) (a : Option String) (mode : String) (c : HostCall)
    (w : World σ) : (tryBind H a mode c w).host = (H.call w.host c).1 := by
  unfold tryBind
  split
  · next h1 => rw [h1]
  · next h1 => rw [h1]

theorem registerKey_normal_iff {σ : Type} (H : Host σ) (categories : Categories)
    (domain : String) (mapObj : Mapping) (siteleader : Option String) (mode : String)
    (w : World σ) :
    (registerKey H categories domain mapObj siteleader mode w).1 = .normal
      ↔ ∃ opts, buildOpts domain mapObj = .ok opts := by
  rcases hb : buildOpts domain mapObj with e | opts
  · rw [registerKey_of_error H _ _ _ _ _ _ e hb]
    simp
  · rw [registerKey_of_ok H _ _ _ _ _ _ opts hb]
    simp

/-- The registry after a list of callback declarations has been compiled: for every key,
the last declaration of the list that resolves to it, else what was bound before. -/
theorem forEach_registry (categories : Categories) (domain : String)
    (siteleader : Option String) (mode : String) (specs : List Mapping) (w : World Registry)
    (hcb : ∀ m ∈ specs, m.map = none)
    (hnorm : (forEach (fun mapObj w2 =>
        registerKey Host.registry categories domain mapObj siteleader mode w2) specs w).1
          = .normal)
    (k : String) :
    (forEach (fun mapObj w2 =>
        registerKey Host.registry categories domain mapObj siteleader mode w2) specs w).2.host
        (decide (mode = "v"), k)
      = (((specs.filter fun m =>
            decide (tpl (resolveLeader domain m siteleader) ++ tpl m.alias_ = k)).getLast?).map
          fun m => some ("#" ++ m.category.getD categories.misc ++ " " ++ m.description.getD "",
            m.callback)).getD (w.host (decide (mode = "v"), k)) := by
  induction specs generalizing w with
  | nil => rfl
  | cons m specs ih =>
    have hm : m.map = none := hcb m (List.mem_cons_self _ _)
    rcases hb : buildOpts domain m with e | opts
    · rw [forEach, registerKey_of_error Host.registry _ _ _ _ _ _ e hb] at hnorm
      cases hnorm
    · simp only [forEach, registerKey_of_ok Host.registry _ _ _ _ _ _ opts hb] at hnorm ⊢
      rw [ih _ (fun x hx => hcb x (List.mem_cons_of_mem _ hx)) hnorm]
      have hhost : (tryBind Host.registry m.alias_ mode
          (bindCall categories domain m siteleader mode opts) w).host
          = w.host.bind (decide (mode = "v"))
              (tpl (resolveLeader domain m siteleader) ++ tpl m.alias_)
              ("#" ++ m.category.getD categories.misc ++ " " ++ m.description.getD "")
              m.callback := by
        rw [tryBind_host, bindCall_callback categories domain m siteleader mode opts hm]
        by_cases hv : mode = "v"
        · simp [hv, Host.registry]
        · simp [hv, Host.registry]
      rw [hhost]
      by_cases hk : tpl (resolveLeader domain m siteleader) ++ tpl m.alias_ = k
      · rw [List.filter_cons_of_pos (by simpa using hk), List.getLast?_cons]
        cases hl : (specs.filter fun m =>
            decide (tpl (resolveLeader domain m siteleader) ++ tpl m.alias_ = k)).getLast? with
        | none => simp [Registry.bind, hk]
        | some x => simp
      · rw [List.filter_cons_of_neg (by simpa using hk)]
        cases hl : (specs.filter fun m =>
            decide (tpl (resolveLeader domain m siteleader) ++ tpl m.alias_ = k)).getLast? with
        | none =>
          have : ¬ k = tpl (resolveLeader domain m siteleader) ++ tpl m.alias_ :=
            fun e => hk e.symm
          simp [Registry.bind, this]
        | some x => simp

/-- C12: over a host registry in which binding a mode and key replaces the previous binding
of them, when `registerKeys` has compiled the list `L` of callback declarations of a domain
(it returned normally), the registry of the mode holds for every key the description and the
callback of the last declaration of `L` that resolves to the key, and nothing for a key no
declaration resolves to. -/
theorem registerKeys_override_by_order (categories : Categories) (D : String)
    (L : List Mapping) (siteleader : Option String) (mode : String)
    (hcb : ∀ m ∈ L, m.map = none)
    (hnorm : (registerKeys Host.registry categories [(D, L)] [] siteleader mode
        { host := Registry.empty, calls := [], console := [] }).1 = .normal)
    (k : String) :
    (registerKeys Host.registry categories [(D, L)] [] siteleader mode
        { host := Registry.empty, calls := [], console := [] }).2.host (decide (mode = "v"), k)
      = ((L.filter fun m =>
            decide (tpl (resolveLeader D m siteleader) ++ tpl m.alias_ = k)).getLast?).map
          fun m => ("#" ++ m.category.getD categories.misc ++ " " ++ m.description.getD "",
            m.callback) := by
  rw [registerKeys_single] at hnorm ⊢
  rw [forEach_registry categories D siteleader mode L _ hcb hnorm k]
  cases (L.filter fun m =>
      decide (tpl (resolveLeader D m siteleader) ++ tpl m.alias_ = k)).getLast? with
  | none => rfl
  | some x => rfl

/-- Witness of C12: on `github.com` the first and the third declaration of the list resolve
to `"ra"`; the registry holds the third. -/
theorem registerKeys_override_by_order_witness :
    (registerKeys Host.registry Example.categories [("github.com", Example.specsOverride)] []
        (some "r") "n" { host := Registry.empty, calls := [], console := [] }).2.host
        (decide ("n" = "v"), "ra")
      = ((Example.specsOverride.filter fun m =>
            decide (tpl (resolveLeader "github.com" m (some "r")) ++ tpl m.alias_ = "ra")).getLast?).map
          (fun m => ("#" ++ m.category.getD Example.categories.misc ++ " "
            ++ m.description.getD "", m.callback)) ∧
    (registerKeys Host.registry Example.categories [("github.com", Example.specsOverride)] []
        (some "r") "n" { host := Registry.empty, calls := [], console := [] }).2.host
        (false, "ra") = some ("#misc third", some (.user 12)) :=
  ⟨registerKeys_override_by_order Example.categories "github.com" Example.specsOverride
    (some "r") "n" (by decide) (by decide) "ra", by decide⟩

/-! ## Statements and the calls they make -/

theorem emits_normal {σ : Type} (w : World σ) : Emits (Completion.normal, w) w [] :=
  ⟨[], by simp, List.prefix_refl _, fun _ => rfl⟩

theorem emits_callHost {σ : Type} (H : Host σ) (c : HostCall) (w : World σ) :
    Emits (callHost H c w) w [c] := by
  unfold callHost
  split <;> exact ⟨[c], rfl, List.prefix_refl _, fun _ => rfl⟩

theorem emits_andThen {σ : Type} (r : Completion × World σ) (k : World σ → Completion × World σ)
    (w : World σ) (a b : List HostCall) (hr : Emits r w a) (hk : ∀ w1, Emits (k w1) w1 b) :
    Emits (andThen r k) w (a ++ b) := by
  obtain ⟨new, hc, hp, hn⟩ := hr
  rcases r with ⟨c, w1⟩
  cases c with
  | normal =>
    obtain ⟨new2, hc2, hp2, hn2⟩ := hk w1
    have ha : new = a := hn rfl
    subst ha
    refine ⟨new ++ new2, ?_, ?_, ?_⟩
    · simp only [andThen]
      simp only at hc
      rw [hc2, hc, List.append_assoc]
    · exact (List.prefix_append_right_inj new).mpr hp2
    · intro h
      simp only [andThen] at h
      rw [hn2 h]
  | throw e =>
    refine ⟨new, hc, hp.trans (List.prefix_append a b), ?_⟩
    intro h
    simp only [andThen] at h
    cases h

theorem emits_forEach {σ α : Type} (body : α → World σ → Completion × World σ)
    (g : α → List HostCall) (h : ∀ x w, Emits (body x w) w (g x)) (xs : List α) (w : World σ) :
    Emits (forEach body xs w) w (xs.flatMap g) := by
  induction xs generalizing w with
  | nil => exact emits_normal w
  | cons x xs ih =>
    have : forEach body (x :: xs) w = andThen (body x w) (forEach body xs) := by
      simp only [forEach, andThen]
    rw [this, List.flatMap_cons]
    exact emits_andThen _ _ w _ _ (h x w) ih

theorem callHost_normal {σ : Type} (H : Host σ) (hq : ∀ s c, (H.call s c).2 = none)
    (c : HostCall) (w : World σ) : (callHost H c w).1 = .normal := by
  unfold callHost
  have := hq w.host c
  split
  · rfl
  · next h1 => rw [h1] at this; cases this

theorem andThen_normal {σ : Type} (r : Completion × World σ)
    (k : World σ → Completion × World σ) (hr : r.1 = .normal) (hk : ∀ w, (k w).1 = .normal) :
    (andThen r k).1 = .normal := by
  rcases r with ⟨c, w1⟩
  simp only at hr
  subst hr
  exact hk w1

theorem forEach_normal {σ α : Type} (body : α → World σ → Completion × World σ)
    (h : ∀ x w, (body x w).1 = .normal) (xs : List α) (w : World σ) :
    (forEach body xs w).1 = .normal := by
  induction xs generalizing w with
  | nil => rfl
  | cons x xs ih =>
    have hx := h x w
    simp only [forEach]
    rcases hb : body x w with ⟨c, w1⟩
    rw [hb] at hx
    simp only at hx
    subst hx
    exact ih w1

/-! ## `registerSearchEngines` -/

theorem emits_registerSearchEngines {σ : Type} (H : Host σ)
    (searchEngines : JSObject SearchEngine) (searchleader : Option String) (w : World σ) :
    Emits (registerSearchEngines H searchEngines searchleader w) w
      ((Object.values searchEngines).flatMap (searchEngineCalls searchleader)) := by
  unfold registerSearchEngines
  apply emits_forEach
  intro s w1
  exact emits_andThen _ _ w1 [_] [_, _] (emits_callHost H _ w1) fun w2 =>
    emits_andThen _ _ w2 [_] [_] (emits_callHost H _ w2) fun w3 => emits_callHost H _ w3

theorem registerSearchEngines_normal {σ : Type} (H : Host σ)
    (hq : ∀ s c, (H.call s c).2 = none) (searchEngines : JSObject SearchEngine)
    (searchleader : Option String) (w : World σ) :
    (registerSearchEngines H searchEngines searchleader w).1 = .normal := by
  unfold registerSearchEngines
  apply forEach_normal
  intro s w1
  exact andThen_normal _ _ (callHost_normal H hq _ _) fun w2 =>
    andThen_normal _ _ (callHost_normal H hq _ _) fun w3 => callHost_normal H hq _ _

/-! ## Own-property order is a rearrangement -/

theorem insertIndexed_perm {α : Type} (e : Nat × (String × α))
    (l : List (Nat × (String × α))) : (insertIndexed e l).Perm (e :: l) := by
  induction l with
  | nil => exact List.Perm.refl _
  | cons x xs ih =>
    simp only [insertIndexed]
    split
    · exact List.Perm.refl _
    · exact (List.Perm.cons x ih).trans (List.Perm.swap e x xs)

theorem foldr_insertIndexed_perm {α : Type} (l : List (Nat × (String × α))) :
    (l.foldr insertIndexed []).Perm l := by
  induction l with
  | nil => exact List.Perm.refl _
  | cons x xs ih =>
    rw [List.foldr_cons]
    exact (insertIndexed_perm x _).trans (List.Perm.cons x ih)

theorem map_snd_filterMap_index {α : Type} (o : JSObject α) :
    (o.filterMap fun p => (arrayIndex? p.1).map fun i => (i, p)).map (fun e => e.2)
      = o.filter fun p => (arrayIndex? p.1).isSome := by
  induction o with
  | nil => rfl
  | cons p rest ih =>
    cases h : arrayIndex? p.1 with
    | none => simp [List.filterMap_cons, List.filter_cons, h, ih]
    | some i => simp [List.filterMap_cons, List.filter_cons, h, ih]

theorem Object.entries_perm {α : Type} (o : JSObject α) : (Object.entries o).Perm o := by
  unfold Object.entries
  have h1 : (((o.filterMap fun p => (arrayIndex? p.1).map fun i => (i, p)).foldr
      insertIndexed []).map fun e => e.2).Perm (o.filter fun p => (arrayIndex? p.1).isSome) := by
    rw [← map_snd_filterMap_index]
    exact (foldr_insertIndexed_perm _).map _
  have h2 : (o.filter fun p => (arrayIndex? p.1).isNone)
      = o.filter fun p => !(arrayIndex? p.1).isSome := by
    congr 1
    funext p
    cases arrayIndex? p.1 <;> rfl
  rw [h2]
  exact (List.Perm.append_right _ h1).trans (List.filter_append_perm _ o)

theorem Object.length_values {α : Type} (o : JSObject α) :
    (Object.values o).length = o.length := by
  unfold Object.values
  rw [List.length_map]
  exact (Object.entries_perm o).length_eq

/-- C17: over a host that raises on none of the calls, `registerSearchEngines` returns
normally having made, for each search engine in turn, three calls in this order:
`addSearchAlias` under the alias of the engine with `skipMaps` set and its favicon, `mapkey`
without options (normal mode, no domain predicate) for search leader + alias with the closure
that opens the omnibar of type `SearchEngine` for the alias, and `mapkey` without options
for `c` + search leader + alias with the closure that reads the clipboard and opens the
same omnibar with the clipboard text as `pref`; these are three times as many calls as
there are engines. -/
theorem registerSearchEngines_calls {σ : Type} (H : Host σ)
    (searchEngines : JSObject SearchEngine) (searchleader : Option String) (w : World σ)
    (hq : ∀ s c, (H.call s c).2 = none) :
    (registerSearchEngines H searchEngines searchleader w).1 = .normal ∧
    (registerSearchEngines H searchEngines searchleader w).2.calls
      = w.calls ++ (Object.values searchEngines).flatMap (fun s =>
          [.addSearchAlias s.alias_ s.name s.search "" s.compl s.callback none
              { favicon_url := s.favicon, skipMaps := true },
           .mapkey (tpl searchleader ++ tpl s.alias_) ("#8Search " ++ tpl s.name)
              (some (.searchPrompt s.alias_)) none,
           .mapkey ("c" ++ tpl searchleader ++ tpl s.alias_)
              ("#8Search " ++ tpl s.name ++ " with clipboard contents")
              (some (.searchPromptClipboard s.alias_)) none]) ∧
    (registerSearchEngines H searchEngines searchleader w).2.calls.length
      = w.calls.length + 3 * searchEngines.length ∧
    (∀ (extra : Option String) (clipboard : String),
      (Callback.searchPrompt extra).invoke clipboard
        = some [.openOmnibar "SearchEngine" extra none] ∧
      (Callback.searchPromptClipboard extra).invoke clipboard
        = some [.clipboardRead, .openOmnibar "SearchEngine" extra (some clipboard)]) := by
  have hn := registerSearchEngines_normal H hq searchEngines searchleader w
  obtain ⟨new, hc, _, hfull⟩ := emits_registerSearchEngines H searchEngines searchleader w
  have hnew := hfull hn
  subst hnew
  refine ⟨hn, hc, ?_, fun _ _ => ⟨rfl, rfl⟩⟩
  rw [hc, List.length_append, ← Object.length_values]
  congr 1
  generalize Object.values searchEngines = vs
  induction vs with
  | nil => rfl
  | cons v vs ih =>
    rw [List.flatMap_cons, List.length_append, ih]
    simp [searchEngineCalls]
    omega

/-- Witness of C17: the engine with alias `"g"` and name `Google`, with the search leader
`"o"`: the search alias `"g"` and the keys `"og"` and `"cog"`. -/
theorem registerSearchEngines_calls_witness :
    ((registerSearchEngines Host.quiet Example.searchEnginesGoogle (some "o") Example.w0).1
        = .normal ∧
      (registerSearchEngines Host.quiet Example.searchEnginesGoogle (some "o") Example.w0).2.calls
        = Example.w0.calls ++ (Object.values Example.searchEnginesGoogle).flatMap (fun s =>
            [.addSearchAlias s.alias_ s.name s.search "" s.compl s.callback none
                { favicon_url := s.favicon, skipMaps := true },
             .mapkey (tpl (some "o") ++ tpl s.alias_) ("#8Search " ++ tpl s.name)
                (some (.searchPrompt s.alias_)) none,
             .mapkey ("c" ++ tpl (some "o") ++ tpl s.alias_)
                ("#8Search " ++ tpl s.name ++ " with clipboard contents")
                (some (.searchPromptClipboard s.alias_)) none]) ∧
      (registerSearchEngines Host.quiet Example.searchEnginesGoogle (some "o")
          Example.w0).2.calls.length
        = Example.w0.calls.length + 3 * Example.searchEnginesGoogle.length ∧
      (∀ (extra : Option String) (clipboard : String),
        (Callback.searchPrompt extra).invoke clipboard
          = some [.openOmnibar "SearchEngine" extra none] ∧
        (Callback.searchPromptClipboard extra).invoke clipboard
          = some [.clipboardRead, .openOmnibar "SearchEngine" extra (some clipboard)])) ∧
    (registerSearchEngines Host.quiet Example.searchEnginesGoogle (some "o") Example.w0).2.calls
      = [.addSearchAlias (some "g") (some "Google") (some "https://www.google.com/search?q=") ""
            (some "https://www.google.com/complete/search?client=chrome-omni&q=")
            (some (.user 13)) none
            { favicon_url := some "https://www.google.com/favicon.ico", skipMaps := true },
         .mapkey "og" "#8Search Google" (some (.searchPrompt (some "g"))) none,
         .mapkey "cog" "#8Search Google with clipboard contents"
            (some (.searchPromptClipboard (some "g"))) none] :=
  ⟨registerSearchEngines_calls Host.quiet Example.searchEnginesGoogle (some "o") Example.w0
    (fun _ _ => rfl), by decide⟩

/-! ## The calls of `registerKeys` do not depend on the host -/

theorem registerKeys_calls_from_empty {σ : Type} (H : Host σ) (categories : Categories)
    (maps : JSObject (List Mapping)) (aliases : JSObject (List String))
    (siteleader : Option String) (mode : String) (w : World σ) :
    (registerKeys H categories maps aliases siteleader mode w).1
        = (registerKeys Host.quiet categories maps aliases siteleader mode
            { host := (), calls := [], console := [] }).1 ∧
      (registerKeys H categories maps aliases siteleader mode w).2.calls
        = w.calls ++ (registerKeys Host.quiet categories maps aliases siteleader mode
            { host := (), calls := [], console := [] }).2.calls := by
  unfold registerKeys
  apply forEach_sim (fun (w1 : World σ) (v1 : World Unit) => w1.calls = w.calls ++ v1.calls)
  · intro e w1 v1 h1
    cases e.2 with
    | none => exact ⟨rfl, h1⟩
    | some l =>
      apply forEach_sim (fun (w1 : World σ) (v1 : World Unit) => w1.calls = w.calls ++ v1.calls)
      · intro m w2 v2 h2
        rcases hb : buildOpts e.1 m with err | opts
        · rw [registerKey_of_error H _ _ _ _ _ _ err hb,
            registerKey_of_error Host.quiet _ _ _ _ _ _ err hb]
          exact ⟨rfl, h2⟩
        · rw [registerKey_of_ok H _ _ _ _ _ _ opts hb,
            registerKey_of_ok Host.quiet _ _ _ _ _ _ opts hb]
          refine ⟨rfl, ?_⟩
          simp only [tryBind_calls, h2, List.append_assoc]
      · exact h1
  · simp

theorem emits_registerKeys {σ : Type} (H : Host σ) (categories : Categories)
    (maps : JSObject (List Mapping)) (aliases : JSObject (List String))
    (siteleader : Option String) (mode : String) (w : World σ) :
    Emits (registerKeys H categories maps aliases siteleader mode w) w
      (registerKeys Host.quiet categories maps aliases siteleader mode
        { host := (), calls := [], console := [] }).2.calls :=
  ⟨_, (registerKeys_calls_from_empty H categories maps aliases siteleader mode w).2,
    List.prefix_refl _, fun _ => rfl⟩

/-- Every call of `registerKeys` is a bind call of the registry of its mode. -/
theorem registerKeys_calls_mode (categories : Categories) (maps : JSObject (List Mapping))
    (aliases : JSObject (List String)) (siteleader : Option String) (mode : String) :
    ∀ c ∈ (registerKeys Host.quiet categories maps aliases siteleader mode
        { host := (), calls := [], console := [] }).2.calls,
      (mode = "v" → c.isVisualBind = true) ∧ (mode ≠ "v" → c.isNormalBind = true) := by
  have key : ∀ (es : List (String × Option (List Mapping))) (w : World Unit),
      (∀ c ∈ w.calls, (mode = "v" → c.isVisualBind = true) ∧
        (mode ≠ "v" → c.isNormalBind = true)) →
      ∀ c ∈ (forEach
        (fun (e : String × Option (List Mapping)) w1 =>
          match e.2 with
          | none => (Completion.throw JSError.typeError, w1)
          | some domainMaps =>
            forEach (fun mapObj w2 =>
              registerKey Host.quiet categories e.1 mapObj siteleader mode w2) domainMaps w1)
        es w).2.calls,
        (mode = "v" → c.isVisualBind = true) ∧ (mode ≠ "v" → c.isNormalBind = true) := by
    have inner : ∀ (d : String) (l : List Mapping) (w : World Unit),
        (∀ c ∈ w.calls, (mode = "v" → c.isVisualBind = true) ∧
          (mode ≠ "v" → c.isNormalBind = true)) →
        ∀ c ∈ (forEach (fun mapObj w2 =>
            registerKey Host.quiet categories d mapObj siteleader mode w2) l w).2.calls,
          (mode = "v" → c.isVisualBind = true) ∧ (mode ≠ "v" → c.isNormalBind = true) := by
      intro d l
      induction l with
      | nil => intro w hw; exact hw
      | cons m l ih =>
        intro w hw
        simp only [forEach]
        rcases hb : buildOpts d m with err | opts
        · rw [registerKey_of_error Host.quiet _ _ _ _ _ _ err hb]
          exact hw
        · rw [registerKey_of_ok Host.quiet _ _ _ _ _ _ opts hb]
          apply ih
          intro c hc
          rw [tryBind_calls, List.mem_append, List.mem_singleton] at hc
          rcases hc with hc | rfl
          · exact hw c hc
          · have := bindCall_mode categories d m siteleader mode opts
            exact ⟨fun h => (this.1 h).1, fun h => (this.2 h).1⟩
    intro es
    induction es with
    | nil => intro w hw; exact hw
    | cons e es ih =>
      intro w hw
      simp only [forEach]
      cases he : e.2 with
      | none => exact hw
      | some l =>
        simp only
        have hin := inner e.1 l w hw
        rcases hf : forEach (fun mapObj w2 =>
            registerKey Host.quiet categories e.1 mapObj siteleader mode w2) l w with ⟨c1, w1⟩
        rw [hf] at hin
        cases c1 with
        | normal => exact ih w1 hin
        | throw err => exact hin
  unfold registerKeys
  exact key _ _ (by simp)

/-! ## The calls of `main` -/

theorem emits_forEach_callHost {σ α : Type} (H : Host σ) (f : α → HostCall) (xs : List α)
    (w : World σ) : Emits (forEach (fun x w1 => callHost H (f x) w1) xs w) w (xs.map f) := by
  have e : xs.flatMap (fun x => [f x]) = xs.map f := by
    induction xs with
    | nil => rfl
    | cons x xs ih => rw [List.flatMap_cons, List.map_cons, ih]; rfl
  have h := emits_forEach (fun x w1 => callHost H (f x) w1) (fun x => [f x])
    (fun x w1 => emits_callHost H (f x) w1) xs w
  rw [e] at h
  exact h

theorem emits_mainSettings {σ : Type} (H : Host σ) (conf : Conf) (w : World σ) :
    Emits (mainSettings H conf w) w (settingsCalls conf) := by
  unfold mainSettings settingsCalls
  cases conf.settings with
  | none => exact emits_normal w
  | some s => exact emits_callHost H _ w

theorem emits_mainUnmaps {σ : Type} (H : Host σ) (conf : Conf) (w : World σ) :
    Emits (mainUnmaps H conf w) w (unbindCalls conf) := by
  unfold mainUnmaps unbindCalls
  cases conf.keys.bind fun keys => keys.unmaps with
  | none => exact emits_normal w
  | some unmaps =>
    simp only
    apply emits_andThen
    · cases unmaps.mappings with
      | none => exact emits_normal w
      | some ms => exact emits_forEach_callHost H _ ms w
    · intro w2
      apply emits_andThen
      · cases unmaps.vmappings with
        | none => exact emits_normal w2
        | some ms => exact emits_forEach_callHost H _ ms w2
      · intro w3
        cases unmaps.searchAliases with
        | none => exact emits_normal w3
        | some sa =>
          simp only
          exact emits_forEach _ _
            (fun (e : String × List String) w4 =>
              emits_forEach_callHost H (fun v => HostCall.removeSearchAlias v e.1) e.2 w4) _ w3

theorem emits_mainSearchEngines {σ : Type} (H : Host σ) (conf : Conf) (w : World σ) :
    Emits (mainSearchEngines H conf w) w (searchCalls conf) := by
  unfold mainSearchEngines searchCalls
  cases conf.searchEngines with
  | none => exact emits_normal w
  | some se => exact emits_registerSearchEngines H se _ w

theorem emits_mainMaps {σ : Type} (H : Host σ) (categories : Categories) (conf : Conf)
    (w : World σ) : Emits (mainMaps H categories conf w) w (mapsCalls categories conf) := by
  unfold mapsCalls mainMaps
  cases conf.keys with
  | none => exact emits_normal w
  | some keys =>
    simp only
    cases keys.maps with
    | none => exact emits_normal w
    | some maps => exact emits_registerKeys H categories maps _ _ _ w

theorem emits_mainVmaps {σ : Type} (H : Host σ) (categories : Categories) (conf : Conf)
    (w : World σ) : Emits (mainVmaps H categories conf w) w (vmapsCalls categories conf) := by
  unfold vmapsCalls mainVmaps
  cases conf.keys with
  | none => exact emits_normal w
  | some keys =>
    simp only
    cases keys.vmaps with
    | none => exact emits_normal w
    | some vmaps => exact emits_registerKeys H categories vmaps _ _ _ w

theorem emits_main {σ : Type} (H : Host σ) (categories : Categories) (conf : Conf)
    (w : World σ) :
    Emits (main H categories conf w) w
      (settingsCalls conf ++ (unbindCalls conf ++ (searchCalls conf
        ++ (mapsCalls categories conf ++ vmapsCalls categories conf)))) := by
  unfold main
  exact emits_andThen _ _ w _ _ (emits_mainSettings H conf w) fun w1 =>
    emits_andThen _ _ w1 _ _ (emits_mainUnmaps H conf w1) fun w2 =>
    emits_andThen _ _ w2 _ _ (emits_mainSearchEngines H conf w2) fun w3 =>
    emits_andThen _ _ w3 _ _ (emits_mainMaps H categories conf w3) fun w4 =>
    emits_mainVmaps H categories conf w4

theorem prefix_append_split {α : Type} (new a b : List α) (h : new <+: a ++ b) :
    ∃ x y, new = x ++ y ∧ x <+: a ∧ y <+: b := by
  induction a generalizing new with
  | nil => exact ⟨[], new, rfl, List.prefix_refl _, by simpa using h⟩
  | cons c a ih =>
    cases new with
    | nil => exact ⟨[], [], rfl, List.nil_prefix, List.nil_prefix⟩
    | cons d new =>
      rw [List.cons_append, List.cons_prefix_cons] at h
      obtain ⟨x, y, hxy, hx, hy⟩ := ih new h.2
      refine ⟨d :: x, y, by rw [hxy]; rfl, ?_, hy⟩
      rw [List.cons_prefix_cons]
      exact ⟨h.1, hx⟩

/-! ## The kinds of the calls of `main` -/

theorem settingsCalls_kind (conf : Conf) :
    ∀ c ∈ settingsCalls conf, c.isUnbind = false ∧ c.isRegistration = false := by
  intro c
  unfold settingsCalls
  cases conf.settings with
  | none => intro hc; cases hc
  | some s =>
    intro hc
    simp only [List.mem_singleton] at hc
    subst hc
    exact ⟨rfl, rfl⟩

theorem unbindCalls_kind (conf : Conf) :
    ∀ c ∈ unbindCalls conf, c.isUnbind = true ∧ c.isRegistration = false := by
  intro c
  unfold unbindCalls
  cases conf.keys.bind fun keys => keys.unmaps with
  | none => intro hc; cases hc
  | some unmaps =>
    simp only [List.mem_append, List.mem_map]
    rintro (⟨m, _, rfl⟩ | ⟨m, _, rfl⟩ | hc)
    · exact ⟨rfl, rfl⟩
    · exact ⟨rfl, rfl⟩
    · revert hc
      cases unmaps.searchAliases with
      | none => intro hc; cases hc
      | some sa =>
        simp only [List.mem_flatMap, List.mem_map]
        rintro ⟨e, _, v, _, rfl⟩
        exact ⟨rfl, rfl⟩

theorem searchCalls_kind (conf : Conf) :
    ∀ c ∈ searchCalls conf, c.isRegistration = true ∧ c.isUnbind = false := by
  intro c
  unfold searchCalls
  cases conf.searchEngines with
  | none => intro hc; cases hc
  | some se =>
    simp only [List.mem_flatMap, searchEngineCalls, List.mem_cons, List.mem_singleton,
      List.not_mem_nil, or_false]
    rintro ⟨s, _, rfl | rfl | rfl⟩ <;> exact ⟨rfl, rfl⟩

theorem mapsCalls_kind (categories : Categories) (conf : Conf) :
    ∀ c ∈ mapsCalls categories conf,
      c.isNormalBind = true ∧ c.isRegistration = true ∧ c.isUnbind = false := by
  intro c
  have hk : c.isNormalBind = true → c.isNormalBind = true ∧ c.isRegistration = true
      ∧ c.isUnbind = false := by
    intro h
    cases c <;> simp_all [HostCall.isNormalBind, HostCall.isRegistration, HostCall.isUnbind]
  unfold mapsCalls mainMaps
  cases conf.keys with
  | none => intro hc; cases hc
  | some keys =>
    simp only
    cases keys.maps with
    | none => intro hc; cases hc
    | some maps =>
      intro hc
      exact hk ((registerKeys_calls_mode categories maps _ _ "n" c hc).2 (by decide))

theorem vmapsCalls_kind (categories : Categories) (conf : Conf) :
    ∀ c ∈ vmapsCalls categories conf,
      c.isVisualBind = true ∧ c.isRegistration = true ∧ c.isUnbind = false := by
  intro c
  have hk : c.isVisualBind = true → c.isVisualBind = true ∧ c.isRegistration = true
      ∧ c.isUnbind = false := by
    intro h
    cases c <;> simp_all [HostCall.isVisualBind, HostCall.isRegistration, HostCall.isUnbind]
  unfold vmapsCalls mainVmaps
  cases conf.keys with
  | none => intro hc; cases hc
  | some keys =>
    simp only
    cases keys.vmaps with
    | none => intro hc; cases hc
    | some vmaps =>
      intro hc
      exact hk ((registerKeys_calls_mode categories vmaps _ _ "v" c hc).1 rfl)

/-! ## Startup order -/

/-- C18: the calls of `main` are, in this order, a part `P` for the settings, a part `U` of
unbind calls, a part `S` of search-engine registrations and search bindings, a part `N` of
normal-mode bindings of the domain map and a part `V` of visual-mode bindings: each part is
the start of what its section makes (all of it when `main` returns normally), the unbind
calls being the normal-mode unmaps, the visual-mode unmaps and the search-alias removals in
declared order; every call of `U` is an unbind call, and no call of `S`, `N` or `V` is. -/
theorem main_call_order {σ : Type} (H : Host σ) (categories : Categories) (conf : Conf)
    (w : World σ) :
    ∃ P U S N V : List HostCall,
      (main H categories conf w).2.calls = w.calls ++ (P ++ (U ++ (S ++ (N ++ V)))) ∧
      P <+: settingsCalls conf ∧ U <+: unbindCalls conf ∧ S <+: searchCalls conf ∧
      N <+: mapsCalls categories conf ∧ V <+: vmapsCalls categories conf ∧
      (∀ c ∈ P, c.isUnbind = false ∧ c.isRegistration = false) ∧
      (∀ c ∈ U, c.isUnbind = true ∧ c.isRegistration = false) ∧
      (∀ c ∈ S, c.isRegistration = true ∧ c.isUnbind = false) ∧
      (∀ c ∈ N, c.isNormalBind = true ∧ c.isRegistration = true ∧ c.isUnbind = false) ∧
      (∀ c ∈ V, c.isVisualBind = true ∧ c.isRegistration = true ∧ c.isUnbind = false) ∧
      ((main H categories conf w).1 = .normal →
        P = settingsCalls conf ∧ U = unbindCalls conf ∧ S = searchCalls conf ∧
        N = mapsCalls categories conf ∧ V = vmapsCalls categories conf) := by
  obtain ⟨new, hc, hp, hfull⟩ := emits_main H categories conf w
  obtain ⟨P, r1, rfl, hP, h1⟩ := prefix_append_split _ _ _ hp
  obtain ⟨U, r2, rfl, hU, h2⟩ := prefix_append_split _ _ _ h1
  obtain ⟨S, r3, rfl, hS, h3⟩ := prefix_append_split _ _ _ h2
  obtain ⟨N, V, rfl, hN, hV⟩ := prefix_append_split _ _ _ h3
  refine ⟨P, U, S, N, V, hc, hP, hU, hS, hN, hV,
    fun c hc => settingsCalls_kind conf c (hP.subset hc),
    fun c hc => unbindCalls_kind conf c (hU.subset hc),
    fun c hc => searchCalls_kind conf c (hS.subset hc),
    fun c hc => mapsCalls_kind categories conf c (hN.subset hc),
    fun c hc => vmapsCalls_kind categories conf c (hV.subset hc), ?_⟩
  intro hn
  have he := hfull hn
  have l1 := hP.length_le
  have l2 := hU.length_le
  have l3 := hS.length_le
  have l4 := hN.length_le
  have l5 := hV.length_le
  have hl := congrArg List.length he
  simp only [List.length_append] at hl
  exact ⟨hP.eq_of_length (by omega), hU.eq_of_length (by omega), hS.eq_of_length (by omega),
    hN.eq_of_length (by omega), hV.eq_of_length (by omega)⟩

/-- Witness of C18: the calls of `main` on a configuration with every section. -/
theorem main_call_order_witness :
    (∃ P U S N V : List HostCall,
      (main Host.quiet Example.categories Example.confFull Example.w0).2.calls
        = Example.w0.calls ++ (P ++ (U ++ (S ++ (N ++ V)))) ∧
      P <+: settingsCalls Example.confFull ∧ U <+: unbindCalls Example.confFull ∧
      S <+: searchCalls Example.confFull ∧
      N <+: mapsCalls Example.categories Example.confFull ∧
      V <+: vmapsCalls Example.categories Example.confFull ∧
      (∀ c ∈ P, c.isUnbind = false ∧ c.isRegistration = false) ∧
      (∀ c ∈ U, c.isUnbind = true ∧ c.isRegistration = false) ∧
      (∀ c ∈ S, c.isRegistration = true ∧ c.isUnbind = false) ∧
      (∀ c ∈ N, c.isNormalBind = true ∧ c.isRegistration = true ∧ c.isUnbind = false) ∧
      (∀ c ∈ V, c.isVisualBind = true ∧ c.isRegistration = true ∧ c.isUnbind = false) ∧
      ((main Host.quiet Example.categories Example.confFull Example.w0).1 = .normal →
        P = settingsCalls Example.confFull ∧ U = unbindCalls Example.confFull ∧
        S = searchCalls Example.confFull ∧
        N = mapsCalls Example.categories Example.confFull ∧
        V = vmapsCalls Example.categories Example.confFull)) ∧
    (main Host.quiet Example.categories Example.confFull Example.w0).2.calls
      = [.unmap "L", .unmap ":", .vunmap "h", .removeSearchAlias "g" "s",
         .addSearchAlias (some "g") (some "Google") (some "https://www.google.com/search?q=") ""
            (some "https://www.google.com/complete/search?client=chrome-omni&q=")
            (some (.user 13)) none
            { favicon_url := some "https://www.google.com/favicon.ico", skipMaps := true },
         .mapkey "og" "#8Search Google" (some (.searchPrompt (some "g"))) none,
         .mapkey "cog" "#8Search Google with clipboard contents"
            (some (.searchPromptClipboard (some "g"))) none,
         .mapkey "ra" "#misc " (some (.user 0))
            (some ⟨some ⟨"^http(s)?://(([a-zA-Z0-9-_]+\\.)*)(github\\.com)(/.*)?"⟩⟩),
         .vmap (some "<ArrowRight>") "l"] :=
  ⟨main_call_order Host.quiet Example.categories Example.confFull Example.w0, by decide⟩

/-! ## Absent sections -/

theorem mainSettings_normal {σ : Type} (H : Host σ) (hq : ∀ s c, (H.call s c).2 = none)
    (conf : Conf) (w : World σ) : (mainSettings H conf w).1 = .normal := by
  unfold mainSettings
  cases conf.settings with
  | none => rfl
  | some s => exact callHost_normal H hq _ w

theorem mainUnmaps_normal {σ : Type} (H : Host σ) (hq : ∀ s c, (H.call s c).2 = none)
    (conf : Conf) (w : World σ) : (mainUnmaps H conf w).1 = .normal := by
  unfold mainUnmaps
  cases conf.keys.bind fun keys => keys.unmaps with
  | none => rfl
  | some unmaps =>
    simp only
    apply andThen_normal
    · cases unmaps.mappings with
      | none => rfl
      | some ms => exact forEach_normal _ (fun m w1 => callHost_normal H hq _ w1) ms w
    · intro w2
      apply andThen_normal
      · cases unmaps.vmappings with
        | none => rfl
        | some ms => exact forEach_normal _ (fun m w1 => callHost_normal H hq _ w1) ms w2
      · intro w3
        cases unmaps.searchAliases with
        | none => rfl
        | some sa =>
          simp only
          exact forEach_normal _
            (fun (e : String × List String) w4 =>
              forEach_normal _ (fun v w5 => callHost_normal H hq _ w5) e.2 w4) _ w3

theorem mainSearchEngines_normal {σ : Type} (H : Host σ) (hq : ∀ s c, (H.call s c).2 = none)
    (conf : Conf) (w : World σ) : (mainSearchEngines H conf w).1 = .normal := by
  unfold mainSearchEngines
  cases conf.searchEngines with
  | none => rfl
  | some se => exact registerSearchEngines_normal H hq se _ w

theorem mainMaps_normal {σ : Type} (H : Host σ) (categories : Categories) (conf : Conf)
    (w : World σ)
    (hmaps : ∀ keys maps, conf.keys = some keys → keys.maps = some maps →
      (registerKeys Host.quiet categories maps (keys.aliases.getD []) conf.siteleader "n"
        { host := (), calls := [], console := [] }).1 = .normal) :
    (mainMaps H categories conf w).1 = .normal := by
  unfold mainMaps
  cases hk : conf.keys with
  | none => rfl
  | some keys =>
    simp only
    cases hm : keys.maps with
    | none => rfl
    | some maps =>
      simp only
      rw [(registerKeys_calls_from_empty H categories maps _ _ _ w).1]
      exact hmaps keys maps hk hm

theorem mainVmaps_normal {σ : Type} (H : Host σ) (categories : Categories) (conf : Conf)
    (w : World σ)
    (hvmaps : ∀ keys vmaps, conf.keys = some keys → keys.vmaps = some vmaps →
      (registerKeys Host.quiet categories vmaps (keys.aliases.getD []) conf.siteleader "v"
        { host := (), calls := [], console := [] }).1 = .normal) :
    (mainVmaps H categories conf w).1 = .normal := by
  unfold mainVmaps
  cases hk : conf.keys with
  | none => rfl
  | some keys =>
    simp only
    cases hm : keys.vmaps with
    | none => rfl
    | some vmaps =>
      simp only
      rw [(registerKeys_calls_from_empty H categories vmaps _ _ _ w).1]
      exact hvmaps keys vmaps hk hm

theorem unbindCalls_of_absent (conf : Conf) (h : (conf.keys.bind fun keys => keys.unmaps) = none) :
    unbindCalls conf = [] := by
  unfold unbindCalls
  rw [h]

theorem searchCalls_of_absent (conf : Conf) (h : conf.searchEngines = none) :
    searchCalls conf = [] := by
  unfold searchCalls
  rw [h]

theorem mapsCalls_of_absent (categories : Categories) (conf : Conf)
    (h : (conf.keys.bind fun keys => keys.maps) = none) : mapsCalls categories conf = [] := by
  unfold mapsCalls mainMaps
  cases hk : conf.keys with
  | none => rfl
  | some keys =>
    rw [hk] at h
    simp only [Option.bind] at h
    simp only [h]

theorem vmapsCalls_of_absent (categories : Categories) (conf : Conf)
    (h : (conf.keys.bind fun keys => keys.vmaps) = none) : vmapsCalls categories conf = [] := by
  unfold vmapsCalls mainVmaps
  cases hk : conf.keys with
  | none => rfl
  | some keys =>
    rw [hk] at h
    simp only [Option.bind] at h
    simp only [h]

/-- C19 (as amended): over a host that raises on none of the calls, if the domain maps that
are present compile without a throw, then `main` returns normally and its calls are those of
the settings, the unmaps, the search engines, the normal-mode domain map and the
visual-mode domain map, in this order, each section making what it makes whatever other
sections are there; an absent section (`keys` itself, `unmaps`, `searchEngines`, `maps`,
`vmaps`) makes no call and needs no assumption, and with all of them absent no call but that
for the settings is made. -/
theorem main_skips_absent_sections {σ : Type} (H : Host σ) (categories : Categories)
    (conf : Conf) (w : World σ) (hq : ∀ s c, (H.call s c).2 = none)
    (hmaps : ∀ keys maps, conf.keys = some keys → keys.maps = some maps →
      (registerKeys Host.quiet categories maps (keys.aliases.getD []) conf.siteleader "n"
        { host := (), calls := [], console := [] }).1 = .normal)
    (hvmaps : ∀ keys vmaps, conf.keys = some keys → keys.vmaps = some vmaps →
      (registerKeys Host.quiet categories vmaps (keys.aliases.getD []) conf.siteleader "v"
        { host := (), calls := [], console := [] }).1 = .normal) :
    (main H categories conf w).1 = .normal ∧
    (main H categories conf w).2.calls
      = w.calls ++ (settingsCalls conf ++ (unbindCalls conf ++ (searchCalls conf
        ++ (mapsCalls categories conf ++ vmapsCalls categories conf)))) ∧
    ((conf.keys.bind fun keys => keys.unmaps) = none → unbindCalls conf = []) ∧
    (conf.searchEngines = none → searchCalls conf = []) ∧
    ((conf.keys.bind fun keys => keys.maps) = none → mapsCalls categories conf = []) ∧
    ((conf.keys.bind fun keys => keys.vmaps) = none → vmapsCalls categories conf = []) ∧
    ((conf.keys.bind fun keys => keys.unmaps) = none → conf.searchEngines = none →
      (conf.keys.bind fun keys => keys.maps) = none →
      (conf.keys.bind fun keys => keys.vmaps) = none →
      (main H categories conf w).2.calls = w.calls ++ settingsCalls conf) := by
  have hn : (main H categories conf w).1 = .normal := by
    unfold main
    exact andThen_normal _ _ (mainSettings_normal H hq conf w) fun w1 =>
      andThen_normal _ _ (mainUnmaps_normal H hq conf w1) fun w2 =>
      andThen_normal _ _ (mainSearchEngines_normal H hq conf w2) fun w3 =>
      andThen_normal _ _ (mainMaps_normal H categories conf w3 hmaps) fun w4 =>
      mainVmaps_normal H categories conf w4 hvmaps
  obtain ⟨new, hc, _, hfull⟩ := emits_main H categories conf w
  have he := hfull hn
  subst he
  refine ⟨hn, hc, unbindCalls_of_absent conf, searchCalls_of_absent conf,
    mapsCalls_of_absent categories conf, vmapsCalls_of_absent categories conf, ?_⟩
  intro h1 h2 h3 h4
  rw [hc, unbindCalls_of_absent conf h1, searchCalls_of_absent conf h2,
    mapsCalls_of_absent categories conf h3, vmapsCalls_of_absent categories conf h4]
  simp

/-- Witness of C19: a configuration with search engines only, the object `keys` being
absent. -/
theorem main_skips_absent_sections_witness :
    (main Host.quiet Example.categories Example.confSearchOnly Example.w0).1 = .normal ∧
    (main Host.quiet Example.categories Example.confSearchOnly Example.w0).2.calls
      = Example.w0.calls ++ (settingsCalls Example.confSearchOnly
        ++ (unbindCalls Example.confSearchOnly ++ (searchCalls Example.confSearchOnly
        ++ (mapsCalls Example.categories Example.confSearchOnly
          ++ vmapsCalls Example.categories Example.confSearchOnly)))) ∧
    ((Example.confSearchOnly.keys.bind fun keys => keys.unmaps) = none →
      unbindCalls Example.confSearchOnly = []) ∧
    (Example.confSearchOnly.searchEngines = none → searchCalls Example.confSearchOnly = []) ∧
    ((Example.confSearchOnly.keys.bind fun keys => keys.maps) = none →
      mapsCalls Example.categories Example.confSearchOnly = []) ∧
    ((Example.confSearchOnly.keys.bind fun keys => keys.vmaps) = none →
      vmapsCalls Example.categories Example.confSearchOnly = []) ∧
    ((Example.confSearchOnly.keys.bind fun keys => keys.unmaps) = none →
      Example.confSearchOnly.searchEngines = none →
      (Example.confSearchOnly.keys.bind fun keys => keys.maps) = none →
      (Example.confSearchOnly.keys.bind fun keys => keys.vmaps) = none →
      (main Host.quiet Example.categories Example.confSearchOnly Example.w0).2.calls
        = Example.w0.calls ++ settingsCalls Example.confSearchOnly) :=
  main_skips_absent_sections Host.quiet Example.categories Example.confSearchOnly Example.w0
    (fun _ _ => rfl) (fun _ _ hk _ => nomatch hk) (fun _ _ hk _ => nomatch hk)

/-- C19, counterexample: with `unmaps`, `searchEngines` and `vmaps` absent and a normal-mode
domain map in which a declaration has the path `(`, `main` throws a SyntaxError; with
`unmaps`, `searchEngines` and `maps` absent, and `vmaps` and an alias group present, `main`
throws a TypeError after the call for the visual-mode remap. -/
theorem main_raises_counterexample :
    main Host.quiet Example.categories Example.confBadPath Example.w0
      = (.throw .syntaxError, Example.w0) ∧
    main Host.quiet Example.categories Example.confVmapsAliases Example.w0
      = (.throw .typeError,
          { host := (), calls := [.vmap (some "<ArrowRight>") "l"], console := [] }) := by
  decide

/-! ## The hydrated map without alias groups -/

theorem JSObject.set_of_not_mem {α : Type} (o : JSObject α) (k : String) (v : α)
    (h : k ∉ o.map Prod.fst) : o.set k v = o ++ [(k, v)] := by
  induction o with
  | nil => rfl
  | cons p rest ih =>
    rw [List.map_cons, List.mem_cons, not_or] at h
    have hp : ¬ p.1 = k := fun e => h.1 e.symm
    simp only [JSObject.set, if_neg hp, ih h.2, List.cons_append]

theorem JSObject.foldl_set_fresh {α : Type} (l : List (String × α)) (t : JSObject α)
    (h : ((t ++ l).map Prod.fst).Nodup) : l.foldl (fun t1 p => t1.set p.1 p.2) t = t ++ l := by
  induction l generalizing t with
  | nil => simp
  | cons p l ih =>
    have hp : p.1 ∉ t.map Prod.fst := by
      intro hm
      rw [List.map_append, List.map_cons] at h
      have := (List.nodup_append.mp h).2.2
      exact this hm (List.mem_cons_self _ _)
    rw [List.foldl_cons, JSObject.set_of_not_mem t p.1 p.2 hp]
    have e : t ++ [(p.1, p.2)] ++ l = t ++ p :: l := by simp
    rw [ih _ (by rw [e]; exact h), e]

theorem Object.entries_nodup {α : Type} (o : JSObject α) (h : (o.map Prod.fst).Nodup) :
    ((Object.entries o).map Prod.fst).Nodup :=
  (((Object.entries_perm o).map Prod.fst).nodup_iff).mpr h

/-- Without alias groups the entries of the hydrated map are the entries of the domain map
in another order. -/
theorem mapsAndAliases_nil_perm (maps : JSObject (List Mapping))
    (hnd : (maps.map Prod.fst).Nodup) :
    (Object.entries (mapsAndAliases maps [])).Perm (maps.map fun p => (p.1, some p.2)) := by
  have h0 : Object.entries ([] : JSObject (List String)) = [] := rfl
  have hk : ((maps.map fun p => (p.1, some p.2)).map Prod.fst).Nodup := by
    rw [List.map_map]
    exact hnd
  have h : mapsAndAliases maps [] = Object.entries (maps.map fun p => (p.1, some p.2)) := by
    simp only [mapsAndAliases, hydratedAliases, Object.assign, h0, List.flatMap_nil,
      List.foldl_cons, List.foldl_nil]
    rw [JSObject.foldl_set_fresh _ [] (by simpa using Object.entries_nodup _ hk)]
    rfl
  rw [h]
  exact (Object.entries_perm _).trans (Object.entries_perm _)

/-! ## Sequential application -/

theorem emits_registerKey {σ : Type} (H : Host σ) (categories : Categories) (domain : String)
    (mapObj : Mapping) (siteleader : Option String) (mode : String) (w : World σ) :
    Emits (registerKey H categories domain mapObj siteleader mode w) w
      (registerKey Host.quiet categories domain mapObj siteleader mode
        { host := (), calls := [], console := [] }).2.calls := by
  rcases hb : buildOpts domain mapObj with e | opts
  · rw [registerKey_of_error H _ _ _ _ _ _ e hb,
      registerKey_of_error Host.quiet _ _ _ _ _ _ e hb]
    exact ⟨[], by simp, List.prefix_refl _, fun _ => rfl⟩
  · rw [registerKey_of_ok H _ _ _ _ _ _ opts hb,
      registerKey_of_ok Host.quiet _ _ _ _ _ _ opts hb]
    exact ⟨[_], tryBind_calls _ _ _ _ _, by rw [tryBind_calls]; exact List.prefix_refl _,
      fun _ => by rw [tryBind_calls]; rfl⟩

theorem emits_registerKeys_entries {σ : Type} (H : Host σ) (categories : Categories)
    (maps : JSObject (List Mapping)) (aliases : JSObject (List String))
    (siteleader : Option String) (mode : String) (w : World σ) :
    Emits (registerKeys H categories maps aliases siteleader mode w) w
      ((Object.entries (mapsAndAliases maps aliases)).flatMap fun e =>
        (e.2.getD []).flatMap fun m =>
          (registerKey Host.quiet categories e.1 m siteleader mode
            { host := (), calls := [], console := [] }).2.calls) := by
  unfold registerKeys
  apply emits_forEach
  intro e w1
  cases e.2 with
  | none => exact ⟨[], by simp, List.prefix_refl _, fun h => by cases h⟩
  | some l =>
    exact emits_forEach _ _ (fun m w2 => emits_registerKey H categories e.1 m siteleader mode w2)
      l w1

theorem forEach_normal_inv {σ α : Type} (body : α → World σ → Completion × World σ)
    (xs : List α) (w : World σ) (h : (forEach body xs w).1 = .normal) :
    ∀ x ∈ xs, ∃ w1, (body x w1).1 = .normal := by
  induction xs generalizing w with
  | nil => intro x hx; cases hx
  | cons y ys ih =>
    intro x hx
    simp only [forEach] at h
    rcases hb : body y w with ⟨c, w1⟩
    rw [hb] at h
    cases c with
    | throw e => cases h
    | normal =>
      rcases List.mem_cons.mp hx with rfl | hx1
      · exact ⟨w, by rw [hb]⟩
      · exact ih w1 h x hx1

theorem registerKeys_normal_inv {σ : Type} (H : Host σ) (categories : Categories)
    (maps : JSObject (List Mapping)) (aliases : JSObject (List String))
    (siteleader : Option String) (mode : String) (w : World σ)
    (h : (registerKeys H categories maps aliases siteleader mode w).1 = .normal) :
    ∀ e ∈ Object.entries (mapsAndAliases maps aliases), ∀ l, e.2 = some l → ∀ m ∈ l,
      ((registerKey Host.quiet categories e.1 m siteleader mode
        { host := (), calls := [], console := [] }).2.calls).length = 1 := by
  intro e he l hl m hm
  unfold registerKeys at h
  obtain ⟨w1, h1⟩ := forEach_normal_inv _ _ w h e he
  rw [hl] at h1
  simp only at h1
  obtain ⟨w2, h2⟩ := forEach_normal_inv _ _ w1 h1 m hm
  obtain ⟨opts, ho⟩ := (registerKey_normal_iff H categories e.1 m siteleader mode w2).mp h2
  rw [registerKey_of_ok Host.quiet _ _ _ _ _ _ opts ho, tryBind_calls]
  rfl

/-- C20: for a domain map (an object, its keys distinct) without alias groups, when
`registerKeys` returns normally, it has made, domain after domain in some order of the
domains, for each declaration of the list of the domain in declared order the one call
`registerKey` makes for it; the number of calls is the sum of the lengths of the lists. -/
theorem registerKeys_sequential {σ : Type} (H : Host σ) (categories : Categories)
    (maps : JSObject (List Mapping)) (siteleader : Option String) (mode : String)
    (w : World σ) (hnd : (maps.map Prod.fst).Nodup)
    (hnorm : (registerKeys H categories maps [] siteleader mode w).1 = .normal) :
    ∃ order : List (String × List Mapping), order.Perm maps ∧
      (registerKeys H categories maps [] siteleader mode w).2.calls
        = w.calls ++ order.flatMap (fun e => e.2.flatMap fun m =>
            (registerKey Host.quiet categories e.1 m siteleader mode
              { host := (), calls := [], console := [] }).2.calls) ∧
      (∀ e ∈ order, ∀ m ∈ e.2,
        ((registerKey Host.quiet categories e.1 m siteleader mode
          { host := (), calls := [], console := [] }).2.calls).length = 1) ∧
      (registerKeys H categories maps [] siteleader mode w).2.calls.length
        = w.calls.length + (maps.map fun e => e.2.length).sum := by
  have hperm := mapsAndAliases_nil_perm maps hnd
  obtain ⟨new, hc, _, hfull⟩ := emits_registerKeys_entries H categories maps [] siteleader mode w
  have he := hfull hnorm
  subst he
  have hinv := registerKeys_normal_inv H categories maps [] siteleader mode w hnorm
  generalize Object.entries (mapsAndAliases maps []) = E at hperm hc hinv
  -- the entries, with their lists
  have hsome : ∀ e ∈ E, ∃ l, e.2 = some l := by
    intro e he
    obtain ⟨p, _, rfl⟩ := List.mem_map.mp (hperm.subset he)
    exact ⟨p.2, rfl⟩
  have hE : (E.filterMap fun e => e.2.map fun l => (e.1, l)).map (fun p => (p.1, some p.2)) = E := by
    clear hperm hc hinv
    induction E with
    | nil => rfl
    | cons e E ih =>
      obtain ⟨l, hl⟩ := hsome e (List.mem_cons_self _ _)
      have ih1 := ih (fun x hx => hsome x (List.mem_cons_of_mem _ hx))
      rcases e with ⟨d, v⟩
      simp only at hl
      subst hl
      simp [List.filterMap_cons, ih1]
  have hord : (E.filterMap fun e => e.2.map fun l => (e.1, l)).Perm maps := by
    have := hperm.filterMap fun e => e.2.map fun l => (e.1, l)
    rw [List.filterMap_map] at this
    have hid : (maps.filterMap ((fun (e : String × Option (List Mapping)) =>
        e.2.map fun l => (e.1, l)) ∘ fun p => (p.1, some p.2))) = maps := by
      clear * -
      induction maps with
      | nil => rfl
      | cons p rest ih => simp [List.filterMap_cons, ih]
    rw [hid] at this
    exact this
  refine ⟨E.filterMap fun e => e.2.map fun l => (e.1, l), hord, ?_, ?_, ?_⟩
  · rw [hc]
    congr 1
    conv_lhs => rw [← hE]
    rw [List.flatMap_map]
    rfl
  · intro e he m hm
    have : (e.1, some e.2) ∈ E := by
      rw [← hE]
      exact List.mem_map.mpr ⟨e, he, rfl⟩
    exact hinv (e.1, some e.2) this e.2 rfl m hm
  · rw [hc, List.length_append]
    congr 1
    have h1 : ∀ e ∈ E, ((e.2.getD []).flatMap fun m =>
        (registerKey Host.quiet categories e.1 m siteleader mode
          { host := (), calls := [], console := [] }).2.calls).length = (e.2.getD []).length := by
      intro e he
      obtain ⟨l, hl⟩ := hsome e he
      have hall := hinv e he l hl
      rw [hl]
      simp only [Option.getD_some]
      clear hl
      induction l with
      | nil => rfl
      | cons m l ih =>
        rw [List.flatMap_cons, List.length_append, hall m (List.mem_cons_self _ _),
          ih (fun x hx => hall x (List.mem_cons_of_mem _ hx)), List.length_cons]
        omega
    rw [List.length_flatMap]
    have h2 : (E.map (List.length ∘ fun e => (e.2.getD []).flatMap fun m =>
        (registerKey Host.quiet categories e.1 m siteleader mode
          { host := (), calls := [], console := [] }).2.calls))
        = E.map fun e => (e.2.getD []).length :=
      List.map_congr_left fun e he => h1 e he
    rw [h2]
    have h3 : (E.map fun e => (e.2.getD []).length).Perm
        ((maps.map fun p => (p.1, some p.2)).map fun e => (e.2.getD []).length) :=
      hperm.map _
    rw [h3.sum_eq, List.map_map]
    rfl

/-- Witness of C20: a domain map with the domains `github.com` and `"global"`. -/
theorem registerKeys_sequential_witness :
    (∃ order : List (String × List Mapping), order.Perm Example.mapsTwoDomains ∧
      (registerKeys Host.quiet Example.categories Example.mapsTwoDomains [] (some "r") "n"
          Example.w0).2.calls
        = Example.w0.calls ++ order.flatMap (fun e => e.2.flatMap fun m =>
            (registerKey Host.quiet Example.categories e.1 m (some "r") "n"
              { host := (), calls := [], console := [] }).2.calls) ∧
      (∀ e ∈ order, ∀ m ∈ e.2,
        ((registerKey Host.quiet Example.categories e.1 m (some "r") "n"
          { host := (), calls := [], console := [] }).2.calls).length = 1) ∧
      (registerKeys Host.quiet Example.categories Example.mapsTwoDomains [] (some "r") "n"
          Example.w0).2.calls.length
        = Example.w0.calls.length + (Example.mapsTwoDomains.map fun e => e.2.length).sum) ∧
    (registerKeys Host.quiet Example.categories Example.mapsTwoDomains [] (some "r") "n"
        Example.w0).2.calls
      = [.mapkey "ra" "#misc " (some (.user 0))
            (some ⟨some ⟨"^http(s)?://(([a-zA-Z0-9-_]+\\.)*)(github\\.com)(/.*)?"⟩⟩),
         .map (some "a") "b",
         .mapkey "x" "#misc " (some (.user 14)) (some ⟨none⟩)] :=
  ⟨registerKeys_sequential Host.quiet Example.categories Example.mapsTwoDomains (some "r") "n"
    Example.w0 (by decide) (by decide), by decide⟩

/-! ## The shipped alias groups and a domain map for `"global"` only -/

theorem Object.entries_of_no_index {α : Type} (o : JSObject α)
    (h : ∀ p ∈ o, arrayIndex? p.1 = none) : Object.entries o = o := by
  unfold Object.entries
  have h1 : (o.filterMap fun p => (arrayIndex? p.1).map fun i => (i, p)) = [] := by
    rw [List.filterMap_eq_nil_iff]
    intro p hp
    rw [h p hp]
    rfl
  have h2 : (o.filter fun p => (arrayIndex? p.1).isNone) = o := by
    rw [List.filter_eq_self]
    intro p hp
    rw [h p hp]
    rfl
  rw [h1, h2]
  rfl

theorem arrayIndex_shipped :
    ∀ k ∈ ["global", "wiktionary.org", "wikiquote.org", "wikisource.org", "wikimedia.org",
      "mediawiki.org", "wikivoyage.org", "wikibooks.org", "wikinews.org", "wikiversity.org",
      "wikidata.org", "wiki.archlinux.org", "stackexchange.com", "serverfault.com",
      "superuser.com", "askubuntu.com", "stackapps.com", "mathoverflow.net"],
      arrayIndex? k = none := by
  decide

theorem entries_aliasesShipped :
    Object.entries Example.aliasesShipped = Example.aliasesShipped := by
  decide

/-- The hydrated map of the shipped alias groups over a domain map whose only key is
`"global"`: the list of `"global"`, then every alias domain with an undefined list. -/
theorem entries_shipped (v : List Mapping) :
    Object.entries (mapsAndAliases [("global", v)] Example.aliasesShipped)
      = ("global", some v) ::
        (["wiktionary.org", "wikiquote.org", "wikisource.org", "wikimedia.org", "mediawiki.org",
          "wikivoyage.org", "wikibooks.org", "wikinews.org", "wikiversity.org", "wikidata.org",
          "wiki.archlinux.org", "stackexchange.com", "serverfault.com", "superuser.com",
          "askubuntu.com", "stackapps.com", "mathoverflow.net"].map fun a => (a, none)) := by
  have hm : mapsAndAliases [("global", v)] Example.aliasesShipped
      = ("global", some v) ::
        (["wiktionary.org", "wikiquote.org", "wikisource.org", "wikimedia.org", "mediawiki.org",
          "wikivoyage.org", "wikibooks.org", "wikinews.org", "wikiversity.org", "wikidata.org",
          "wiki.archlinux.org", "stackexchange.com", "serverfault.com", "superuser.com",
          "askubuntu.com", "stackapps.com", "mathoverflow.net"].map fun a => (a, none)) := by
    unfold mapsAndAliases hydratedAliases
    rw [entries_aliasesShipped]
    simp [Example.aliasesShipped, Object.assign, Object.entries_singleton, JSObject.set,
      JSObject.get]
  rw [hm]
  apply Object.entries_of_no_index
  intro p hp
  apply arrayIndex_shipped
  simp only [List.map_cons, List.map_nil, List.mem_cons] at hp ⊢
  rcases hp with rfl | rfl | rfl | rfl | rfl | rfl | rfl | rfl | rfl | rfl | rfl | rfl | rfl | rfl |
    rfl | rfl | rfl | rfl | hp
  all_goals simp at *

/-! ## An alias group whose base domain has no list -/

theorem forEach_append {σ α : Type} (body : α → World σ → Completion × World σ)
    (xs ys : List α) (w : World σ) :
    forEach body (xs ++ ys) w = andThen (forEach body xs w) (forEach body ys) := by
  induction xs generalizing w with
  | nil => rfl
  | cons x xs ih =>
    rw [List.cons_append]
    simp only [forEach]
    rcases body x w with ⟨c, w1⟩
    cases c with
    | normal => exact ih w1
    | throw e => rfl

theorem registerKeys_eq_forEach {σ : Type} (H : Host σ) (categories : Categories)
    (maps : JSObject (List Mapping)) (aliases : JSObject (List String))
    (siteleader : Option String) (mode : String) (w : World σ) :
    registerKeys H categories maps aliases siteleader mode w
      = forEach (registerDomain H categories siteleader mode)
          (Object.entries (mapsAndAliases maps aliases)) w :=
  rfl

/-- The loop over the domains stops with a TypeError at an entry without a list: the
entries after it are not visited. -/
theorem forEach_registerDomain_undefined {σ : Type} (H : Host σ) (categories : Categories)
    (siteleader : Option String) (mode : String) (E1 E2 : List (String × Option (List Mapping)))
    (k : String) (w : World σ) :
    forEach (registerDomain H categories siteleader mode) (E1 ++ (k, none) :: E2) w
      = andThen (forEach (registerDomain H categories siteleader mode) E1 w)
          (fun w1 => (.throw .typeError, w1)) := by
  rw [forEach_append]
  rfl

theorem andThen_throw {σ : Type} (r : Completion × World σ) (e : JSError) :
    ∃ e1, (andThen r (fun w1 => (.throw e, w1))).1 = .throw e1 := by
  rcases r with ⟨c, w1⟩
  cases c with
  | normal => exact ⟨e, rfl⟩
  | throw e0 => exact ⟨e0, rfl⟩

/-- The visual-mode pass over the shipped `vmaps` and alias groups, on any host: the four
remaps of `vmaps.global`, then a TypeError. -/
theorem registerKeys_shipped_vmaps {σ : Type} (H : Host σ) (categories : Categories)
    (visualMode siteleader : Option String) (w : World σ) :
    (registerKeys H categories (Example.vmapsShipped visualMode) Example.aliasesShipped
        siteleader "v" w).1 = .throw .typeError ∧
    (registerKeys H categories (Example.vmapsShipped visualMode) Example.aliasesShipped
        siteleader "v" w).2.calls = w.calls ++ Example.vmapsGlobalCalls := by
  have hq : registerKeys Host.quiet categories (Example.vmapsShipped visualMode)
      Example.aliasesShipped siteleader "v" { host := (), calls := [], console := [] }
      = (.throw .typeError,
          { host := (), calls := Example.vmapsGlobalCalls, console := [] }) := by
    unfold registerKeys Example.vmapsShipped
    rw [entries_shipped]
    simp only [List.map_cons, forEach, Example.vmapsGlobal,
      registerKey_of_ok Host.quiet _ _ _ _ _ _ _ (buildOpts_global _)]
    simp [tryBind, Host.quiet, bindCall, Example.vmapsGlobalCalls]
  have h := registerKeys_calls_from_empty H categories (Example.vmapsShipped visualMode)
    Example.aliasesShipped siteleader "v" w
  rw [hq] at h
  exact h

theorem andThen_throws {σ : Type} (r : Completion × World σ)
    (k : World σ → Completion × World σ) (hk : ∀ w, ∃ e, (k w).1 = .throw e) :
    ∃ e, (andThen r k).1 = .throw e := by
  rcases r with ⟨c, w1⟩
  cases c with
  | normal => exact hk w1
  | throw e0 => exact ⟨e0, rfl⟩

/-- C21, counterexample: the alias group of `wikipedia.org` lists `wiktionary.org` and
`wikipedia.org` has no list in the domain map, but a later alias group lists
`wiktionary.org` again under `stackoverflow.com`, which has a list: hydration leaves
`wiktionary.org` with that list, and `registerKeys` returns normally after the two calls. -/
theorem registerKeys_relisted_alias_counterexample :
    ("wikipedia.org", ["wiktionary.org"]) ∈ Object.entries Example.aliasesRelisted ∧
    Example.mapsStack.get "wikipedia.org" = none ∧
    (mapsAndAliases Example.mapsStack Example.aliasesRelisted).get "wiktionary.org"
      = some (some [Example.callbackA]) ∧
    registerKeys Host.quiet Example.categories Example.mapsStack Example.aliasesRelisted
        (some "r") "n" Example.w0
      = (.normal,
          { host := (),
            calls :=
              [.mapkey "ra" "#misc " (some (.user 0))
                 (some ⟨some ⟨"^http(s)?://(([a-zA-Z0-9-_]+\\.)*)(stackoverflow\\.com)(/.*)?"⟩⟩),
               .mapkey "ra" "#misc " (some (.user 0))
                 (some ⟨some ⟨"^http(s)?://(([a-zA-Z0-9-_]+\\.)*)(wiktionary\\.org)(/.*)?"⟩⟩)],
            console := [] }) := by
  decide

/-- C21 (as amended): if an alias group names a base domain that has no list in the domain map
passed to `registerKeys`, and lists an alias domain that no alias group later in iteration
order lists again, then hydration leaves that alias domain with an undefined list, and
`registerKeys` raises, whatever the host: the run is the loop over the entries before that
alias domain followed by a TypeError (unless an earlier entry raised already), so that the
entries after it are never processed, and the error leaves `registerKeys`. For the shipped
`vmaps` (only key `"global"`) and the shipped alias groups of `wikipedia.org` and
`stackoverflow.com`, the visual-mode pass of `main` makes the four calls of the remaps of
`vmaps.global` and then raises a TypeError, and `main` does not complete normally. -/
theorem registerKeys_undefined_alias_list {σ : Type} (H : Host σ) (categories : Categories)
    (maps : JSObject (List Mapping)) (aliases : JSObject (List String))
    (siteleader : Option String) (mode : String) (w : World σ)
    (pre post : List (String × List String)) (B Ai : String) (g : List String)
    (hent : Object.entries aliases = pre ++ (B, g) :: post) (hmem : Ai ∈ g)
    (hlast : ∀ q ∈ post, Ai ∉ q.2) (hB : maps.get B = none) :
    (mapsAndAliases maps aliases).get Ai = some none ∧
    (∃ e, (registerKeys H categories maps aliases siteleader mode w).1 = .throw e) ∧
    (∃ E1 E2, Object.entries (mapsAndAliases maps aliases) = E1 ++ (Ai, none) :: E2 ∧
      registerKeys H categories maps aliases siteleader mode w
        = andThen (forEach (registerDomain H categories siteleader mode) E1 w)
            (fun w1 => (.throw .typeError, w1))) ∧
    (∀ (visualMode : Option String) (conf : Conf) (keys : Keys) (w1 : World σ),
      (mainVmaps H categories
          { conf with keys := some { keys with
              vmaps := some (Example.vmapsShipped visualMode),
              aliases := some Example.aliasesShipped } } w1).1 = .throw .typeError ∧
      (mainVmaps H categories
          { conf with keys := some { keys with
              vmaps := some (Example.vmapsShipped visualMode),
              aliases := some Example.aliasesShipped } } w1).2.calls
        = w1.calls ++ Example.vmapsGlobalCalls ∧
      ∃ e, (main H categories
          { conf with keys := some { keys with
              vmaps := some (Example.vmapsShipped visualMode),
              aliases := some Example.aliasesShipped } } w1).1 = .throw e) := by
  have hget : (mapsAndAliases maps aliases).get Ai = some none := by
    rw [mapsAndAliases_get_of_alias maps aliases pre post B Ai g hent hmem hlast, hB]
  have hmemE := (mapsAndAliases_entries_of_get maps aliases Ai none hget).1
  obtain ⟨E1, E2, hE⟩ := List.append_of_mem hmemE
  have hrun : registerKeys H categories maps aliases siteleader mode w
      = andThen (forEach (registerDomain H categories siteleader mode) E1 w)
          (fun w1 => (.throw .typeError, w1)) := by
    rw [registerKeys_eq_forEach, hE, forEach_registerDomain_undefined]
  refine ⟨hget, ?_, ⟨E1, E2, hE, hrun⟩, ?_⟩
  · rw [hrun]
    exact andThen_throw _ _
  · intro visualMode conf keys w1
    have hv : ∀ w2 : World σ,
        mainVmaps H categories
          { conf with keys := some { keys with
              vmaps := some (Example.vmapsShipped visualMode),
              aliases := some Example.aliasesShipped } } w2
        = registerKeys H categories (Example.vmapsShipped visualMode) Example.aliasesShipped
            conf.siteleader "v" w2 := fun _ => rfl
    refine ⟨?_, ?_, ?_⟩
    · rw [hv]
      exact (registerKeys_shipped_vmaps H categories visualMode conf.siteleader w1).1
    · rw [hv]
      exact (registerKeys_shipped_vmaps H categories visualMode conf.siteleader w1).2
    · unfold main
      refine andThen_throws _ _ fun w2 => andThen_throws _ _ fun w3 =>
        andThen_throws _ _ fun w4 => andThen_throws _ _ fun w5 => ?_
      rw [hv]
      exact ⟨_, (registerKeys_shipped_vmaps H categories visualMode conf.siteleader w5).1⟩

/-- Witness of C21: the shipped `vmaps` and alias groups; `wiktionary.org` is an alias of
`wikipedia.org`, which has no list in `vmaps`. -/
theorem registerKeys_undefined_alias_list_witness :
    (mapsAndAliases (Example.vmapsShipped (some "visualMode")) Example.aliasesShipped).get
        "wiktionary.org" = some none ∧
    ∃ e, (registerKeys Host.quiet Example.categories (Example.vmapsShipped (some "visualMode"))
        Example.aliasesShipped (some "r") "v" Example.w0).1 = .throw e :=
  have h := registerKeys_undefined_alias_list Host.quiet Example.categories
    (Example.vmapsShipped (some "visualMode")) Example.aliasesShipped (some "r") "v" Example.w0
    [] [("stackoverflow.com",
      ["stackexchange.com", "serverfault.com", "superuser.com", "askubuntu.com",
       "stackapps.com", "mathoverflow.net"])]
    "wikipedia.org" "wiktionary.org"
    ["wiktionary.org", "wikiquote.org", "wikisource.org", "wikimedia.org", "mediawiki.org",
     "wikivoyage.org", "wikibooks.org", "wikinews.org", "wikiversity.org", "wikidata.org",
     "wiki.archlinux.org"]
    (by decide) (by decide) (by decide) (by decide)
  ⟨h.1, h.2.1⟩

/-! ## What a match leaves over is an end of the input -/

theorem mem_run_eol (n : Nat) (s t : List Char) : t ∈ Regex.eol.run n s ↔ t = [] ∧ s = [] := by
  cases s with
  | nil => simp [Regex.run]
  | cons x xs => simp [Regex.run]

theorem mem_run_any (n : Nat) (s t : List Char) :
    t ∈ Regex.any.run n s ↔ ∃ x, isLineTerminator x = false ∧ s = x :: t := by
  cases s with
  | nil => simp [Regex.run]
  | cons x xs =>
    simp only [Regex.run]
    cases h : isLineTerminator x with
    | true =>
      simp only [if_true, List.not_mem_nil, List.cons.injEq, false_iff]
      rintro ⟨y, hy, rfl, _⟩
      rw [h] at hy
      cases hy
    | false =>
      simp only [Bool.false_eq_true, if_false, List.mem_singleton, List.cons.injEq]
      constructor
      · rintro rfl
        exact ⟨x, h, rfl, rfl⟩
      · rintro ⟨y, _, _, e⟩
        exact e.symm

theorem mem_run_alt (n : Nat) (a b : Regex) (s t : List Char) :
    t ∈ (Regex.alt a b).run n s ↔ t ∈ a.run n s ∨ t ∈ b.run n s := by
  simp [Regex.run]

theorem reach_suffix (body : List Char → List (List Char))
    (h : ∀ s t, t ∈ body s → t <:+ s) (s t : List Char) (hr : Reach body s t) : t <:+ s := by
  induction hr with
  | refl s => exact List.suffix_refl s
  | @step s0 mid t0 hm _ _ ih => exact ih.trans (h s0 mid hm)

/-- The input a match leaves over is an end of the input the match began at. -/
theorem run_suffix (n : Nat) (r : Regex) : ∀ s t : List Char, t ∈ r.run n s → t <:+ s := by
  induction r with
  | eps =>
    intro s t h
    rw [(mem_run_eps n s t).mp h]
  | char c =>
    intro s t h
    rw [(mem_run_char n c s t).mp h]
    exact List.suffix_cons c t
  | any =>
    intro s t h
    obtain ⟨x, _, rfl⟩ := (mem_run_any n s t).mp h
    exact List.suffix_cons x t
  | cls neg rs =>
    intro s t h
    obtain ⟨x, _, rfl⟩ := (mem_run_cls n neg rs s t).mp h
    exact List.suffix_cons x t
  | bol =>
    intro s t h
    rw [((mem_run_bol n s t).mp h).1]
  | eol =>
    intro s t h
    obtain ⟨rfl, rfl⟩ := (mem_run_eol n s t).mp h
    exact List.suffix_refl _
  | seq a b iha ihb =>
    intro s t h
    obtain ⟨mid, hm, ht⟩ := (mem_run_seq n a b s t).mp h
    exact (ihb mid t ht).trans (iha s mid hm)
  | alt a b iha ihb =>
    intro s t h
    rcases (mem_run_alt n a b s t).mp h with h1 | h1
    · exact iha s t h1
    · exact ihb s t h1
  | group r ih =>
    intro s t h
    exact ih s t ((mem_run_group n r s t).mp h)
  | star g r ih =>
    intro s t h
    exact reach_suffix _ ih s t ((mem_run_star n g r s t).mp h)
  | plus g r ih =>
    intro s t h
    obtain ⟨mid, hm, hr⟩ := (mem_run_plus n g r s t).mp h
    exact (reach_suffix _ ih mid t hr).trans (ih s mid hm)
  | opt g r ih =>
    intro s t h
    rcases (mem_run_opt n g r s t).mp h with rfl | ⟨h1, _⟩
    · exact List.suffix_refl _
    · exact ih s t h1

/-- A match of a pattern holds a match of what is left of the pattern after its first
terms, at an end of the input. -/
theorem afterSeq_run (n k : Nat) (r : Regex) (s t : List Char) (h : t ∈ r.run n s) :
    ∃ mid, mid <:+ s ∧ t ∈ (r.afterSeq k).run n mid := by
  induction k generalizing r s with
  | zero => exact ⟨s, List.suffix_refl s, h⟩
  | succ k ih =>
    cases r with
    | seq a b =>
      obtain ⟨m1, hm1, ht⟩ := (mem_run_seq n a b s t).mp h
      obtain ⟨mid, hmid, hr⟩ := ih b m1 ht
      exact ⟨mid, hmid.trans (run_suffix n a s m1 hm1), hr⟩
    | _ => exact ⟨s, List.suffix_refl s, h⟩

/-- A pattern that ends with a space and `$` matches only in a text that ends with a
space. -/
theorem test_ends_with_space (r : Regex) (k : Nat)
    (hk : r.afterSeq k = .seq (.char ' ') (.seq .eol .eps)) (u : List Char)
    (h : r.test u = true) : u.getLast? = some ' ' := by
  unfold Regex.test at h
  obtain ⟨s1, t, hs1, ht⟩ := (searchFrom_true_iff r _ u).mp h
  obtain ⟨mid, hmid, hr⟩ := afterSeq_run _ k r s1 t ht
  rw [hk] at hr
  simp only [mem_run_seq, mem_run_char, mem_run_eol, mem_run_eps] at hr
  obtain ⟨m1, rfl, m2, ⟨rfl, rfl⟩, _⟩ := hr
  obtain ⟨p, rfl⟩ := hmid.trans hs1
  simp

theorem parse_rescriptPredicate :
    (RegExp.parse Example.rescriptPredicate.source.data).map (Regex.afterSeq 13)
      = .ok (.seq (.char ' ') (.seq .eol .eps)) := by
  decide

/-- C23: the first declaration of `maps["rescript-lang.org"]` ("Focus search field") has the
path `(/docs(/.*)?) ? $`, in which the `?` makes the first space optional and the second
space is a literal before `$`. The predicate `registerKey` builds and submits for it holds
only of texts that end with a space: it holds neither of
`https://rescript-lang.org/docs/manual/latest/introduction` nor of
`https://rescript-lang.org/`, and it does hold of `https://rescript-lang.org/docs` followed
by a space. -/
theorem rescript_focus_search_needs_trailing_space :
    Example.rescriptFocusSearch.path = some "(/docs(/.*)?) ? $" ∧
    buildOpts "rescript-lang.org" Example.rescriptFocusSearch
      = .ok ⟨some Example.rescriptPredicate⟩ ∧
    registerKey Host.quiet Example.categories "rescript-lang.org" Example.rescriptFocusSearch
        (some "r") "n" Example.w0
      = (.normal,
          { host := (),
            calls := [.mapkey "i" "#misc Focus search field" (some (.user 15))
              (some ⟨some Example.rescriptPredicate⟩)],
            console := [] }) ∧
    (∀ u : String, Example.rescriptPredicate.test u = true → u.data.getLast? = some ' ') ∧
    Example.rescriptPredicate.test "https://rescript-lang.org/docs/manual/latest/introduction"
      = false ∧
    Example.rescriptPredicate.test "https://rescript-lang.org/" = false ∧
    Example.rescriptPredicate.test "https://rescript-lang.org/docs " = true := by
  refine ⟨by decide, by decide, by decide, ?_, by decide, by decide, by decide⟩
  intro u hu
  unfold RegExp.test at hu
  have hp := parse_rescriptPredicate
  cases hr : RegExp.parse Example.rescriptPredicate.source.data with
  | error e =>
    rw [hr] at hp
    cases hp
  | ok r =>
    rw [hr] at hp hu
    simp only [Except.map, Except.ok.injEq] at hp
    exact test_ends_with_space r 13 hp u.data hu

/-! ## A declaration without alias -/

theorem tryBind_console_of_accept {σ : Type} (H : Host σ) (a : Option String) (mode : String)
    (c : HostCall) (w : World σ) (h : (H.call w.host c).2 = none) :
    (tryBind H a mode c w).console = w.console := by
  unfold tryBind
  split
  · rfl
  · next h1 => rw [h1] at h; cases h

/-- A list of declarations whose options can all be built: `registerKey` returns normally
for each, and one call is made per declaration. -/
theorem forEach_registerKey_buildable {σ : Type} (H : Host σ) (categories : Categories)
    (domain : String) (siteleader : Option String) (mode : String) (specs : List Mapping)
    (w : World σ) (h : ∀ m ∈ specs, ∃ o, buildOpts domain m = .ok o) :
    (forEach (fun mapObj w2 => registerKey H categories domain mapObj siteleader mode w2)
        specs w).1 = .normal ∧
    (forEach (fun mapObj w2 => registerKey H categories domain mapObj siteleader mode w2)
        specs w).2.calls.length = w.calls.length + specs.length := by
  induction specs generalizing w with
  | nil => exact ⟨rfl, rfl⟩
  | cons m ms ih =>
    obtain ⟨o, ho⟩ := h m (List.mem_cons_self _ _)
    have h1 := ih (tryBind H m.alias_ mode (bindCall categories domain m siteleader mode o) w)
      (fun x hx => h x (List.mem_cons_of_mem _ hx))
    simp only [forEach, registerKey_of_ok H categories domain m siteleader mode w o ho]
    refine ⟨h1.1, ?_⟩
    rw [h1.2, tryBind_calls]
    simp only [List.length_append, List.length_cons, List.length_nil]
    omega

/-- C24, counterexample: on `github.com`, for the callback declaration without alias and
with the path `(`, `registerKey` raises a SyntaxError and submits nothing; and for the list
of the two declarations `{callback: f}` (no alias) and `{alias: "a", path: "(", callback: g}`,
`registerKeys` makes one call, with the key `rundefined`, not two, and raises. -/
theorem registerKey_undefined_alias_counterexample :
    Example.noAliasBadPath.alias_ = none ∧ Example.noAliasBadPath.map = none ∧
    registerKey Host.quiet Example.categories "github.com" Example.noAliasBadPath (some "r") "n"
        Example.w0
      = (.throw .syntaxError, Example.w0) ∧
    Example.noAlias.alias_ = none ∧ Example.noAlias.map = none ∧
    registerKeys Host.quiet Example.categories Example.mapsNoAliasBadPath [] (some "r") "n"
        Example.w0
      = (.throw .syntaxError,
          { host := (),
            calls := [.mapkey "rundefined" "#misc " (some (.user 16))
              (some ⟨some ⟨"^http(s)?://(([a-zA-Z0-9-_]+\\.)*)(github\\.com)(/.*)?"⟩⟩)],
            console := [] }) := by
  decide

/-- C24 (as amended): a callback declaration whose alias is undefined is not rejected by
`registerKey` on account of its alias. Whenever its options can be built (the domain is
`"global"` or the pattern is well-formed), `registerKey` returns normally and submits the
declaration to the host with the key made of the leader and the text `undefined`; nothing
is logged when the host accepts that call. In a list of N declarations that contains it and
in which the options of every declaration can be built, all N host calls are made. -/
theorem registerKey_undefined_alias {σ : Type} (H : Host σ) (categories : Categories)
    (domain : String) (mapObj : Mapping) (siteleader : Option String) (mode : String)
    (w : World σ) (opts : Opts) (ha : mapObj.alias_ = none) (hm : mapObj.map = none)
    (ho : buildOpts domain mapObj = .ok opts) :
    (registerKey H categories domain mapObj siteleader mode w).1 = .normal ∧
    (registerKey H categories domain mapObj siteleader mode w).2.calls
      = w.calls ++
          [if mode = "v" then
            .vmapkey (tpl (resolveLeader domain mapObj siteleader) ++ "undefined")
              ("#" ++ mapObj.category.getD categories.misc ++ " " ++ mapObj.description.getD "")
              mapObj.callback (some opts)
          else
            .mapkey (tpl (resolveLeader domain mapObj siteleader) ++ "undefined")
              ("#" ++ mapObj.category.getD categories.misc ++ " " ++ mapObj.description.getD "")
              mapObj.callback (some opts)] ∧
    ((H.call w.host (bindCall categories domain mapObj siteleader mode opts)).2 = none →
      (registerKey H categories domain mapObj siteleader mode w).2.console = w.console) ∧
    (∀ specs : List Mapping, mapObj ∈ specs →
      (∀ m ∈ specs, ∃ o, buildOpts domain m = .ok o) →
      (registerKeys H categories [(domain, specs)] [] siteleader mode w).1 = .normal ∧
      (registerKeys H categories [(domain, specs)] [] siteleader mode w).2.calls.length
        = w.calls.length + specs.length) := by
  rw [registerKey_of_ok H categories domain mapObj siteleader mode w opts ho]
  refine ⟨rfl, ?_, ?_, ?_⟩
  · rw [tryBind_calls, bindCall_callback categories domain mapObj siteleader mode opts hm, ha]
    rfl
  · intro hacc
    exact tryBind_console_of_accept H _ _ _ _ hacc
  · intro specs _ hall
    rw [registerKeys_single]
    exact forEach_registerKey_buildable H categories domain siteleader mode specs w hall

/-- Witness of C24: the declaration `{callback: f}` on `github.com` with the site leader `r`
is submitted with the key `rundefined`, and nothing is logged. -/
theorem registerKey_undefined_alias_witness :
    (registerKey Host.quiet Example.categories "github.com" Example.noAlias (some "r") "n"
        Example.w0).1 = .normal ∧
    (registerKey Host.quiet Example.categories "github.com" Example.noAlias (some "r") "n"
        Example.w0).2.calls
      = [.mapkey "rundefined" "#misc " (some (.user 16))
          (some ⟨some ⟨"^http(s)?://(([a-zA-Z0-9-_]+\\.)*)(github\\.com)(/.*)?"⟩⟩)] ∧
    (registerKey Host.quiet Example.categories "github.com" Example.noAlias (some "r") "n"
        Example.w0).2.console = [] ∧
    (registerKeys Host.quiet Example.categories
        [("github.com", [Example.callbackA, Example.noAlias, Example.remapAB])] [] (some "r")
        "n" Example.w0).2.calls.length = 3 :=
  have h := registerKey_undefined_alias Host.quiet Example.categories "github.com"
    Example.noAlias (some "r") "n" Example.w0
    ⟨some ⟨"^http(s)?://(([a-zA-Z0-9-_]+\\.)*)(github\\.com)(/.*)?"⟩⟩ rfl rfl (by decide)
  ⟨h.1, h.2.1, h.2.2.1 rfl,
    (h.2.2.2 [Example.callbackA, Example.noAlias, Example.remapAB] (by decide) (by
      intro m hm
      simp only [List.mem_cons, List.mem_singleton, List.not_mem_nil, or_false] at hm
      rcases hm with rfl | rfl | rfl
      · exact ⟨⟨some ⟨"^http(s)?://(([a-zA-Z0-9-_]+\\.)*)(github\\.com)(/.*)?"⟩⟩, by decide⟩
      · exact ⟨⟨some ⟨"^http(s)?://(([a-zA-Z0-9-_]+\\.)*)(github\\.com)(/.*)?"⟩⟩, by decide⟩
      · exact ⟨⟨some ⟨"^http(s)?://(([a-zA-Z0-9-_]+\\.)*)(github\\.com)(/.*)?"⟩⟩,
          by decide⟩)).2⟩

/-! ## The domain pattern of a hostname with any number of dots -/

theorem isHostChar_cases {c : Char} (h : isHostChar c = true) :
    c = '.' ∨ (c ≠ '.' ∧ isLabelChar c = true) := by
  by_cases hc : c = '.'
  · exact Or.inl hc
  · right
    refine ⟨hc, ?_⟩
    simpa [isHostChar, hc] using h

theorem hostText_cons_dot (seen : Bool) (cs : List Char) :
    hostText seen ('.' :: cs) = if seen then '.' :: cs else '\\' :: '.' :: hostText true cs := by
  cases seen <;> simp [hostText, replaceFirst, List.isPrefixOf]

theorem hostText_cons_label (seen : Bool) (c : Char) (cs : List Char) (hc : c ≠ '.') :
    hostText seen (c :: cs) = c :: hostText seen cs := by
  have hc1 : ¬ '.' = c := fun e => hc e.symm
  cases seen <;> simp [hostText, replaceFirst, List.isPrefixOf, hc1]

theorem hostTokens_cons_dot (seen : Bool) (cs : List Char) :
    hostTokens seen ('.' :: cs)
      = (if seen then RegExp.Token.dot else RegExp.Token.lit '.') :: hostTokens true cs := by
  simp [hostTokens]

theorem hostTokens_cons_label (seen : Bool) (c : Char) (cs : List Char) (hc : c ≠ '.') :
    hostTokens seen (c :: cs) = RegExp.Token.lit c :: hostTokens seen cs := by
  simp [hostTokens, hc]

theorem hostAtoms_cons_dot (seen : Bool) (cs : List Char) :
    hostAtoms seen ('.' :: cs)
      = (if seen then Regex.any else Regex.char '.') :: hostAtoms true cs := by
  simp [hostAtoms]

theorem hostAtoms_cons_label (seen : Bool) (c : Char) (cs : List Char) (hc : c ≠ '.') :
    hostAtoms seen (c :: cs) = Regex.char c :: hostAtoms seen cs := by
  simp [hostAtoms, hc]

theorem lexRun_dot : RegExp.lexRun .normal ['.'] = .ok ([.dot], .normal) := by
  decide

/-- The lexer over the text of a hostname in the domain pattern. -/
theorem lexRun_hostText (seen : Bool) (cs : List Char) (h : ∀ c ∈ cs, isHostChar c = true) :
    RegExp.lexRun .normal (hostText seen cs) = .ok (hostTokens seen cs, .normal) := by
  induction cs generalizing seen with
  | nil => cases seen <;> rfl
  | cons c cs ih =>
    have hcs : ∀ d ∈ cs, isHostChar d = true := fun d hd => h d (List.mem_cons_of_mem _ hd)
    rcases isHostChar_cases (h c (List.mem_cons_self _ _)) with rfl | ⟨hc, hl⟩
    · rw [hostText_cons_dot, hostTokens_cons_dot]
      cases seen with
      | true =>
        have h1 := ih true hcs
        have e : hostText true cs = cs := rfl
        rw [e] at h1
        exact RegExp.lexRun_append ['.'] cs _ _ _ _ _ lexRun_dot h1
      | false =>
        exact RegExp.lexRun_append ['\\', '.'] (hostText true cs) _ _ _ _ _ lexRun_escaped_dot
          (ih true hcs)
    · rw [hostText_cons_label seen c cs hc, hostTokens_cons_label seen c cs hc]
      have h1 : RegExp.lexRun .normal [c] = .ok ([.lit c], .normal) := by
        simpa using RegExp.lexRun_labels [c] (fun d hd => by
          rw [List.mem_singleton] at hd
          rw [hd]
          exact hl)
      exact RegExp.lexRun_append [c] (hostText seen cs) _ _ _ _ _ h1 (ih seen hcs)

/-- The parser over the tokens of a hostname. -/
theorem parseTokens_hostTokens (seen : Bool) (cs : List Char) (st : RegExp.PState) :
    RegExp.parseTokens st (hostTokens seen cs)
      = .ok { stack := st.stack,
              cur := { alts := st.cur.alts, terms := (hostAtoms seen cs).reverse ++ st.cur.terms },
              prev := if cs = [] then st.prev else .atom } := by
  induction cs generalizing seen st with
  | nil => rfl
  | cons c cs ih =>
    by_cases hc : c = '.'
    · subst hc
      rw [hostTokens_cons_dot, hostAtoms_cons_dot]
      cases seen <;>
        simp [RegExp.parseTokens, RegExp.parseStep, ih, RegExp.PState.push]
    · rw [hostTokens_cons_label seen c cs hc, hostAtoms_cons_label seen c cs hc]
      simp [RegExp.parseTokens, RegExp.parseStep, ih, RegExp.PState.push]

/-- The tokens of the domain pattern of a hostname with the default path. -/
theorem lex_hostPattern (D : List Char) (hD : ∀ c ∈ D, isHostChar c = true) (mapObj : Mapping)
    (hp : mapObj.path = none) :
    RegExp.lex .normal (domainPattern (String.mk D) mapObj).data
      = .ok (prefixTokens ++ [.lparen] ++ hostTokens false D ++ suffixTokens) := by
  have hdata : (domainPattern (String.mk D) mapObj).data
      = "^http(s)?://(([a-zA-Z0-9-_]+\\.)*)(".data ++ (hostText false D ++ ")(/.*)?".data) := by
    unfold domainPattern
    rw [hp]
    simp [hostText]
  have hhead : (hostText false D ++ ")(/.*)?".data).head? ≠ some '?' := by
    cases D with
    | nil => simp [hostText, replaceFirst]
    | cons c cs =>
      rcases isHostChar_cases (hD c (List.mem_cons_self _ _)) with rfl | ⟨hc, hl⟩
      · rw [hostText_cons_dot]
        simp
      · rw [hostText_cons_label false c cs hc]
        have : c ≠ '?' := isLabelChar_ne hl (by decide)
        simpa using this
  rw [hdata, RegExp.lex_append _ _ _ _ _ lexRun_prefix, RegExp.lex_paren _ hhead,
    RegExp.lex_append _ _ _ _ _ (lexRun_hostText false D hD), lex_suffix]
  simp [Except.map]

/-- The abstract syntax of the domain pattern of a hostname with the default path. -/
theorem parse_hostPattern (D : List Char) (hD : ∀ c ∈ D, isHostChar c = true) (mapObj : Mapping)
    (hp : mapObj.path = none) :
    RegExp.parse (domainPattern (String.mk D) mapObj).data
      = .ok (domainRegex ((hostAtoms false D).foldr Regex.seq .eps)) := by
  unfold RegExp.parse
  rw [lex_hostPattern D hD mapObj hp]
  simp only
  rw [List.append_assoc, RegExp.parseTokens_append _ _ _ _ parseTokens_prefix,
    RegExp.parseTokens_append _ _ _ _ (parseTokens_hostTokens _ _ _)]
  simp only [suffixTokens, RegExp.parseTokens, RegExp.parseStep, RegExp.PState.push,
    RegExp.PState.quantify, RegExp.Frame.close, RegExp.mkAlt, List.append_nil,
    RegExp.mkSeq_reverse]
  rfl

/-- The atoms of a hostname match the hostname itself. -/
theorem mem_run_hostAtoms (n : Nat) (seen : Bool) (D : List Char) (k : Regex)
    (s t : List Char) (ht : t ∈ k.run n s) :
    t ∈ ((hostAtoms seen D).foldr Regex.seq k).run n (D ++ s) := by
  induction D generalizing seen with
  | nil => exact ht
  | cons c cs ih =>
    by_cases hc : c = '.'
    · subst hc
      rw [hostAtoms_cons_dot, List.foldr_cons, mem_run_seq]
      refine ⟨cs ++ s, ?_, ih true⟩
      cases seen with
      | true => exact (mem_run_any _ _ _).mpr ⟨'.', by decide, rfl⟩
      | false => exact (mem_run_char _ _ _ _).mpr rfl
    · rw [hostAtoms_cons_label seen c cs hc, List.foldr_cons, mem_run_seq]
      exact ⟨cs ++ s, (mem_run_char _ _ _ _).mpr rfl, ih seen⟩

/-- A text that begins with `http://` or `https://`, labels each followed by a dot, and a
text that the pattern of the domain matches, is matched at its start, up to the end of the
domain. -/
theorem domainRegex_run_of_start (dom : Regex) (text : List Char) (secure : Bool)
    (blocks : List (List Char)) (rest : List Char)
    (hbl : ∀ b ∈ blocks, b ≠ [] ∧ ∀ c ∈ b, isLabelChar c = true) (n : Nat)
    (hn : n = ((if secure then "https".data else "http".data) ++ "://".data
        ++ blocks.flatMap (fun b => b ++ ['.']) ++ text ++ rest).length)
    (hdom : rest ∈ dom.run n (text ++ rest)) :
    rest ∈ (domainRegex dom).run n
      ((if secure then "https".data else "http".data) ++ "://".data
        ++ blocks.flatMap (fun b => b ++ ['.']) ++ text ++ rest) := by
  simp only [domainRegex, mem_run_seq, mem_run_bol, mem_run_lits, mem_run_opt, mem_run_group,
    mem_run_star, mem_run_eps, reach_block, mem_run_char]
  refine ⟨_, ⟨rfl, hn.symm⟩, ?_⟩
  cases secure with
  | false =>
    refine ⟨"://".data ++ blocks.flatMap (fun b => b ++ ['.']) ++ text ++ rest, by simp, ?_⟩
    refine ⟨_, Or.inl rfl, blocks.flatMap (fun b => b ++ ['.']) ++ text ++ rest, by simp, ?_⟩
    refine ⟨_, ⟨text ++ rest, ⟨blocks, hbl, by simp⟩, rfl⟩, ?_⟩
    exact ⟨rest, hdom, rest, Or.inl rfl, rfl⟩
  | true =>
    refine ⟨"s://".data ++ blocks.flatMap (fun b => b ++ ['.']) ++ text ++ rest, by simp, ?_⟩
    refine ⟨"://".data ++ blocks.flatMap (fun b => b ++ ['.']) ++ text ++ rest,
      Or.inr ⟨⟨_, by simp, rfl⟩, by simp⟩, blocks.flatMap (fun b => b ++ ['.']) ++ text ++ rest,
      by simp, ?_⟩
    refine ⟨_, ⟨text ++ rest, ⟨blocks, hbl, by simp⟩, rfl⟩, ?_⟩
    exact ⟨rest, hdom, rest, Or.inl rfl, rfl⟩

/-- The options `registerKey` builds for a hostname other than `"global"` and a declaration
without path, and what their predicate tests. -/
theorem buildOpts_host (D : List Char) (hD : ∀ c ∈ D, isHostChar c = true)
    (hg : String.mk D ≠ "global") (mapObj : Mapping) (hp : mapObj.path = none) :
    buildOpts (String.mk D) mapObj = .ok ⟨some ⟨domainPattern (String.mk D) mapObj⟩⟩ ∧
      ∀ u : List Char,
        RegExp.test ⟨domainPattern (String.mk D) mapObj⟩ (String.mk u)
          = (domainRegex ((hostAtoms false D).foldr Regex.seq .eps)).test u := by
  have hparse := parse_hostPattern D hD mapObj hp
  constructor
  · simp only [buildOpts, RegExp.new, hparse, if_pos hg]
  · intro u
    simp only [RegExp.test, hparse]

/-- C22: the domain pattern is anchored at the start only. For every hostname D (labels and
dots) other than `"global"` and a declaration with the default path, `registerKey` builds
and submits a predicate that holds of every text that begins with `http://` or `https://`,
labels each followed by a dot, and D, whatever follows D. For `github.com` it holds of
`https://github.com.evil.example/` and of `https://github.community`. -/
theorem domain_predicate_start_anchored {σ : Type} (H : Host σ) (categories : Categories)
    (D : List Char) (blocks : List (List Char)) (rest : List Char) (secure : Bool)
    (mapObj : Mapping) (siteleader : Option String) (mode : String) (w : World σ)
    (hD : ∀ c ∈ D, isHostChar c = true) (hg : String.mk D ≠ "global")
    (hbl : ∀ b ∈ blocks, b ≠ [] ∧ ∀ c ∈ b, isLabelChar c = true)
    (hp : mapObj.path = none) :
    (∃ re, buildOpts (String.mk D) mapObj = .ok ⟨some re⟩ ∧
      (registerKey H categories (String.mk D) mapObj siteleader mode w).2.calls
        = w.calls ++ [bindCall categories (String.mk D) mapObj siteleader mode ⟨some re⟩] ∧
      re.test (String.mk ((if secure then "https".data else "http".data) ++ "://".data
        ++ blocks.flatMap (fun b => b ++ ['.']) ++ D ++ rest)) = true) ∧
    buildOpts "github.com" Example.callbackA
      = .ok ⟨some ⟨"^http(s)?://(([a-zA-Z0-9-_]+\\.)*)(github\\.com)(/.*)?"⟩⟩ ∧
    RegExp.test ⟨"^http(s)?://(([a-zA-Z0-9-_]+\\.)*)(github\\.com)(/.*)?"⟩
      "https://github.com.evil.example/" = true ∧
    RegExp.test ⟨"^http(s)?://(([a-zA-Z0-9-_]+\\.)*)(github\\.com)(/.*)?"⟩
      "https://github.community" = true := by
  refine ⟨?_, by decide, by decide, by decide⟩
  obtain ⟨hb, ht⟩ := buildOpts_host D hD hg mapObj hp
  refine ⟨_, hb, ?_, ?_⟩
  · rw [registerKey_of_ok H categories _ mapObj siteleader mode w _ hb, tryBind_calls]
  · rw [ht]
    unfold Regex.test
    rw [searchFrom_true_iff]
    refine ⟨_, rest, List.suffix_refl _, ?_⟩
    apply domainRegex_run_of_start _ D secure blocks rest hbl _ rfl
    exact mem_run_hostAtoms _ false D .eps rest rest ((mem_run_eps _ _ _).mpr rfl)

/-- Witness of C22: the domain `home.nest.com`, of three labels, and the text
`http://www.home.nest.com.evil.example/`. -/
theorem domain_predicate_start_anchored_witness :
    ∃ re, buildOpts "home.nest.com" Example.callbackA = .ok ⟨some re⟩ ∧
      re.test "http://www.home.nest.com.evil.example/" = true :=
  have h := domain_predicate_start_anchored Host.quiet Example.categories
    "home.nest.com".data ["www".data] ".evil.example/".data false Example.callbackA (some "r")
    "n" Example.w0 (by decide) (by decide) (by decide) rfl
  h.1.imp fun _ hre => ⟨hre.1, hre.2.2⟩

/-! ## Host errors do not stop the loops -/

theorem forEach_normal_of_mem {σ α : Type} (body : α → World σ → Completion × World σ)
    (xs : List α) (h : ∀ x ∈ xs, ∀ w, (body x w).1 = .normal) (w : World σ) :
    (forEach body xs w).1 = .normal := by
  induction xs generalizing w with
  | nil => rfl
  | cons x xs ih =>
    have hx := h x (List.mem_cons_self _ _) w
    simp only [forEach]
    rcases hb : body x w with ⟨c, w1⟩
    rw [hb] at hx
    simp only at hx
    subst hx
    exact ih (fun y hy => h y (List.mem_cons_of_mem _ hy)) w1

theorem registerKey_quiet_specCalls (categories : Categories) (domain : String)
    (mapObj : Mapping) (siteleader : Option String) (mode : String) :
    (registerKey Host.quiet categories domain mapObj siteleader mode
        { host := (), calls := [], console := [] }).2.calls
      = specCalls categories domain siteleader mode mapObj := by
  unfold specCalls
  rcases hb : buildOpts domain mapObj with e | opts
  · rw [registerKey_of_error Host.quiet _ _ _ _ _ _ e hb]
  · rw [registerKey_of_ok Host.quiet _ _ _ _ _ _ opts hb, tryBind_calls]
    rfl

theorem toBool_eq_true_iff {ε α : Type} (x : Except ε α) :
    x.toBool = true ↔ ∃ a, x = .ok a := by
  cases x <;> simp [Except.toBool]

/-- C3: when the host raises on the call `registerKey` submits for a declaration, `registerKey`
returns normally and writes one console line that holds the alias and the mode. Whatever
calls the host raises on, `registerKeys` ends the same way and submits the same calls in the
same order as under a host that never raises: its calls are, entry after entry of the
hydrated map and declaration after declaration, the one call of each declaration, up to the
first declaration whose options cannot be built; when every entry has a list and the options
of every declaration can be built, `registerKeys` returns normally having submitted the call
of every declaration of every domain. -/
theorem registerKeys_isolates_host_errors {σ : Type} (H : Host σ) (categories : Categories)
    (maps : JSObject (List Mapping)) (aliases : JSObject (List String))
    (siteleader : Option String) (mode : String) (w : World σ)
    (domain : String) (mapObj : Mapping) (w1 : World σ) (c : HostCall) (e : String)
    (hsub : (registerKey H categories domain mapObj siteleader mode w1).2.calls = w1.calls ++ [c])
    (hraise : (H.call w1.host c).2 = some e) :
    ((registerKey H categories domain mapObj siteleader mode w1).1 = .normal ∧
      (registerKey H categories domain mapObj siteleader mode w1).2.console
        = w1.console
          ++ ["Error registering key " ++ tpl mapObj.alias_ ++ ": " ++ e ++ ". Mode: " ++ mode]) ∧
    (registerKeys H categories maps aliases siteleader mode w).1
      = (registerKeys Host.quiet categories maps aliases siteleader mode
          { host := (), calls := w.calls, console := [] }).1 ∧
    (registerKeys H categories maps aliases siteleader mode w).2.calls
      = (registerKeys Host.quiet categories maps aliases siteleader mode
          { host := (), calls := w.calls, console := [] }).2.calls ∧
    (∃ new, (registerKeys H categories maps aliases siteleader mode w).2.calls = w.calls ++ new ∧
      new <+: (Object.entries (mapsAndAliases maps aliases)).flatMap fun p =>
        (p.2.getD []).flatMap (specCalls categories p.1 siteleader mode)) ∧
    ((∀ p ∈ Object.entries (mapsAndAliases maps aliases),
        p.2.isSome = true ∧ ∀ m ∈ p.2.getD [], (buildOpts p.1 m).toBool = true) →
      (registerKeys H categories maps aliases siteleader mode w).1 = .normal ∧
      (registerKeys H categories maps aliases siteleader mode w).2.calls
        = w.calls ++ (Object.entries (mapsAndAliases maps aliases)).flatMap fun p =>
            (p.2.getD []).flatMap (specCalls categories p.1 siteleader mode)) := by
  have hexp : ((Object.entries (mapsAndAliases maps aliases)).flatMap fun p =>
        (p.2.getD []).flatMap fun m =>
          (registerKey Host.quiet categories p.1 m siteleader mode
            { host := (), calls := [], console := [] }).2.calls)
      = (Object.entries (mapsAndAliases maps aliases)).flatMap fun p =>
        (p.2.getD []).flatMap (specCalls categories p.1 siteleader mode) := by
    simp only [registerKey_quiet_specCalls]
  obtain ⟨new, hnew, hpre, hfull⟩ :=
    emits_registerKeys_entries H categories maps aliases siteleader mode w
  rw [hexp] at hpre hfull
  refine ⟨?_, (registerKeys_sim H Host.quiet categories maps aliases siteleader mode w _ rfl).1,
    (registerKeys_sim H Host.quiet categories maps aliases siteleader mode w _ rfl).2,
    ⟨new, hnew, hpre⟩, ?_⟩
  · rcases registerKey_calls H categories domain mapObj siteleader mode w1 with
      ⟨e1, _, hr⟩ | ⟨opts, hb, hn, hc⟩
    · rw [hr] at hsub
      simp at hsub
    · refine ⟨hn, ?_⟩
      rw [hc] at hsub
      have hcc : bindCall categories domain mapObj siteleader mode opts = c := by
        simpa using hsub
      rw [registerKey_of_ok H _ _ _ _ _ _ opts hb]
      rw [hcc]
      exact tryBind_console_of_raise H _ _ _ _ e hraise
  · intro hall
    have hn : (registerKeys H categories maps aliases siteleader mode w).1 = .normal := by
      rw [registerKeys_eq_forEach]
      apply forEach_normal_of_mem
      intro p hp w2
      obtain ⟨hsome, hbuild⟩ := hall p hp
      unfold registerDomain
      cases hl : p.2 with
      | none =>
        rw [hl] at hsome
        cases hsome
      | some l =>
        simp only
        apply forEach_normal_of_mem
        intro m hm w3
        rw [registerKey_normal_iff]
        apply (toBool_eq_true_iff _).mp
        apply hbuild
        rw [hl]
        exact hm
    refine ⟨hn, ?_⟩
    rw [hnew, hfull hn]

/-- Witness of C3: the host that raises on every call, and a domain map with two
declarations for `github.com` and one for `"global"`: the three calls are submitted and
three lines are logged. -/
theorem registerKeys_isolates_host_errors_witness :
    ((registerKey Example.rejecting Example.categories "github.com" Example.callbackA (some "r")
        "n" Example.w0).1 = .normal ∧
      (registerKey Example.rejecting Example.categories "github.com" Example.callbackA (some "r")
        "n" Example.w0).2.console = ["Error registering key a: Error: rejected. Mode: n"]) ∧
    registerKeys Example.rejecting Example.categories Example.mapsTwoDomains [] (some "r") "n"
        Example.w0
      = (.normal,
          { host := (),
            calls :=
              [.mapkey "ra" "#misc " (some (.user 0))
                 (some ⟨some ⟨"^http(s)?://(([a-zA-Z0-9-_]+\\.)*)(github\\.com)(/.*)?"⟩⟩),
               .map (some "a") "b",
               .mapkey "x" "#misc " (some (.user 14)) (some ⟨none⟩)],
            console :=
              ["Error registering key a: Error: rejected. Mode: n",
               "Error registering key a: Error: rejected. Mode: n",
               "Error registering key x: Error: rejected. Mode: n"] }) ∧
    (registerKeys Example.rejecting Example.categories Example.mapsTwoDomains [] (some "r") "n"
        Example.w0).2.calls
      = (Object.entries (mapsAndAliases Example.mapsTwoDomains [])).flatMap fun p =>
          (p.2.getD []).flatMap (specCalls Example.categories p.1 (some "r") "n") :=
  have h := registerKeys_isolates_host_errors Example.rejecting Example.categories
    Example.mapsTwoDomains [] (some "r") "n" Example.w0 "github.com" Example.callbackA
    Example.w0
    (.mapkey "ra" "#misc " (some (.user 0))
      (some { domain := some { source := "^http(s)?://(([a-zA-Z0-9-_]+\\.)*)(github\\.com)(/.*)?" } }))
    "Error: rejected" (by decide) rfl
  ⟨h.1, by decide, (h.2.2.2.2 (by decide)).2⟩

/-- C7, counterexample: the host of `https://github.com.nogithub.com` ends with `github.com`
with the letter `o`, not a dot, before it, and the predicate built for `github.com` and a
declaration without path matches this URL, since the URL begins with `https://github.com`. -/
theorem domain_predicate_host_suffix_counterexample :
    "https://github.com.nogithub.com" = "https://" ++ "github.com.no" ++ "github.com" ∧
    buildOpts "github.com" Example.callbackA
      = .ok ⟨some ⟨"^http(s)?://(([a-zA-Z0-9-_]+\\.)*)(github\\.com)(/.*)?"⟩⟩ ∧
    RegExp.test ⟨"^http(s)?://(([a-zA-Z0-9-_]+\\.)*)(github\\.com)(/.*)?"⟩
      "https://github.com.nogithub.com" = true := by
  decide

end Surfingkeys
